import Mathlib

/-! Reward ledger and portfolio valuation: a shallow embedding.

The development follows `internal/services/reward_service.go`,
`internal/services/portfolio_service.go`, `internal/services/stock_price_service.go`
and the schema of `internal/database/migrations.go`.

Conventions.

* Go `string` values stay `String`.  A `NUMERIC(p, s)` column holds an `Int` counting units
  of `10^-s`; the database converts text to such a value on input (`numericIn`) and prints it
  with `s` fractional digits on output (`numericOut`).
* A Go `float64` is a finite sign / mantissa / exponent triple (`F64`).  Every operation
  rounds the exact result to the nearest 53-bit value, ties to even.  Overflow to infinity,
  NaN and subnormal precision loss are outside the model, which is exact on the range of the
  `NUMERIC(18, 6)` and `NUMERIC(18, 4)` columns.
* `fmt.Sscanf(s, "%f", &v)` and the input conversion of a `NUMERIC` column are modelled on
  plain decimal literals (sign, digits, optional fraction): the form of every text a
  `NUMERIC` column returns and of every text `%.4f` prints for a finite value.  Texts of
  another form are outside the model, which scans them as zero and lets the column refuse
  them.  This is what Go and PostgreSQL do for a text such as `abc`, but not for all of them:
  `Sscanf` also reads leading blanks, an exponent, the numeric prefix of a longer text, `NaN`
  and `Inf`, and PostgreSQL also accepts surrounding blanks, an exponent and `NaN`.
* A text longer than its `VARCHAR(n)` column is refused.  PostgreSQL makes one exception,
  outside the model: excess characters that are all blanks are cut off and the rest is stored.
* The closed evaluations below stay where the model and the two systems agree: every numeric
  text in them is a plain decimal literal or the text `abc`, and no text bound for a
  `VARCHAR` column ends in a blank.
* Statements against the database can fail for reasons outside the program (connection loss,
  a concurrent transaction).  Such failures are injected through a `Faults` record.
* Identifiers from `uuid.New()` and the random draw of the price generator are inputs.
-/

namespace Stocky

/-! ## Decimal text -/

/-- The decimal digit `d` as a character. -/
def digitChar (d : Nat) : Char := Char.ofNat (48 + d % 10)

/-- The `k` low decimal digits of `n`, most significant first. -/
def fixedDigits : Nat → Nat → List Char
  | 0, _ => []
  | k + 1, n => fixedDigits k (n / 10) ++ [digitChar n]

/-- Number of decimal digits of `n` (at least one), by fuel. -/
def decLenAux : Nat → Nat → Nat
  | 0, _ => 1
  | fuel + 1, n => if n < 10 then 1 else 1 + decLenAux fuel (n / 10)

/-- Number of decimal digits of `n`; `n` itself is enough fuel. -/
def decLen (n : Nat) : Nat := decLenAux n n

/-- Decimal digits of a natural number without leading zeros. -/
def natDigits (n : Nat) : List Char := fixedDigits (decLen n) n

/-- Value of a list of decimal digits; `none` if some character is not a digit. -/
def digitsValue : List Char → Option Nat
  | [] => some 0
  | c :: cs =>
    if c.isDigit then (digitsValue cs).map (fun v => (c.toNat - 48) * 10 ^ cs.length + v)
    else none

/-- A parsed decimal literal: `(-1)^neg * digits / 10^scale`. -/
structure Decimal where
  neg : Bool
  digits : Nat
  scale : Nat
deriving DecidableEq, Repr

/-- Splits off an optional leading sign. -/
def splitSign : List Char → Bool × List Char
  | '-' :: cs => (true, cs)
  | '+' :: cs => (false, cs)
  | cs => (false, cs)

/-- Reads a plain decimal literal: optional sign, digits, optional `.` and digits, with at
least one digit in all. -/
def parseDecimal (s : String) : Option Decimal :=
  let (neg, body) := splitSign s.data
  let ip := body.takeWhile (fun c => c != '.')
  let rest := body.dropWhile (fun c => c != '.')
  let fp := rest.drop 1
  if ip.length + fp.length = 0 then none
  else
    match digitsValue ip, digitsValue fp with
    | some i, some f => some ⟨neg, i * 10 ^ fp.length + f, fp.length⟩
    | _, _ => none

/-! ## Binary64 arithmetic -/

/-- A finite binary64 value `(-1)^neg * m * 2^e`. -/
structure F64 where
  neg : Bool
  m : Nat
  e : Int
deriving DecidableEq, Repr

/-- Positive zero, the value of an uninitialised `float64`. -/
def F64.zero : F64 := ⟨false, 0, 0⟩

/-- Number of binary digits of `n`, by fuel. -/
def bitLenAux : Nat → Nat → Nat
  | 0, _ => 0
  | fuel + 1, n => if n = 0 then 0 else 1 + bitLenAux fuel (n / 2)

/-- Number of binary digits of `n`. -/
def bitLen (n : Nat) : Nat := bitLenAux n n

/-- Nearest integer to `n / d`, ties to the even neighbour. -/
def roundHalfEven (n d : Nat) : Nat :=
  let q := n / d
  let r := n % d
  if 2 * r < d then q
  else if d < 2 * r then q + 1
  else if q % 2 = 0 then q else q + 1

/-- Numerator and denominator of `n / (d * 2^e)`. -/
def scaleRatio (n d : Nat) (e : Int) : Nat × Nat :=
  match e with
  | Int.ofNat k => (n, d * 2 ^ k)
  | Int.negSucc k => (n * 2 ^ (k + 1), d)

/-- The binary64 value nearest to `(-1)^neg * n / d` (round to nearest, ties to even), for
`d > 0`. -/
def roundRatio (neg : Bool) (n d : Nat) : F64 :=
  if n = 0 then ⟨neg, 0, 0⟩
  else
    let e1 : Int := (bitLen n : Int) - (bitLen d : Int) - 53
    let s1 := scaleRatio n d e1
    let e : Int := if s1.1 / s1.2 < 2 ^ 53 then e1 else e1 + 1
    let s := scaleRatio n d e
    ⟨neg, roundHalfEven s.1 s.2, e⟩

/-- Numerator and denominator of the magnitude of a value. -/
def F64.ratio (x : F64) : Nat × Nat := scaleRatio x.m 1 (-x.e)

/-- Is the value a zero of either sign (`x == 0` in Go). -/
def F64.isZero (x : F64) : Bool := x.m == 0

/-- The binary64 value of a decimal literal (`strconv.ParseFloat`). -/
def F64.ofDecimal (d : Decimal) : F64 := roundRatio d.neg d.digits (10 ^ d.scale)

/-- Product `a * b`. -/
def F64.mul (a b : F64) : F64 :=
  let ra := a.ratio
  let rb := b.ratio
  roundRatio (xor a.neg b.neg) (ra.1 * rb.1) (ra.2 * rb.2)

/-- Quotient `a / b`, for `b` not zero. -/
def F64.div (a b : F64) : F64 :=
  let ra := a.ratio
  let rb := b.ratio
  roundRatio (xor a.neg b.neg) (ra.1 * rb.2) (ra.2 * rb.1)

/-- The magnitude as a signed integer numerator over the denominator `2^k`, where `2^-k` is
a common unit of both operands of a sum. -/
def F64.signedAt (x : F64) (emin : Int) : Int :=
  let v : Int := (x.m : Int) * 2 ^ (x.e - emin).toNat
  if x.neg then -v else v

/-- Sum `a + b`.  An exact zero sum is `+0` unless both operands are negative zeros. -/
def F64.add (a b : F64) : F64 :=
  let emin := min a.e b.e
  let s : Int := a.signedAt emin + b.signedAt emin
  if s = 0 then ⟨a.neg && b.neg && a.isZero && b.isZero, 0, 0⟩
  else
    let r := scaleRatio s.natAbs 1 (-emin)
    roundRatio (decide (s < 0)) r.1 r.2

/-- `fmt.Sscanf(s, "%f", &v)` on a zero-initialised `v`, the error discarded, for a plain
decimal literal `s`, and for a text on which the scan fails outright (such as `abc`), where
`v` stays zero.  Other texts that Go scans to a non-zero value (leading blanks, an exponent,
a numeric prefix of a longer text, `NaN`, `Inf`) are outside the model and scanned as zero
here. -/
def sscanF (s : String) : F64 :=
  match parseDecimal s with
  | some d => F64.ofDecimal d
  | none => F64.zero

/-- The value scaled by `10^4` and rounded to an integer, ties to even: the digits that
`%.4f` prints. -/
def F64.units4 (x : F64) : Nat :=
  let r := x.ratio
  roundHalfEven (r.1 * 10 ^ 4) r.2

/-- Text of a sign and a count of `10^-k` units with exactly `k` fractional digits. -/
def fixedText (neg : Bool) (units k : Nat) : String :=
  ⟨(if neg then ['-'] else []) ++ natDigits (units / 10 ^ k) ++ ['.'] ++ fixedDigits k units⟩

/-- `fmt.Sprintf("%.4f", x)`. -/
def sprintf4 (x : F64) : String := fixedText x.neg x.units4 4

/-! ## Amount helpers of the services -/

/-- Go `multiplyAmounts`: both operands scanned as `float64`, the product printed with
`%.4f`. -/
def multiplyAmounts (a b : String) : String :=
  let valA := sscanF a
  let valB := sscanF b
  sprintf4 (valA.mul valB)

/-- Go `divideAmount`. -/
def divideAmount (a b : String) : String :=
  let valA := sscanF a
  let valB := sscanF b
  if valB.isZero then "0.0000"
  else sprintf4 (valA.div valB)

/-- Go `addAmounts`: a running `float64` total starting at zero, printed with `%.4f`. -/
def addAmounts (amounts : List String) : String :=
  sprintf4 (amounts.foldl (fun total amt => total.add (sscanF amt)) F64.zero)

/-- Go `calculateBrokerage`. -/
def calculateBrokerage (quantity price : String) : String :=
  let value := multiplyAmounts quantity price
  divideAmount value "10000"

/-- Go `calculateSTT`. -/
def calculateSTT (quantity price : String) : String :=
  let value := multiplyAmounts quantity price
  divideAmount value "1000"

/-- Go `calculateGST`. -/
def calculateGST (brokerage : String) : String :=
  multiplyAmounts brokerage "0.18"

/-- Go `calculateOtherFees`: a fixed amount, whatever the arguments. -/
def calculateOtherFees (_quantity _price : String) : String :=
  "10.0000"

/-! ## The persisted schema -/

/-- An instant, in seconds since the epoch. -/
abbrev Time := Int

/-- Failures a statement can report. -/
inductive DbError
  | uniqueViolation (constr : String)
  | foreignKeyViolation
  | invalidText
  | numericOverflow
  | valueTooLong
  | connection
deriving DecidableEq, Repr

/-- Input conversion of a `NUMERIC(p, s)` column on a plain decimal literal: it is rounded to
`s` fractional digits, half away from zero, and must then have fewer than `p` digits in all.
The result counts units of `10^-s`.  Any other text is refused as invalid, as PostgreSQL
refuses `abc`; the further forms PostgreSQL accepts (surrounding blanks, an exponent, `NaN`)
are outside the model and refused here as well. -/
def numericIn (p s : Nat) (text : String) : Except DbError Int :=
  match parseDecimal text with
  | none => .error .invalidText
  | some d =>
    let units := (2 * d.digits * 10 ^ s + 10 ^ d.scale) / (2 * 10 ^ d.scale)
    if 10 ^ p ≤ units then .error .numericOverflow
    else .ok (if d.neg then -(units : Int) else (units : Int))

/-- Output of a `NUMERIC` value with display scale `s`. -/
def numericOut (s : Nat) (v : Int) : String :=
  fixedText (decide (v < 0)) v.natAbs s

/-- A row of `reward_events` (the defaulted `created_at`, `updated_at` are never read). -/
structure RewardEventRow where
  id : String
  user_id : String
  stock_symbol : String
  quantity : Int
  reward_timestamp : Time
  event_id : String
deriving DecidableEq, Repr

/-- A row of `ledger_entries` (its generated `id` and `created_at` are never read). -/
structure LedgerEntryRow where
  reward_event_id : Option String
  entry_type : String
  account_type : String
  stock_symbol : Option String
  quantity : Option Int
  amount : Int
  description : Option String
deriving DecidableEq, Repr

/-- A row of `stock_prices`. -/
structure StockPriceRow where
  stock_symbol : String
  price : Int
  price_timestamp : Time
deriving DecidableEq, Repr

/-- A row of `portfolio_snapshots`; the date is a day number. -/
structure PortfolioSnapshotRow where
  user_id : String
  snapshot_date : Int
  stock_symbol : String
  total_quantity : Int
  price_per_unit : Int
  total_inr_value : Int
deriving DecidableEq, Repr

/-- The committed contents of the four tables. -/
structure Store where
  reward_events : List RewardEventRow
  ledger_entries : List LedgerEntryRow
  stock_prices : List StockPriceRow
  portfolio_snapshots : List PortfolioSnapshotRow
deriving DecidableEq, Repr

/-- Every ledger row that names an owning event names one that exists
(`reward_event_id UUID REFERENCES reward_events(id)`). -/
def Store.fkIntegrity (db : Store) : Prop :=
  ∀ l ∈ db.ledger_entries, ∀ rid, l.reward_event_id = some rid →
    ∃ ev ∈ db.reward_events, ev.id = rid

/-! ## Statements issued by `CreateReward` -/

/-- `SELECT id FROM reward_events WHERE event_id = $1`. -/
def selectEventId (tx : Store) (eventID : String) : Option String :=
  (tx.reward_events.find? (fun r => r.event_id == eventID)).map (fun r => r.id)

/-- `INSERT INTO reward_events (id, user_id, stock_symbol, quantity, reward_timestamp,
event_id)`, under the column types and the two uniqueness constraints of the table.  A text
longer than its `VARCHAR` column is refused; the one case in which PostgreSQL stores such a
text, cut to the column length because the excess is all blanks, is outside the model. -/
def insertRewardEvent (tx : Store) (id userID stockSymbol quantity : String)
    (rewardTimestamp : Time) (eventID : String) : Except DbError Store :=
  match numericIn 18 6 quantity with
  | .error e => .error e
  | .ok q =>
    if 255 < userID.length ∨ 50 < stockSymbol.length ∨ 255 < eventID.length then
      .error .valueTooLong
    else if tx.reward_events.any (fun r => r.id == id) then
      .error (.uniqueViolation "reward_events_pkey")
    else if tx.reward_events.any (fun r => r.event_id == eventID) then
      .error (.uniqueViolation "reward_events_event_id_key")
    else
      .ok { tx with reward_events := tx.reward_events ++
              [⟨id, userID, stockSymbol, q, rewardTimestamp, eventID⟩] }

/-- The later of two price rows; the first on equal timestamps. -/
def laterPrice (a b : StockPriceRow) : StockPriceRow :=
  if a.price_timestamp < b.price_timestamp then b else a

/-- `SELECT price FROM stock_prices WHERE stock_symbol = $1 ORDER BY price_timestamp DESC
LIMIT 1`: the row, if the symbol has one. -/
def latestPriceRow (rows : List StockPriceRow) (stockSymbol : String) : Option StockPriceRow :=
  match rows.filter (fun r => r.stock_symbol == stockSymbol) with
  | [] => none
  | r :: rs => some (rs.foldl laterPrice r)

/-- The price text the query scans into a Go string. -/
def selectLatestPrice (tx : Store) (stockSymbol : String) : Option String :=
  (latestPriceRow tx.stock_prices stockSymbol).map (fun r => numericOut 4 r.price)

/-- One element of the `ledgerEntries` slice of `CreateReward`. -/
structure LedgerInsert where
  entryType : String
  accountType : String
  stockSymbol : Option String
  quantity : Option String
  amount : String
  description : String
deriving DecidableEq, Repr

/-- Input conversion of a nullable `NUMERIC(18, 6)` parameter. -/
def nullableQuantityIn : Option String → Except DbError (Option Int)
  | none => .ok none
  | some q =>
    match numericIn 18 6 q with
    | .error e => .error e
    | .ok v => .ok (some v)

/-- Is a nullable text within a `VARCHAR(n)` column. -/
def fitsVarchar (n : Nat) : Option String → Bool
  | none => true
  | some s => decide (s.length ≤ n)

/-- `INSERT INTO ledger_entries (id, reward_event_id, entry_type, account_type, stock_symbol,
quantity, amount, description) VALUES (gen_random_uuid(), ...)`. -/
def insertLedgerEntry (tx : Store) (rewardID : String) (en : LedgerInsert) :
    Except DbError Store :=
  match nullableQuantityIn en.quantity, numericIn 18 4 en.amount with
  | .error e, _ => .error e
  | .ok _, .error e => .error e
  | .ok q, .ok amt =>
    if 50 < en.entryType.length ∨ 50 < en.accountType.length ∨
        fitsVarchar 50 en.stockSymbol = false then
      .error .valueTooLong
    else if tx.reward_events.any (fun r => r.id == rewardID) then
      .ok { tx with ledger_entries := tx.ledger_entries ++
              [⟨some rewardID, en.entryType, en.accountType, en.stockSymbol, q, amt,
                some en.description⟩] }
    else .error .foreignKeyViolation

/-! ## `RewardService.CreateReward` -/

/-- Go `error` values returned by the services: the sentinel `ErrDuplicateEvent`, or the
error of a failed statement passed through unchanged. -/
inductive Err
  | ErrDuplicateEvent
  | db (e : DbError)
deriving DecidableEq, Repr

/-- Go `models.RewardEvent` as `CreateReward` fills it. -/
structure RewardEvent where
  ID : String
  UserID : String
  StockSymbol : String
  Quantity : String
  RewardTimestamp : Time
  EventID : String
deriving DecidableEq, Repr

/-- Calls made on the database handle, in order. -/
inductive Stmt
  | begin
  | selectEventId (eventID : String)
  | insertRewardEvent (id userID stockSymbol quantity eventID : String)
  | selectLatestPrice (stockSymbol : String)
  | insertLedgerEntry (rewardID : String) (en : LedgerInsert)
  | commit
  | rollback
deriving DecidableEq, Repr

/-- Is the call a read of table contents. -/
def Stmt.isRead : Stmt → Bool
  | .selectEventId _ => true
  | .selectLatestPrice _ => true
  | _ => false

/-- Is the call a write attempt on a table. -/
def Stmt.isWrite : Stmt → Bool
  | .insertRewardEvent _ _ _ _ _ => true
  | .insertLedgerEntry _ _ => true
  | _ => false

/-- Failures from outside the program, one slot per call of `CreateReward` on the database
handle; `insertLedger i` is the slot of the `i`-th ledger insert. -/
structure Faults where
  begin : Option DbError
  lookup : Option DbError
  insertEvent : Option DbError
  priceRead : Option DbError
  insertLedger : Nat → Option DbError
  commit : Option DbError

/-- No outside failure. -/
def Faults.clean : Faults := ⟨none, none, none, none, fun _ => none, none⟩

/-- A statement's result under an injected failure. -/
def faulty {α : Type} (fault : Option DbError) (r : Except DbError α) : Except DbError α :=
  match fault with
  | some e => .error e
  | none => r

/-- What a call leaves behind: the returned pair, the committed store and the calls made. -/
structure Outcome where
  result : Except Err RewardEvent
  db : Store
  trace : List Stmt

/-- The `ledgerEntries` slice literal of `CreateReward`. -/
def ledgerEntries (stockSymbol quantity totalCashOutflow brokerage stt gst otherFees : String) :
    List LedgerInsert :=
  [ ⟨"STOCK_CREDIT", "STOCK", some stockSymbol, some quantity, "0.0000", "Stock reward credit"⟩,
    ⟨"CASH_DEBIT", "CASH", none, none, totalCashOutflow, "Cash outflow for stock purchase"⟩,
    ⟨"BROKERAGE_FEE", "FEES", none, none, brokerage, "Brokerage fee"⟩,
    ⟨"STT_FEE", "FEES", none, none, stt, "Securities Transaction Tax"⟩,
    ⟨"GST_FEE", "FEES", none, none, gst, "GST on brokerage"⟩,
    ⟨"OTHER_FEE", "FEES", none, none, otherFees, "Other regulatory fees"⟩ ]

/-- The slice `CreateReward` builds from the quantity and the reference price. -/
def buildLedgerEntries (stockSymbol quantity currentPrice : String) : List LedgerInsert :=
  let brokerage := calculateBrokerage quantity currentPrice
  let stt := calculateSTT quantity currentPrice
  let gst := calculateGST brokerage
  let otherFees := calculateOtherFees quantity currentPrice
  let totalFees := addAmounts [brokerage, stt, gst, otherFees]
  let totalCashOutflow := addAmounts [multiplyAmounts quantity currentPrice, totalFees]
  ledgerEntries stockSymbol quantity totalCashOutflow brokerage stt gst otherFees

/-- The `for _, entry := range ledgerEntries` loop: inserts in order and stops at the first
failure.  Returns the transaction state and the inserts issued. -/
def insertLedgerLoop (f : Faults) (rewardID : String) :
    List LedgerInsert → Nat → Store → Except DbError Store × List Stmt
  | [], _, tx => (.ok tx, [])
  | en :: rest, i, tx =>
    match faulty (f.insertLedger i) (insertLedgerEntry tx rewardID en) with
    | .error e => (.error e, [Stmt.insertLedgerEntry rewardID en])
    | .ok tx1 =>
      let r := insertLedgerLoop f rewardID rest (i + 1) tx1
      (r.1, Stmt.insertLedgerEntry rewardID en :: r.2)

/-- Go `RewardService.CreateReward`.  `db` is the committed store, `tx` the state inside the
transaction; every error return leaves through the deferred `tx.Rollback()`, which discards
`tx`.  `rewardID` is the value of `uuid.New().String()`. -/
def CreateReward (db : Store) (f : Faults)
    (rewardID userID stockSymbol quantity eventID : String) (rewardTimestamp : Time) : Outcome :=
  match f.begin with
  | some e => ⟨.error (.db e), db, [.begin]⟩
  | none =>
    let tx := db
    let t1 := [Stmt.begin, Stmt.selectEventId eventID]
    -- Check for duplicate event_id
    match faulty f.lookup (.ok (selectEventId tx eventID)) with
    | .error e => ⟨.error (.db e), db, t1 ++ [.rollback]⟩
    | .ok (some _) => ⟨.error .ErrDuplicateEvent, db, t1 ++ [.rollback]⟩
    | .ok none =>
      -- Insert reward event
      let t2 := t1 ++ [Stmt.insertRewardEvent rewardID userID stockSymbol quantity eventID]
      match faulty f.insertEvent
          (insertRewardEvent tx rewardID userID stockSymbol quantity rewardTimestamp eventID) with
      | .error e => ⟨.error (.db e), db, t2 ++ [.rollback]⟩
      | .ok tx1 =>
        -- Get current stock price for calculations
        let t3 := t2 ++ [Stmt.selectLatestPrice stockSymbol]
        match faulty f.priceRead (.ok (selectLatestPrice tx1 stockSymbol)) with
        | .error e => ⟨.error (.db e), db, t3 ++ [.rollback]⟩
        | .ok found =>
          -- If no price found, use a default price
          let currentPrice := found.getD "100.0000"
          let entries := buildLedgerEntries stockSymbol quantity currentPrice
          match insertLedgerLoop f rewardID entries 0 tx1 with
          | (.error e, t4) => ⟨.error (.db e), db, t3 ++ t4 ++ [.rollback]⟩
          | (.ok tx2, t4) =>
            match f.commit with
            | some e => ⟨.error (.db e), db, t3 ++ t4 ++ [.commit, .rollback]⟩
            | none =>
              ⟨.ok ⟨rewardID, userID, stockSymbol, quantity, rewardTimestamp, eventID⟩, tx2,
                t3 ++ t4 ++ [.commit, .rollback]⟩

/-! ## `StockPriceService` -/

/-- The `priceCache` map, as an association list with at most one binding per symbol read
from the front. -/
abbrev PriceCache := List (String × String)

/-- Go `s.priceCache[stockSymbol] = price`. -/
def PriceCache.set (cache : PriceCache) (stockSymbol price : String) : PriceCache :=
  (stockSymbol, price) :: cache.filter (fun kv => kv.1 != stockSymbol)

/-- Go `StockPriceService.GetCurrentPrice`; `u` is the value of `r.Float64()`.  The error
component is `nil` on both paths. -/
def GetCurrentPrice (cache : PriceCache) (u : F64) (stockSymbol : String) :
    Except Err String × PriceCache :=
  match cache.lookup stockSymbol with
  | some price => (.ok price, cache)
  | none =>
    let basePrice := F64.add ⟨false, 100, 0⟩ (F64.mul u ⟨false, 4900, 0⟩)
    let price := sprintf4 basePrice
    (.ok price, cache.set stockSymbol price)

/-- Go `StockPriceService.GetLatestPrice`; `fault` is an outside failure of the query. -/
def GetLatestPrice (db : Store) (cache : PriceCache) (fault : Option DbError) (u : F64)
    (stockSymbol : String) : Except Err String × PriceCache :=
  match faulty fault (.ok (selectLatestPrice db stockSymbol)) with
  | .error e => (.error (.db e), cache)
  | .ok (some price) => (.ok price, cache)
  | .ok none => GetCurrentPrice cache u stockSymbol

/-! ## `PortfolioService.GetPortfolio` -/

/-- The distinct elements of a list, in order of first occurrence. -/
def distinct : List String → List String
  | [] => []
  | x :: xs => x :: (distinct xs).filter (fun y => y != x)

/-- The reward events of a user. -/
def eventsOf (db : Store) (userID : String) : List RewardEventRow :=
  db.reward_events.filter (fun r => r.user_id == userID)

/-- `SUM(quantity)` over the rows of one symbol. -/
def sumQuantity (rows : List RewardEventRow) (stockSymbol : String) : Int :=
  ((rows.filter (fun r => r.stock_symbol == stockSymbol)).map (fun r => r.quantity)).sum

/-- `SELECT stock_symbol, SUM(quantity) FROM reward_events WHERE user_id = $1 GROUP BY
stock_symbol`: one row per symbol, the sum printed with six fractional digits.  The order of
the groups, which the query leaves open, is that of first occurrence. -/
def selectHoldings (db : Store) (userID : String) : List (String × String) :=
  let rows := eventsOf db userID
  (distinct (rows.map (fun r => r.stock_symbol))).map
    (fun s => (s, numericOut 6 (sumQuantity rows s)))

/-- Go `models.Holding`. -/
structure Holding where
  StockSymbol : String
  Quantity : String
  CurrentPrice : String
  CurrentValue : String
deriving DecidableEq, Repr

/-- Go `models.Portfolio`. -/
structure Portfolio where
  Holdings : List Holding
  TotalValue : String
deriving DecidableEq, Repr

/-- Outside failures of a read path: of `db.Query`, of `rows.Scan` on the `i`-th row, of the
price query made for the `i`-th row, and of the row iteration (`rowsErr = some (k, e)`: the
iteration ends after `k` rows and `rows.Err()` is `e`). -/
structure ReadFaults where
  query : Option DbError
  scan : Nat → Option DbError
  price : Nat → Option DbError
  rowsErr : Option (Nat × DbError)

/-- No outside failure. -/
def ReadFaults.clean : ReadFaults := ⟨none, fun _ => none, fun _ => none, none⟩

/-- The rows the iteration delivers. -/
def deliveredRows {α : Type} (f : ReadFaults) (rows : List α) : List α :=
  match f.rowsErr with
  | some (k, _) => rows.take k
  | none => rows

/-- The `for rows.Next()` loop of `GetPortfolio`, from row `i` on, with the cache, the
holdings appended so far and the running `totalValue`. -/
def portfolioLoop (db : Store) (f : ReadFaults) (draws : Nat → F64) :
    List (String × String) → Nat → PriceCache → List Holding → F64 →
      Except Err (List Holding × F64) × PriceCache
  | [], _, cache, holdings, totalValue => (.ok (holdings, totalValue), cache)
  | (symbol, quantity) :: rest, i, cache, holdings, totalValue =>
    match f.scan i with
    | some e => (.error (.db e), cache)
    | none =>
      -- Get current price
      let got := GetLatestPrice db cache (f.price i) (draws i) symbol
      let price := match got.1 with
        | .ok p => p
        | .error _ => "0.0000"
      -- Calculate current value
      let value := multiplyAmounts quantity price
      portfolioLoop db f draws rest (i + 1) got.2
        (holdings ++ [⟨symbol, quantity, price, value⟩]) (totalValue.add (sscanF value))

/-- What `GetPortfolio` returns, and the cache it leaves. -/
structure PortfolioOutcome where
  portfolio : Option Portfolio
  err : Option Err
  cache : PriceCache

/-- Go `PortfolioService.GetPortfolio`; `draws i` is the random draw available to the price
generation for the `i`-th row. -/
def GetPortfolio (db : Store) (cache : PriceCache) (f : ReadFaults) (draws : Nat → F64)
    (userID : String) : PortfolioOutcome :=
  match f.query with
  | some e => ⟨none, some (.db e), cache⟩
  | none =>
    let rows := deliveredRows f (selectHoldings db userID)
    match portfolioLoop db f draws rows 0 cache [] F64.zero with
    | (.error e, cache1) => ⟨none, some e, cache1⟩
    | (.ok (holdings, totalValue), cache1) =>
      ⟨some ⟨holdings, sprintf4 totalValue⟩, (f.rowsErr.map (fun ke => Err.db ke.2)), cache1⟩

/-! ## Rows written by a successful call -/

/-- The amount a ledger row stores for an accepted amount text. -/
def amountOf (text : String) : Int :=
  match numericIn 18 4 text with
  | .ok v => v
  | .error _ => 0

/-- The quantity a ledger row stores for an accepted nullable quantity text. -/
def quantityOf (q : Option String) : Option Int :=
  match nullableQuantityIn q with
  | .ok v => v
  | .error _ => none

/-- The ledger row a successful insert of `en` appends. -/
def ledgerRowOf (rewardID : String) (en : LedgerInsert) : LedgerEntryRow :=
  ⟨some rewardID, en.entryType, en.accountType, en.stockSymbol, quantityOf en.quantity,
    amountOf en.amount, some en.description⟩

/-- The reference price `CreateReward` computes with. -/
def referencePrice (db : Store) (stockSymbol : String) : String :=
  (selectLatestPrice db stockSymbol).getD "100.0000"

/-- Does the text consist of an optional sign, at least one digit, a point and exactly four
digits. -/
def fourFractionDigits (s : String) : Bool :=
  let body := (splitSign s.data).2
  let ip := body.takeWhile (fun c => c != '.')
  let rest := body.dropWhile (fun c => c != '.')
  !ip.isEmpty && ip.all Char.isDigit && rest.head? == some '.' &&
    (rest.drop 1).length == 4 && (rest.drop 1).all Char.isDigit

/-! ## `RewardHandler.CreateReward` -/

/-- Go `handlers.CreateRewardRequest` after JSON decoding; an absent field is the empty
string. -/
structure CreateRewardRequest where
  UserID : String
  StockSymbol : String
  Quantity : String
  RewardTimestamp : String
  EventID : String
deriving DecidableEq, Repr

/-- The HTTP answer: status code and, on 201, the reward. -/
structure Response where
  status : Nat
  reward : Option RewardEvent
deriving DecidableEq, Repr

/-- What a request leaves behind. -/
structure HandlerOutcome where
  response : Response
  db : Store
  trace : List Stmt

/-- Go `RewardHandler.CreateReward` on a decoded request.  `parseTime` is
`time.Parse(time.RFC3339, ·)`, `now` is `time.Now()`, `newEventID` and `rewardID` are the
values of the two `uuid.New().String()` calls.  The `binding:"required"` tags refuse an empty
user, symbol or quantity. -/
def handleCreateReward (db : Store) (f : Faults) (parseTime : String → Option Time)
    (now : Time) (newEventID rewardID : String) (req : CreateRewardRequest) : HandlerOutcome :=
  if req.UserID = "" ∨ req.StockSymbol = "" ∨ req.Quantity = "" then
    ⟨⟨400, none⟩, db, []⟩
  else
    -- Parse timestamp or use current time
    let parsed : Option Time :=
      if req.RewardTimestamp ≠ "" then parseTime req.RewardTimestamp else some now
    match parsed with
    | none => ⟨⟨400, none⟩, db, []⟩
    | some rewardTimestamp =>
      -- Generate event_id if not provided
      let eventID := if req.EventID = "" then newEventID else req.EventID
      let out := CreateReward db f rewardID req.UserID req.StockSymbol req.Quantity eventID
        rewardTimestamp
      match out.result with
      | .error .ErrDuplicateEvent => ⟨⟨409, none⟩, out.db, out.trace⟩
      | .error (.db _) => ⟨⟨500, none⟩, out.db, out.trace⟩
      | .ok reward => ⟨⟨201, some reward⟩, out.db, out.trace⟩

/-- The holding `GetPortfolio` builds for the `i`-th row, and the cache after it. -/
def priceRow (db : Store) (f : ReadFaults) (draws : Nat → F64) (i : Nat) (cache : PriceCache)
    (row : String × String) : Holding × PriceCache :=
  let got := GetLatestPrice db cache (f.price i) (draws i) row.1
  let price := match got.1 with
    | .ok p => p
    | .error _ => "0.0000"
  (⟨row.1, row.2, price, multiplyAmounts row.2 price⟩, got.2)

/-- The holdings of the rows from index `i` on, without the accumulators of the loop. -/
def pricedRows (db : Store) (f : ReadFaults) (draws : Nat → F64) :
    List (String × String) → Nat → PriceCache → List Holding × PriceCache
  | [], _, cache => ([], cache)
  | row :: rest, i, cache =>
    let r := pricedRows db f draws rest (i + 1) (priceRow db f draws i cache row).2
    ((priceRow db f draws i cache row).1 :: r.1, r.2)

/-- The running `float64` total of a list of printed values. -/
def sumValues (total : F64) (holdings : List Holding) : F64 :=
  holdings.foldl (fun t h => t.add (sscanF h.CurrentValue)) total

/-! ## `PortfolioService.UpdatePortfolioSnapshots` -/

/-- Calendar day of an instant: `DATE(t)`, as a day number. -/
def dateOf (t : Time) : Int := t / 86400

/-- `SELECT DISTINCT user_id FROM reward_events`, in order of first occurrence. -/
def selectUserIds (db : Store) : List String :=
  distinct (db.reward_events.map (fun r => r.user_id))

/-- The reward events of a user with `DATE(reward_timestamp) <= day`. -/
def eventsAsOf (db : Store) (userID : String) (day : Int) : List RewardEventRow :=
  (eventsOf db userID).filter (fun r => decide (dateOf r.reward_timestamp ≤ day))

/-- `SELECT stock_symbol, SUM(quantity) FROM reward_events WHERE user_id = $1 AND
DATE(reward_timestamp) <= $2 GROUP BY stock_symbol`. -/
def selectHoldingsAsOf (db : Store) (userID : String) (day : Int) : List (String × String) :=
  (distinct ((eventsAsOf db userID day).map (fun r => r.stock_symbol))).map
    (fun s => (s, numericOut 6 (sumQuantity (eventsAsOf db userID day) s)))

/-- The price rows with `DATE(price_timestamp) <= day`. -/
def pricesAsOf (db : Store) (day : Int) : List StockPriceRow :=
  db.stock_prices.filter (fun r => decide (dateOf r.price_timestamp ≤ day))

/-- `SELECT price FROM stock_prices WHERE stock_symbol = $1 AND DATE(price_timestamp) <= $2
ORDER BY price_timestamp DESC LIMIT 1`. -/
def selectPriceAsOf (db : Store) (stockSymbol : String) (day : Int) : Option String :=
  (latestPriceRow (pricesAsOf db day) stockSymbol).map (fun r => numericOut 4 r.price)

/-- Do two snapshot rows agree on `(user_id, snapshot_date, stock_symbol)`. -/
def sameKey (a b : PortfolioSnapshotRow) : Bool :=
  a.user_id == b.user_id && a.snapshot_date == b.snapshot_date &&
    a.stock_symbol == b.stock_symbol

/-- `INSERT ... ON CONFLICT (user_id, snapshot_date, stock_symbol) DO UPDATE SET
total_quantity, price_per_unit, total_inr_value` on the rows of the table. -/
def upsertRow (rows : List PortfolioSnapshotRow) (new : PortfolioSnapshotRow) :
    List PortfolioSnapshotRow :=
  if rows.any (sameKey new) then
    rows.map (fun r =>
      if sameKey new r then
        { r with total_quantity := new.total_quantity, price_per_unit := new.price_per_unit,
                 total_inr_value := new.total_inr_value }
      else r)
  else rows ++ [new]

/-- Input conversion of the parameters of the snapshot upsert under the column types of
`portfolio_snapshots`: the row to be written. -/
def snapshotParams (userID : String) (day : Int) (symbol quantity price totalValue : String) :
    Except DbError PortfolioSnapshotRow :=
  match numericIn 18 6 quantity with
  | .error e => .error e
  | .ok q =>
    match numericIn 18 4 price with
    | .error e => .error e
    | .ok p =>
      match numericIn 18 4 totalValue with
      | .error e => .error e
      | .ok v =>
        if 255 < userID.length ∨ 50 < symbol.length then .error .valueTooLong
        else .ok ⟨userID, day, symbol, q, p, v⟩

/-- The snapshot upsert with its text parameters. -/
def upsertSnapshot (db : Store) (userID : String) (day : Int)
    (symbol quantity price totalValue : String) : Except DbError Store :=
  match snapshotParams userID day symbol quantity price totalValue with
  | .error e => .error e
  | .ok row => .ok { db with portfolio_snapshots := upsertRow db.portfolio_snapshots row }

/-- Outside failures of a reconciliation run: of the user query, of the scan of the `i`-th
user row, of the user row iteration; and, for the `i`-th user, of the holdings query, of the
scan of the `j`-th holdings row, of the price query and of the upsert made for it.
`holdingsStop i = some k` ends the holdings iteration of user `i` after `k` rows (its
`Err()` is never read). -/
structure SnapshotFaults where
  users : Option DbError
  usersScan : Nat → Option DbError
  usersErr : Option DbError
  holdings : Nat → Option DbError
  holdingsStop : Nat → Option Nat
  holdingsScan : Nat → Nat → Option DbError
  price : Nat → Nat → Option DbError
  upsert : Nat → Nat → Option DbError

/-- No outside failure. -/
def SnapshotFaults.clean : SnapshotFaults :=
  ⟨none, fun _ => none, none, fun _ => none, fun _ => none, fun _ _ => none, fun _ _ => none,
    fun _ _ => none⟩

/-- The first loop of `UpdatePortfolioSnapshots`: scans the user rows into `userIDs`. -/
def scanUserIds (f : SnapshotFaults) : List String → Nat → List String →
    Except DbError (List String)
  | [], _, userIDs => .ok userIDs
  | userID :: rest, i, userIDs =>
    match f.usersScan i with
    | some e => .error e
    | none => scanUserIds f rest (i + 1) (userIDs ++ [userID])

/-- The rows a holdings iteration delivers. -/
def deliveredHoldings (stop : Option Nat) (rows : List (String × String)) :
    List (String × String) :=
  match stop with
  | some k => rows.take k
  | none => rows

/-- The `for holdingsRows.Next()` loop for user number `ui`, from row `j` on.  Each upsert is
committed on its own, so the store reached is returned also when the loop returns an
error. -/
def snapshotHoldingsLoop (f : SnapshotFaults) (ui : Nat) (day : Int) (userID : String) :
    List (String × String) → Nat → Store → Store × Option DbError
  | [], _, db => (db, none)
  | (symbol, quantity) :: rest, j, db =>
    match f.holdingsScan ui j with
    | some e => (db, some e)
    | none =>
      -- Get price for yesterday (or latest available)
      match faulty (f.price ui j) (.ok (selectPriceAsOf db symbol day)) with
      | .error e => (db, some e)
      | .ok found =>
        -- No price available, use 0
        let price := found.getD "0.0000"
        -- Calculate total value
        let totalValue := multiplyAmounts quantity price
        -- Insert or update snapshot
        match faulty (f.upsert ui j)
            (upsertSnapshot db userID day symbol quantity price totalValue) with
        | .error e => (db, some e)
        | .ok db1 => snapshotHoldingsLoop f ui day userID rest (j + 1) db1

/-- The `for _, userID := range userIDs` loop, from user number `i` on. -/
def snapshotUsersLoop (f : SnapshotFaults) (day : Int) :
    List String → Nat → Store → Store × Option DbError
  | [], _, db => (db, none)
  | userID :: rest, i, db =>
    match f.holdings i with
    | some _ => snapshotUsersLoop f day rest (i + 1) db
    | none =>
      let rows := deliveredHoldings (f.holdingsStop i) (selectHoldingsAsOf db userID day)
      match snapshotHoldingsLoop f i day userID rows 0 db with
      | (db1, some e) => (db1, some e)
      | (db1, none) => snapshotUsersLoop f day rest (i + 1) db1

/-- Go `PortfolioService.UpdatePortfolioSnapshots`, run at instant `now`: the store it leaves
and the error it returns. -/
def UpdatePortfolioSnapshots (db : Store) (f : SnapshotFaults) (now : Time) :
    Store × Option Err :=
  match f.users with
  | some e => (db, some (.db e))
  | none =>
    match scanUserIds f (selectUserIds db) 0 [] with
    | .error e => (db, some (.db e))
    | .ok userIDs =>
      match f.usersErr with
      | some e => (db, some (.db e))
      | none =>
        -- Get yesterday's date
        let yesterday := dateOf now - 1
        let r := snapshotUsersLoop f yesterday userIDs 0 db
        (r.1, r.2.map Err.db)

/-! ## What a reconciliation run writes -/

/-- At most one row per `(user_id, snapshot_date, stock_symbol)`. -/
def uniqueKeys (rows : List PortfolioSnapshotRow) : Prop :=
  rows.Pairwise (fun a b => sameKey a b = false)

/-- The quantity a snapshot row stores for an accepted quantity text. -/
def quantity6Of (text : String) : Int :=
  match numericIn 18 6 text with
  | .ok v => v
  | .error _ => 0

/-- The snapshot row of a user and symbol for a day, from the events and prices of `db`. -/
def snapshotRowFor (db : Store) (day : Int) (userID symbol : String) : PortfolioSnapshotRow :=
  let quantity := numericOut 6 (sumQuantity (eventsAsOf db userID day) symbol)
  let price := (selectPriceAsOf db symbol day).getD "0.0000"
  ⟨userID, day, symbol, quantity6Of quantity, amountOf price,
    amountOf (multiplyAmounts quantity price)⟩

/-- The rows the holdings loop of one user upserts, in order, and the error it ends with; the
queries read `base`. -/
def plannedHoldings (f : SnapshotFaults) (ui : Nat) (day : Int) (userID : String)
    (base : Store) : List (String × String) → Nat → List PortfolioSnapshotRow × Option DbError
  | [], _ => ([], none)
  | (symbol, quantity) :: rest, j =>
    match f.holdingsScan ui j with
    | some e => ([], some e)
    | none =>
      match faulty (f.price ui j) (.ok (selectPriceAsOf base symbol day)) with
      | .error e => ([], some e)
      | .ok found =>
        match faulty (f.upsert ui j)
            (snapshotParams userID day symbol quantity (found.getD "0.0000")
              (multiplyAmounts quantity (found.getD "0.0000"))) with
        | .error e => ([], some e)
        | .ok row =>
          let r := plannedHoldings f ui day userID base rest (j + 1)
          (row :: r.1, r.2)

/-- The rows a run upserts over all users, in order, and the error it ends with. -/
def plannedUsers (f : SnapshotFaults) (day : Int) (base : Store) :
    List String → Nat → List PortfolioSnapshotRow × Option DbError
  | [], _ => ([], none)
  | userID :: rest, i =>
    match f.holdings i with
    | some _ => plannedUsers f day base rest (i + 1)
    | none =>
      let p := plannedHoldings f i day userID base
        (deliveredHoldings (f.holdingsStop i) (selectHoldingsAsOf base userID day)) 0
      match p.2 with
      | some e => (p.1, some e)
      | none =>
        let r := plannedUsers f day base rest (i + 1)
        (p.1 ++ r.1, r.2)

/-- Two stores with the same reward events and stock prices. -/
def sameInputs (a b : Store) : Prop :=
  a.reward_events = b.reward_events ∧ a.stock_prices = b.stock_prices

/-- The rows a run at `now` upserts, in order; the queries read `base`. -/
def plannedWrites (f : SnapshotFaults) (now : Time) (base : Store) :
    List PortfolioSnapshotRow × Option DbError :=
  match f.users with
  | some e => ([], some e)
  | none =>
    match scanUserIds f (selectUserIds base) 0 [] with
    | .error e => ([], some e)
    | .ok userIDs =>
      match f.usersErr with
      | some e => ([], some e)
      | none => plannedUsers f (dateOf now - 1) base userIDs 0

/-! ## `PortfolioService.GetHistoricalINR` -/

/-- Go `models.HistoricalINR`; `Date` is the day that Go renders with
`Format("2006-01-02")`. -/
structure HistoricalINR where
  Date : Int
  Value : String
deriving DecidableEq, Repr

/-- The snapshot rows of a user dated before `today`. -/
def pastSnapshots (db : Store) (userID : String) (today : Int) : List PortfolioSnapshotRow :=
  db.portfolio_snapshots.filter
    (fun r => r.user_id == userID && decide (r.snapshot_date < today))

/-- `SUM(total_inr_value)` over the rows of one date. -/
def sumValueOn (rows : List PortfolioSnapshotRow) (date : Int) : Int :=
  ((rows.filter (fun r => r.snapshot_date == date)).map (fun r => r.total_inr_value)).sum

/-- `SELECT snapshot_date, SUM(total_inr_value) FROM portfolio_snapshots WHERE user_id = $1
AND snapshot_date < CURRENT_DATE GROUP BY snapshot_date ORDER BY snapshot_date DESC`, with
`today` for `CURRENT_DATE`. -/
def selectHistorical (db : Store) (userID : String) (today : Int) : List (Int × String) :=
  let rows := pastSnapshots db userID today
  (List.insertionSort (fun a b => a ≥ b) (rows.map (fun r => r.snapshot_date)).dedup).map
    (fun d => (d, numericOut 4 (sumValueOn rows d)))

/-- The `for rows.Next()` loop of `GetHistoricalINR`, from row `i` on. -/
def historicalLoop (f : ReadFaults) :
    List (Int × String) → Nat → List HistoricalINR → Except Err (List HistoricalINR)
  | [], _, historical => .ok historical
  | (date, value) :: rest, i, historical =>
    match f.scan i with
    | some e => .error (.db e)
    | none => historicalLoop f rest (i + 1) (historical ++ [⟨date, value⟩])

/-- Go `PortfolioService.GetHistoricalINR`: the slice and the error returned. -/
def GetHistoricalINR (db : Store) (f : ReadFaults) (today : Int) (userID : String) :
    Option (List HistoricalINR) × Option Err :=
  match f.query with
  | some e => (none, some (.db e))
  | none =>
    match historicalLoop f (deliveredRows f (selectHistorical db userID today)) 0 [] with
    | .error e => (none, some e)
    | .ok historical => (some historical, f.rowsErr.map (fun ke => Err.db ke.2))

/-! ## `PortfolioService.GetStats` -/

/-- The `for rows.Next()` loop of `calculateCurrentPortfolioValue`, from row `i` on, with the
cache and the running `totalValue`. -/
def valueLoop (db : Store) (f : ReadFaults) (draws : Nat → F64) :
    List (String × String) → Nat → PriceCache → F64 → Except Err F64 × PriceCache
  | [], _, cache, totalValue => (.ok totalValue, cache)
  | (symbol, quantity) :: rest, i, cache, totalValue =>
    match f.scan i with
    | some e => (.error (.db e), cache)
    | none =>
      -- Get current price
      let got := GetLatestPrice db cache (f.price i) (draws i) symbol
      let price := match got.1 with
        | .ok p => p
        | .error _ => "0.0000"
      -- Calculate value
      let value := multiplyAmounts quantity price
      valueLoop db f draws rest (i + 1) got.2 (totalValue.add (sscanF value))

/-- Go `PortfolioService.calculateCurrentPortfolioValue`: the text and the error returned, and
the cache left. -/
def calculateCurrentPortfolioValue (db : Store) (cache : PriceCache) (f : ReadFaults)
    (draws : Nat → F64) (userID : String) : String × Option Err × PriceCache :=
  match f.query with
  | some e => ("", some (.db e), cache)
  | none =>
    let rows := deliveredRows f (selectHoldings db userID)
    match valueLoop db f draws rows 0 cache F64.zero with
    | (.error e, cache1) => ("", some e, cache1)
    | (.ok totalValue, cache1) =>
      (sprintf4 totalValue, f.rowsErr.map (fun ke => Err.db ke.2), cache1)

/-- Go `models.Stats`; the map is an association list read from the front. -/
structure Stats where
  TotalSharesToday : List (String × String)
  CurrentPortfolioValue : String
deriving DecidableEq, Repr

/-- `SELECT stock_symbol, SUM(quantity) FROM reward_events WHERE user_id = $1 AND
DATE(reward_timestamp) = CURRENT_DATE GROUP BY stock_symbol`, with `today` for
`CURRENT_DATE`. -/
def selectSharesToday (db : Store) (userID : String) (today : Int) : List (String × String) :=
  let rows := (eventsOf db userID).filter (fun r => dateOf r.reward_timestamp == today)
  (distinct (rows.map (fun r => r.stock_symbol))).map
    (fun s => (s, numericOut 6 (sumQuantity rows s)))

/-- The first `for rows.Next()` loop of `GetStats`, filling `stats.TotalSharesToday`. -/
def sharesLoop (fs : ReadFaults) :
    List (String × String) → Nat → List (String × String) →
      Except Err (List (String × String))
  | [], _, shares => .ok shares
  | (symbol, quantity) :: rest, i, shares =>
    match fs.scan i with
    | some e => .error (.db e)
    | none =>
      sharesLoop fs rest (i + 1) ((symbol, quantity) :: shares.filter (fun kv => kv.1 != symbol))

/-- Go `PortfolioService.GetStats`; `fs` holds the outside failures of its own query and `f`
those of the valuation. -/
def GetStats (db : Store) (cache : PriceCache) (fs f : ReadFaults) (draws : Nat → F64)
    (today : Int) (userID : String) : Option Stats × Option Err × PriceCache :=
  match fs.query with
  | some e => (none, some (.db e), cache)
  | none =>
    match sharesLoop fs (deliveredRows fs (selectSharesToday db userID today)) 0 [] with
    | .error e => (none, some e, cache)
    | .ok shares =>
      -- Get current portfolio value
      match calculateCurrentPortfolioValue db cache f draws userID with
      | (_, some e, cache1) => (none, some e, cache1)
      | (currentValue, none, cache1) => (some ⟨shares, currentValue⟩, none, cache1)

/-! ## Valuation in the words of the specification

The two definitions below are not taken from the code.  They state "quantity × price rounded
to 4 decimals" and "the sum of the values" in exact decimal arithmetic, for comparison with
what `multiplyAmounts` and the running `float64` total return. -/

/-- Quantity times price rounded to four decimals, exactly: `quantity` counts units of
`10^-6`, `price` units of `10^-4`, the result units of `10^-4`; a half is rounded away from
zero. -/
def specValue (quantity price : Int) : Int :=
  let units : Nat := (2 * (quantity * price).natAbs + 10 ^ 6) / (2 * 10 ^ 6)
  if quantity * price < 0 then -(units : Int) else (units : Int)

/-- The sum of values that count units of `10^-4`, exactly; it needs no rounding. -/
def specTotal (values : List Int) : Int := values.sum

set_option maxRecDepth 100000

/-! ## Statements and the transaction -/

theorem faulty_ok {α : Type} {fault : Option DbError} {r : Except DbError α} {a : α}
    (h : faulty fault r = .ok a) : fault = none ∧ r = .ok a := by
  cases fault <;> simp_all [faulty]

theorem insertLedgerEntry_ok {tx tx1 : Store} {rewardID : String} {en : LedgerInsert}
    (h : insertLedgerEntry tx rewardID en = .ok tx1) :
    tx1 = { tx with ledger_entries := tx.ledger_entries ++ [ledgerRowOf rewardID en] } ∧
      (∃ amt, numericIn 18 4 en.amount = .ok amt) ∧
      (∃ q, nullableQuantityIn en.quantity = .ok q) := by
  unfold insertLedgerEntry at h
  cases hq : nullableQuantityIn en.quantity with
  | error e => simp [hq] at h
  | ok q =>
    cases ha : numericIn 18 4 en.amount with
    | error e => simp [hq, ha] at h
    | ok amt =>
      simp only [hq, ha] at h
      split at h
      · simp at h
      · split at h
        · simp only [Except.ok.injEq] at h
          subst h
          simp [ledgerRowOf, quantityOf, amountOf, hq, ha]
        · simp at h

theorem insertLedgerLoop_ok (f : Faults) (rewardID : String) :
    ∀ (entries : List LedgerInsert) (i : Nat) (tx tx2 : Store) (t : List Stmt),
      insertLedgerLoop f rewardID entries i tx = (.ok tx2, t) →
      tx2 = { tx with ledger_entries :=
                tx.ledger_entries ++ entries.map (ledgerRowOf rewardID) } ∧
        (∀ en ∈ entries, (∃ amt, numericIn 18 4 en.amount = .ok amt) ∧
          ∃ q, nullableQuantityIn en.quantity = .ok q) ∧
        t = entries.map (Stmt.insertLedgerEntry rewardID) := by
  intro entries
  induction entries with
  | nil =>
    intro i tx tx2 t h
    simp [insertLedgerLoop] at h
    obtain ⟨h1, h2⟩ := h
    subst h1 h2
    simp
  | cons en rest ih =>
    intro i tx tx2 t h
    unfold insertLedgerLoop at h
    cases hstep : faulty (f.insertLedger i) (insertLedgerEntry tx rewardID en) with
    | error e => simp [hstep] at h
    | ok tx1 =>
      simp only [hstep, Prod.mk.injEq] at h
      obtain ⟨h1, h2⟩ := h
      have hins := (faulty_ok hstep).2
      obtain ⟨e1, e2, e3⟩ := insertLedgerEntry_ok hins
      have hrec := ih (i + 1) tx1 tx2 (insertLedgerLoop f rewardID rest (i + 1) tx1).2
        (by rw [← h1])
      obtain ⟨r1, r2, r3⟩ := hrec
      refine ⟨?_, ?_, ?_⟩
      · rw [r1, e1]; simp
      · intro en1 hen
        rcases List.mem_cons.mp hen with rfl | hmem
        · exact ⟨e2, e3⟩
        · exact r2 en1 hmem
      · rw [← h2, r3]; simp

theorem insertRewardEvent_ok {tx tx1 : Store} {id userID stockSymbol quantity eventID : String}
    {ts : Time}
    (h : insertRewardEvent tx id userID stockSymbol quantity ts eventID = .ok tx1) :
    ∃ q, numericIn 18 6 quantity = .ok q ∧
      tx.reward_events.any (fun r => r.id == id) = false ∧
      tx.reward_events.any (fun r => r.event_id == eventID) = false ∧
      stockSymbol.length ≤ 50 ∧
      tx1 = { tx with reward_events := tx.reward_events ++
                [⟨id, userID, stockSymbol, q, ts, eventID⟩] } := by
  unfold insertRewardEvent at h
  cases hq : numericIn 18 6 quantity with
  | error e => simp [hq] at h
  | ok q =>
    simp only [hq] at h
    split at h
    · simp at h
    · rename_i hlen
      split at h
      · simp at h
      · rename_i hid
        split at h
        · simp at h
        · rename_i hev
          simp only [Except.ok.injEq] at h
          refine ⟨q, rfl, by simpa using hid, by simpa using hev, ?_, h.symm⟩
          simp only [not_or, not_lt] at hlen
          exact hlen.2.1

theorem createReward_ok {db : Store} {f : Faults}
    {rewardID userID stockSymbol quantity eventID : String} {ts : Time} {ev : RewardEvent}
    (h : (CreateReward db f rewardID userID stockSymbol quantity eventID ts).result = .ok ev) :
    ev = ⟨rewardID, userID, stockSymbol, quantity, ts, eventID⟩ ∧
    selectEventId db eventID = none ∧
    db.reward_events.any (fun r => r.id == rewardID) = false ∧
    ∃ q, numericIn 18 6 quantity = .ok q ∧
      (CreateReward db f rewardID userID stockSymbol quantity eventID ts).db =
        { db with
          reward_events := db.reward_events ++ [⟨rewardID, userID, stockSymbol, q, ts, eventID⟩]
          ledger_entries := db.ledger_entries ++
            (buildLedgerEntries stockSymbol quantity (referencePrice db stockSymbol)).map
              (ledgerRowOf rewardID) } ∧
      ∀ en ∈ buildLedgerEntries stockSymbol quantity (referencePrice db stockSymbol),
        ∃ amt, numericIn 18 4 en.amount = .ok amt := by
  unfold CreateReward at h ⊢
  cases hb : f.begin with
  | some e => simp [hb] at h
  | none =>
    simp only [hb] at h ⊢
    cases hl : faulty f.lookup (.ok (selectEventId db eventID)) with
    | error e => simp [hl] at h
    | ok found =>
      cases found with
      | some x => simp [hl] at h
      | none =>
        simp only [hl] at h ⊢
        have hsel : selectEventId db eventID = none := by
          have := (faulty_ok hl).2
          simpa using this
        cases hi : faulty f.insertEvent
            (insertRewardEvent db rewardID userID stockSymbol quantity ts eventID) with
        | error e => simp [hi] at h
        | ok tx1 =>
          simp only [hi] at h ⊢
          obtain ⟨q, hq, hid, _, _, htx1⟩ := insertRewardEvent_ok (faulty_ok hi).2
          cases hp : faulty f.priceRead (.ok (selectLatestPrice tx1 stockSymbol)) with
          | error e => simp [hp] at h
          | ok found =>
            simp only [hp] at h ⊢
            have hfound : found = selectLatestPrice db stockSymbol := by
              have := (faulty_ok hp).2
              simp only [Except.ok.injEq] at this
              rw [← this, htx1]
              rfl
            subst hfound
            cases hloop : insertLedgerLoop f rewardID
                (buildLedgerEntries stockSymbol quantity
                  ((selectLatestPrice db stockSymbol).getD "100.0000")) 0 tx1 with
            | mk res t4 =>
              cases res with
              | error e => simp [hloop] at h
              | ok tx2 =>
                simp only [hloop] at h ⊢
                obtain ⟨r1, r2, _⟩ := insertLedgerLoop_ok f rewardID _ _ _ _ _ hloop
                cases hc : f.commit with
                | some e => simp [hc] at h
                | none =>
                  simp only [hc] at h ⊢
                  simp only [Except.ok.injEq] at h
                  refine ⟨h.symm, hsel, hid, q, hq, ?_, ?_⟩
                  · rw [r1, htx1]; rfl
                  · intro en hen
                    exact (r2 en hen).1

theorem selectEventId_none {db : Store} {eventID : String}
    (h : selectEventId db eventID = none) :
    ∀ r ∈ db.reward_events, r.event_id ≠ eventID := by
  intro r hr heq
  unfold selectEventId at h
  simp only [Option.map_eq_none'] at h
  have := List.find?_eq_none.mp h r hr
  simp [heq] at this

theorem createReward_of_existing {db : Store} {f : Faults}
    {rewardID userID stockSymbol quantity eventID : String} {ts : Time}
    (hbegin : f.begin = none) (hlookup : f.lookup = none)
    (hex : ∃ r ∈ db.reward_events, r.event_id = eventID) :
    (CreateReward db f rewardID userID stockSymbol quantity eventID ts).result =
        .error .ErrDuplicateEvent ∧
      (CreateReward db f rewardID userID stockSymbol quantity eventID ts).db = db := by
  obtain ⟨r, hr, he⟩ := hex
  cases hsel : selectEventId db eventID with
  | none => exact absurd he (selectEventId_none hsel r hr)
  | some x => simp [CreateReward, hbegin, hlookup, faulty, hsel]

/-- C1. If a reward event with the event identifier already exists, `CreateReward` returns
`ErrDuplicateEvent` (and so no reward).  Consequently, when a first call with that identifier
succeeds, an immediately following call with the same identifier returns `ErrDuplicateEvent`
and the store then holds exactly one reward event with the identifier and exactly six ledger
rows owned by it.  (The second call's `Begin` and duplicate lookup are taken not to fail for
outside reasons, and the store satisfies its foreign key.) -/
theorem createReward_duplicate_event (db : Store) (f1 f2 : Faults)
    (id1 user1 sym1 qty1 : String) (ts1 : Time)
    (id2 user2 sym2 qty2 : String) (ts2 : Time) (eventID : String)
    (hbegin : f2.begin = none) (hlookup : f2.lookup = none) :
    ((∃ r ∈ db.reward_events, r.event_id = eventID) →
      (CreateReward db f2 id2 user2 sym2 qty2 eventID ts2).result =
        .error .ErrDuplicateEvent) ∧
    (db.fkIntegrity → ∀ ev,
      (CreateReward db f1 id1 user1 sym1 qty1 eventID ts1).result = .ok ev →
      (CreateReward (CreateReward db f1 id1 user1 sym1 qty1 eventID ts1).db f2
          id2 user2 sym2 qty2 eventID ts2).result = .error .ErrDuplicateEvent ∧
      ((CreateReward (CreateReward db f1 id1 user1 sym1 qty1 eventID ts1).db f2
          id2 user2 sym2 qty2 eventID ts2).db.reward_events.filter
            (fun r => r.event_id == eventID)).length = 1 ∧
      ((CreateReward (CreateReward db f1 id1 user1 sym1 qty1 eventID ts1).db f2
          id2 user2 sym2 qty2 eventID ts2).db.ledger_entries.filter
            (fun l => l.reward_event_id == some ev.ID)).length = 6) := by
  refine ⟨fun hex => (createReward_of_existing hbegin hlookup hex).1, ?_⟩
  intro hfk ev hok
  obtain ⟨hev, hsel, hid, q, _, hdb, _⟩ := createReward_ok hok
  have hex : ∃ r ∈ (CreateReward db f1 id1 user1 sym1 qty1 eventID ts1).db.reward_events,
      r.event_id = eventID := by
    rw [hdb]
    exact ⟨⟨id1, user1, sym1, q, ts1, eventID⟩, by simp, rfl⟩
  obtain ⟨hres, hsame⟩ := @createReward_of_existing _ f2 id2 user2 sym2 qty2 eventID ts2
    hbegin hlookup hex
  refine ⟨hres, ?_, ?_⟩
  · rw [hsame, hdb]
    have hnone : db.reward_events.filter (fun r => r.event_id == eventID) = [] := by
      rw [List.filter_eq_nil_iff]
      intro r hr
      simpa using selectEventId_none hsel r hr
    simp [List.filter_append, hnone]
  · rw [hsame, hdb, hev]
    have hnone : db.ledger_entries.filter (fun l => l.reward_event_id == some id1) = [] := by
      rw [List.filter_eq_nil_iff]
      intro l hl hl1
      have hl2 : l.reward_event_id = some id1 := by simpa using hl1
      obtain ⟨e, he, heid⟩ := hfk l hl id1 hl2
      have := List.any_eq_false.mp hid e he
      simp [heid] at this
    simp [List.filter_append, hnone, buildLedgerEntries, ledgerEntries, ledgerRowOf]

/-- Witness for C1: on the empty store a first reward `e1` succeeds, and an immediate second
call with `e1` is rejected, leaving one event and six ledger rows. -/
theorem createReward_duplicate_event_witness :
    Faults.clean.begin = none ∧ Faults.clean.lookup = none ∧
    (CreateReward (CreateReward ⟨[], [], [], []⟩ Faults.clean "r1" "u1" "TCS" "10" "e1" 0).db
        Faults.clean "r2" "u2" "INFY" "3" "e1" 7).result = .error .ErrDuplicateEvent ∧
    ((CreateReward (CreateReward ⟨[], [], [], []⟩ Faults.clean "r1" "u1" "TCS" "10" "e1" 0).db
        Faults.clean "r2" "u2" "INFY" "3" "e1" 7).db.reward_events.filter
          (fun r => r.event_id == "e1")).length = 1 ∧
    ((CreateReward (CreateReward ⟨[], [], [], []⟩ Faults.clean "r1" "u1" "TCS" "10" "e1" 0).db
        Faults.clean "r2" "u2" "INFY" "3" "e1" 7).db.ledger_entries.filter
          (fun l => l.reward_event_id == some "r1")).length = 6 :=
  ⟨rfl, rfl,
    (createReward_duplicate_event ⟨[], [], [], []⟩ Faults.clean Faults.clean
      "r1" "u1" "TCS" "10" 0 "r2" "u2" "INFY" "3" 7 "e1" rfl rfl).2
      (by intro l hl; simp at hl) ⟨"r1", "u1", "TCS", "10", 0, "e1"⟩ (by rfl)⟩

theorem amountOf_zero : amountOf "0.0000" = 0 := by decide

/-- C2. A successful `CreateReward` adds exactly one reward event and exactly six ledger rows,
all owned by the new event: STOCK_CREDIT / STOCK, CASH_DEBIT / CASH, and BROKERAGE_FEE,
STT_FEE, GST_FEE, OTHER_FEE on FEES, in this order.  The STOCK_CREDIT row has amount 0.0000
and carries the symbol and the quantity of the call; the other five carry neither.  The other
tables are unchanged. -/
theorem createReward_writes_six_rows (db : Store) (f : Faults)
    (rewardID userID stockSymbol quantity eventID : String) (ts : Time) (ev : RewardEvent)
    (hok : (CreateReward db f rewardID userID stockSymbol quantity eventID ts).result = .ok ev) :
    ∃ (q cash brokerage stt gst other : Int),
      numericIn 18 6 quantity = .ok q ∧
      (CreateReward db f rewardID userID stockSymbol quantity eventID ts).db =
        { db with
          reward_events := db.reward_events ++
            [⟨rewardID, userID, stockSymbol, q, ts, eventID⟩]
          ledger_entries := db.ledger_entries ++
            [ ⟨some rewardID, "STOCK_CREDIT", "STOCK", some stockSymbol, some q, 0,
                some "Stock reward credit"⟩,
              ⟨some rewardID, "CASH_DEBIT", "CASH", none, none, cash,
                some "Cash outflow for stock purchase"⟩,
              ⟨some rewardID, "BROKERAGE_FEE", "FEES", none, none, brokerage,
                some "Brokerage fee"⟩,
              ⟨some rewardID, "STT_FEE", "FEES", none, none, stt,
                some "Securities Transaction Tax"⟩,
              ⟨some rewardID, "GST_FEE", "FEES", none, none, gst, some "GST on brokerage"⟩,
              ⟨some rewardID, "OTHER_FEE", "FEES", none, none, other,
                some "Other regulatory fees"⟩ ] } := by
  obtain ⟨_, _, _, q, hq, hdb, _⟩ := createReward_ok hok
  refine ⟨q,
    amountOf (addAmounts [multiplyAmounts quantity (referencePrice db stockSymbol),
      addAmounts [calculateBrokerage quantity (referencePrice db stockSymbol),
        calculateSTT quantity (referencePrice db stockSymbol),
        calculateGST (calculateBrokerage quantity (referencePrice db stockSymbol)),
        calculateOtherFees quantity (referencePrice db stockSymbol)]]),
    amountOf (calculateBrokerage quantity (referencePrice db stockSymbol)),
    amountOf (calculateSTT quantity (referencePrice db stockSymbol)),
    amountOf (calculateGST (calculateBrokerage quantity (referencePrice db stockSymbol))),
    amountOf (calculateOtherFees quantity (referencePrice db stockSymbol)), hq, ?_⟩
  rw [hdb]
  simp only [buildLedgerEntries, ledgerEntries, ledgerRowOf, List.map_cons, List.map_nil,
    quantityOf, nullableQuantityIn, hq, amountOf_zero]

/-- Witness for C2: the first reward on an empty store. -/
theorem createReward_writes_six_rows_witness :
    (CreateReward ⟨[], [], [], []⟩ Faults.clean "r1" "u1" "TCS" "10" "e1" 0).result =
        .ok ⟨"r1", "u1", "TCS", "10", 0, "e1"⟩ ∧
    ∃ (q cash brokerage stt gst other : Int),
      numericIn 18 6 "10" = .ok q ∧
      (CreateReward ⟨[], [], [], []⟩ Faults.clean "r1" "u1" "TCS" "10" "e1" 0).db =
        { (⟨[], [], [], []⟩ : Store) with
          reward_events := [] ++ [⟨"r1", "u1", "TCS", q, 0, "e1"⟩]
          ledger_entries := [] ++
            [ ⟨some "r1", "STOCK_CREDIT", "STOCK", some "TCS", some q, 0,
                some "Stock reward credit"⟩,
              ⟨some "r1", "CASH_DEBIT", "CASH", none, none, cash,
                some "Cash outflow for stock purchase"⟩,
              ⟨some "r1", "BROKERAGE_FEE", "FEES", none, none, brokerage,
                some "Brokerage fee"⟩,
              ⟨some "r1", "STT_FEE", "FEES", none, none, stt,
                some "Securities Transaction Tax"⟩,
              ⟨some "r1", "GST_FEE", "FEES", none, none, gst, some "GST on brokerage"⟩,
              ⟨some "r1", "OTHER_FEE", "FEES", none, none, other,
                some "Other regulatory fees"⟩ ] } :=
  ⟨by rfl, createReward_writes_six_rows ⟨[], [], [], []⟩ Faults.clean "r1" "u1" "TCS" "10" "e1" 0
    ⟨"r1", "u1", "TCS", "10", 0, "e1"⟩ (by rfl)⟩

/-- C3 (defect). On the empty store, a reward of 10000000011 units is priced at the default
100.0000 and succeeds, writing CASH_DEBIT 1001118001111.2299 next to BROKERAGE_FEE
100000000.1100, STT_FEE 1000000001.1000, GST_FEE 18000000.0198 and OTHER_FEE 10.0000.  The
transaction value is 1000000001100.0000, so the five amounts add up to 1001118001111.2298:
the CASH_DEBIT row is off by 0.0001.  It also differs from the one-pass `float64` sum of the
five texts. -/
theorem createReward_cash_debit_off_by_one_unit :
    (CreateReward ⟨[], [], [], []⟩ Faults.clean "r1" "u1" "TCS" "10000000011" "e1" 0).result =
        .ok ⟨"r1", "u1", "TCS", "10000000011", 0, "e1"⟩ ∧
    (CreateReward ⟨[], [], [], []⟩ Faults.clean "r1" "u1" "TCS" "10000000011" "e1"
        0).db.ledger_entries.map (fun l => (l.entry_type, l.amount)) =
      [("STOCK_CREDIT", 0), ("CASH_DEBIT", 10011180011112299),
        ("BROKERAGE_FEE", 1000000001100), ("STT_FEE", 10000000011000),
        ("GST_FEE", 180000000198), ("OTHER_FEE", 100000)] ∧
    multiplyAmounts "10000000011" "100.0000" = "1000000001100.0000" ∧
    numericIn 18 4 "1000000001100.0000" = .ok 10000000011000000 ∧
    (10000000011000000 + 1000000001100 + 10000000011000 + 180000000198 + 100000 : Int) =
      10011180011112298 ∧
    addAmounts ["1000000001100.0000", "100000000.1100", "1000000001.1000", "18000000.0198",
      "10.0000"] = "1001118001111.2297" := by
  refine ⟨by rfl, by rfl, by rfl, by rfl, by decide, by rfl⟩

/-! ## Shape of printed amounts -/

theorem digitChar_spec : ∀ k, k < 10 →
    (Char.ofNat (48 + k)).isDigit = true ∧ (Char.ofNat (48 + k) != '.') = true ∧
      Char.ofNat (48 + k) ≠ '-' ∧ Char.ofNat (48 + k) ≠ '+' := by
  decide

theorem digitChar_isDigit (d : Nat) : (digitChar d).isDigit = true :=
  (digitChar_spec (d % 10) (Nat.mod_lt _ (by decide))).1

theorem digitChar_ne_point (d : Nat) : (digitChar d != '.') = true :=
  (digitChar_spec (d % 10) (Nat.mod_lt _ (by decide))).2.1

theorem fixedDigits_length : ∀ k n, (fixedDigits k n).length = k := by
  intro k
  induction k with
  | zero => intro n; rfl
  | succ k ih => intro n; simp [fixedDigits, ih]

theorem fixedDigits_digits : ∀ k n, ∀ c ∈ fixedDigits k n,
    c.isDigit = true ∧ (c != '.') = true := by
  intro k
  induction k with
  | zero => intro n c hc; simp [fixedDigits] at hc
  | succ k ih =>
    intro n c hc
    simp only [fixedDigits, List.mem_append, List.mem_singleton] at hc
    rcases hc with hc | rfl
    · exact ih _ c hc
    · exact ⟨digitChar_isDigit n, digitChar_ne_point n⟩

theorem decLenAux_pos : ∀ fuel n, 0 < decLenAux fuel n := by
  intro fuel
  cases fuel with
  | zero => intro n; simp [decLenAux]
  | succ k => intro n; unfold decLenAux; split <;> omega

theorem natDigits_cons (n : Nat) : ∃ c cs, natDigits n = c :: cs ∧
    c.isDigit = true ∧ (c != '.') = true ∧ c ≠ '-' ∧ c ≠ '+' := by
  unfold natDigits decLen
  obtain ⟨k, hk⟩ : ∃ k, decLenAux n n = k + 1 :=
    ⟨decLenAux n n - 1, by have := decLenAux_pos n n; omega⟩
  rw [hk]
  generalize n = m at *
  clear hk
  induction k generalizing m with
  | zero =>
    refine ⟨digitChar m, [], by simp [fixedDigits], ?_⟩
    exact digitChar_spec (m % 10) (Nat.mod_lt _ (by decide))
  | succ k ih =>
    obtain ⟨c, cs, h, hc⟩ := ih (m / 10)
    refine ⟨c, cs ++ [digitChar m], ?_, hc⟩
    rw [fixedDigits, h]
    rfl

theorem takeWhile_digits_point (ip rest : List Char)
    (h : ∀ c ∈ ip, (c != '.') = true) :
    (ip ++ '.' :: rest).takeWhile (fun c => c != '.') = ip ∧
      (ip ++ '.' :: rest).dropWhile (fun c => c != '.') = '.' :: rest := by
  induction ip with
  | nil => simp [List.takeWhile, List.dropWhile]
  | cons c cs ih =>
    have hc := h c (by simp)
    have := ih (fun d hd => h d (by simp [hd]))
    simp [List.takeWhile, List.dropWhile, hc, this]

theorem splitSign_digits (neg : Bool) (c : Char) (cs : List Char)
    (h1 : c ≠ '-') (h2 : c ≠ '+') :
    (splitSign ((if neg then ['-'] else []) ++ c :: cs)).2 = c :: cs := by
  cases neg
  · simp only [Bool.false_eq_true, if_false, List.nil_append]
    unfold splitSign
    split
    · rename_i heq; simp only [List.cons.injEq] at heq; exact absurd heq.1 h1
    · rename_i heq; simp only [List.cons.injEq] at heq; exact absurd heq.1 h2
    · rfl
  · simp [splitSign]

theorem fixedText_fourFractionDigits (neg : Bool) (units : Nat) :
    fourFractionDigits (fixedText neg units 4) = true := by
  obtain ⟨c, cs, hnat, hd, hp, hm, hpl⟩ := natDigits_cons (units / 10 ^ 4)
  have hall : ∀ d ∈ natDigits (units / 10 ^ 4), d.isDigit = true ∧ (d != '.') = true :=
    fixedDigits_digits _ _
  rw [hnat] at hall
  have hsplit := takeWhile_digits_point (c :: cs) (fixedDigits 4 units)
    (fun d hd => (hall d hd).2)
  unfold fourFractionDigits fixedText
  simp only [hnat, List.append_assoc, List.cons_append, List.nil_append]
  rw [splitSign_digits neg c _ hm hpl]
  have e : c :: (cs ++ '.' :: fixedDigits 4 units) = (c :: cs) ++ '.' :: fixedDigits 4 units :=
    rfl
  rw [e, hsplit.1, hsplit.2]
  have hfrac : (fixedDigits 4 units).all Char.isDigit = true :=
    List.all_eq_true.mpr (fun d hd => (fixedDigits_digits 4 units d hd).1)
  have hint : (c :: cs).all Char.isDigit = true :=
    List.all_eq_true.mpr (fun d hd => (hall d hd).1)
  simp [hfrac, hint, fixedDigits_length]

theorem sprintf4_fourFractionDigits (x : F64) : fourFractionDigits (sprintf4 x) = true :=
  fixedText_fourFractionDigits _ _

theorem divideAmount_nonzero (a b : String) (h : (sscanF b).isZero = false) :
    divideAmount a b = sprintf4 ((sscanF a).div (sscanF b)) := by
  simp [divideAmount, h]

theorem numericIn_ok_parse {p s : Nat} {text : String} {v : Int}
    (h : numericIn p s text = .ok v) : ∃ d, parseDecimal text = some d := by
  unfold numericIn at h
  cases hd : parseDecimal text with
  | none => simp [hd] at h
  | some d => exact ⟨d, rfl⟩

/-- C4. For a quantity and a price the columns accept, `transactionValue =
multiplyAmounts(q, p)` is the `float64` product of the two scanned values; the brokerage is the `float64` quotient `transactionValue / 10000`,
the STT is `transactionValue / 1000`, the GST is the `float64` product `brokerage * 0.18`
and the other fees are 10.0000, each printed with exactly four fractional digits.  For
`q = 10`, `p = 100.0000` the values are 1000.0000, 0.1000, 1.0000, 0.0180, 10.0000 and the
cash outflow is 1011.1180. -/
theorem fee_formulas (q p : String) (vq vp : Int)
    (hq : numericIn 18 6 q = .ok vq) (hp : numericIn 18 4 p = .ok vp) :
    (∃ dq dp, parseDecimal q = some dq ∧ parseDecimal p = some dp ∧
      multiplyAmounts q p = sprintf4 ((F64.ofDecimal dq).mul (F64.ofDecimal dp))) ∧
    (calculateBrokerage q p =
        sprintf4 ((sscanF (multiplyAmounts q p)).div (sscanF "10000")) ∧
      calculateSTT q p = sprintf4 ((sscanF (multiplyAmounts q p)).div (sscanF "1000")) ∧
      calculateGST (calculateBrokerage q p) =
        sprintf4 ((sscanF (calculateBrokerage q p)).mul (sscanF "0.18")) ∧
      calculateOtherFees q p = "10.0000") ∧
    (fourFractionDigits (multiplyAmounts q p) = true ∧
      fourFractionDigits (calculateBrokerage q p) = true ∧
      fourFractionDigits (calculateSTT q p) = true ∧
      fourFractionDigits (calculateGST (calculateBrokerage q p)) = true ∧
      fourFractionDigits (calculateOtherFees q p) = true) ∧
    (multiplyAmounts "10" "100.0000" = "1000.0000" ∧
      calculateBrokerage "10" "100.0000" = "0.1000" ∧
      calculateSTT "10" "100.0000" = "1.0000" ∧
      calculateGST "0.1000" = "0.0180" ∧
      calculateOtherFees "10" "100.0000" = "10.0000" ∧
      addAmounts ["1000.0000", addAmounts ["0.1000", "1.0000", "0.0180", "10.0000"]] =
        "1011.1180") := by
  have h1 : (sscanF "10000").isZero = false := by decide
  have h2 : (sscanF "1000").isZero = false := by decide
  have hb : calculateBrokerage q p =
      sprintf4 ((sscanF (multiplyAmounts q p)).div (sscanF "10000")) := by
    unfold calculateBrokerage
    exact divideAmount_nonzero (multiplyAmounts q p) "10000" h1
  have hs : calculateSTT q p =
      sprintf4 ((sscanF (multiplyAmounts q p)).div (sscanF "1000")) := by
    unfold calculateSTT
    exact divideAmount_nonzero (multiplyAmounts q p) "1000" h2
  obtain ⟨dq, hdq⟩ := numericIn_ok_parse hq
  obtain ⟨dp, hdp⟩ := numericIn_ok_parse hp
  refine ⟨⟨dq, dp, hdq, hdp, by simp [multiplyAmounts, sscanF, hdq, hdp]⟩,
    ⟨hb, hs, rfl, rfl⟩, ⟨?_, ?_, ?_, ?_, ?_⟩, ?_⟩
  · exact sprintf4_fourFractionDigits _
  · rw [hb]; exact sprintf4_fourFractionDigits _
  · rw [hs]; exact sprintf4_fourFractionDigits _
  · exact sprintf4_fourFractionDigits _
  · show fourFractionDigits "10.0000" = true
    decide
  · refine ⟨by rfl, by rfl, by rfl, by rfl, by rfl, by rfl⟩

/-- Witness for C4: quantity 10 and price 100.0000 are accepted by the columns. -/
theorem fee_formulas_witness :
    numericIn 18 6 "10" = .ok 10000000 ∧ numericIn 18 4 "100.0000" = .ok 1000000 ∧
    calculateBrokerage "10" "100.0000" =
      sprintf4 ((sscanF (multiplyAmounts "10" "100.0000")).div (sscanF "10000")) ∧
    calculateBrokerage "10" "100.0000" = "0.1000" :=
  ⟨by rfl, by rfl,
    (fee_formulas "10" "100.0000" 10000000 1000000 (by rfl) (by rfl)).2.1.1,
    (fee_formulas "10" "100.0000" 10000000 1000000 (by rfl) (by rfl)).2.2.2.2.1⟩

/-! ## The reference price -/

theorem foldl_laterPrice : ∀ (rs : List StockPriceRow) (r : StockPriceRow),
    rs.foldl laterPrice r ∈ r :: rs ∧
      ∀ x ∈ r :: rs, x.price_timestamp ≤ (rs.foldl laterPrice r).price_timestamp := by
  intro rs
  induction rs with
  | nil => intro r; simp
  | cons a rs ih =>
    intro r
    obtain ⟨hmem, hmax⟩ := ih (laterPrice r a)
    simp only [List.foldl_cons]
    have hr : r.price_timestamp ≤ (laterPrice r a).price_timestamp := by
      unfold laterPrice
      split
      · rename_i hlt; exact Int.le_of_lt hlt
      · exact Int.le_refl _
    have ha : a.price_timestamp ≤ (laterPrice r a).price_timestamp := by
      unfold laterPrice
      split
      · exact Int.le_refl _
      · rename_i hlt; exact Int.not_lt.mp hlt
    have hin : laterPrice r a = r ∨ laterPrice r a = a := by
      unfold laterPrice; split <;> simp
    have htop := hmax (laterPrice r a) (by simp)
    refine ⟨?_, ?_⟩
    · rcases List.mem_cons.mp hmem with h | h
      · rw [h]
        rcases hin with h2 | h2 <;> simp [h2]
      · simp [h]
    · intro x hx
      rcases List.mem_cons.mp hx with rfl | hx
      · exact Int.le_trans hr htop
      · rcases List.mem_cons.mp hx with rfl | hx
        · exact Int.le_trans ha htop
        · exact hmax x (by simp [hx])

theorem latestPriceRow_none {rows : List StockPriceRow} {stockSymbol : String}
    (h : ∀ r ∈ rows, r.stock_symbol ≠ stockSymbol) : latestPriceRow rows stockSymbol = none := by
  have : rows.filter (fun r => r.stock_symbol == stockSymbol) = [] := by
    rw [List.filter_eq_nil_iff]
    intro r hr
    simpa using h r hr
  simp [latestPriceRow, this]

theorem latestPriceRow_some {rows : List StockPriceRow} {stockSymbol : String}
    (h : ∃ r ∈ rows, r.stock_symbol = stockSymbol) :
    ∃ r ∈ rows, r.stock_symbol = stockSymbol ∧
      (∀ x ∈ rows, x.stock_symbol = stockSymbol → x.price_timestamp ≤ r.price_timestamp) ∧
      latestPriceRow rows stockSymbol = some r := by
  obtain ⟨r0, hr0, hs0⟩ := h
  cases hf : rows.filter (fun r => r.stock_symbol == stockSymbol) with
  | nil =>
    have := List.filter_eq_nil_iff.mp hf r0 hr0
    simp [hs0] at this
  | cons a rs =>
    obtain ⟨hmem, hmax⟩ := foldl_laterPrice rs a
    rw [← hf] at hmem hmax
    have hm := List.mem_filter.mp hmem
    refine ⟨rs.foldl laterPrice a, hm.1, by simpa using hm.2, ?_, by simp [latestPriceRow, hf]⟩
    intro x hx hxs
    exact hmax x (List.mem_filter.mpr ⟨hx, by simp [hxs]⟩)

theorem insertLedgerLoop_trace (f : Faults) (rewardID : String) :
    ∀ (entries : List LedgerInsert) (i : Nat) (tx : Store),
      ∀ s ∈ (insertLedgerLoop f rewardID entries i tx).2,
        ∃ en ∈ entries, s = Stmt.insertLedgerEntry rewardID en := by
  intro entries
  induction entries with
  | nil => intro i tx s hs; simp [insertLedgerLoop] at hs
  | cons en rest ih =>
    intro i tx s hs
    unfold insertLedgerLoop at hs
    cases hstep : faulty (f.insertLedger i) (insertLedgerEntry tx rewardID en) with
    | error e =>
      simp only [hstep, List.mem_singleton] at hs
      exact ⟨en, by simp, hs⟩
    | ok tx1 =>
      simp only [hstep, List.mem_cons] at hs
      rcases hs with hs | hs
      · exact ⟨en, by simp, hs⟩
      · obtain ⟨en1, h1, h2⟩ := ih (i + 1) tx1 s hs
        exact ⟨en1, by simp [h1], h2⟩

theorem createReward_ledger_trace {db : Store} {f : Faults}
    {rewardID userID stockSymbol quantity eventID : String} {ts : Time}
    {rid : String} {en : LedgerInsert}
    (h : Stmt.insertLedgerEntry rid en ∈
      (CreateReward db f rewardID userID stockSymbol quantity eventID ts).trace) :
    en ∈ buildLedgerEntries stockSymbol quantity (referencePrice db stockSymbol) := by
  unfold CreateReward at h
  cases hb : f.begin with
  | some e => simp [hb] at h
  | none =>
    simp only [hb] at h
    cases hl : faulty f.lookup (.ok (selectEventId db eventID)) with
    | error e => simp [hl] at h
    | ok found =>
      cases found with
      | some x => simp [hl] at h
      | none =>
        simp only [hl] at h
        cases hi : faulty f.insertEvent
            (insertRewardEvent db rewardID userID stockSymbol quantity ts eventID) with
        | error e => simp [hi] at h
        | ok tx1 =>
          simp only [hi] at h
          obtain ⟨q, _, _, _, _, htx1⟩ := insertRewardEvent_ok (faulty_ok hi).2
          cases hp : faulty f.priceRead (.ok (selectLatestPrice tx1 stockSymbol)) with
          | error e => simp [hp] at h
          | ok found =>
            simp only [hp] at h
            have hfound : found = selectLatestPrice db stockSymbol := by
              have := (faulty_ok hp).2
              simp only [Except.ok.injEq] at this
              rw [← this, htx1]
              rfl
            subst hfound
            have key : ∀ s ∈ (insertLedgerLoop f rewardID
                (buildLedgerEntries stockSymbol quantity
                  ((selectLatestPrice db stockSymbol).getD "100.0000")) 0 tx1).2,
                ∃ en ∈ buildLedgerEntries stockSymbol quantity
                  ((selectLatestPrice db stockSymbol).getD "100.0000"),
                  s = Stmt.insertLedgerEntry rewardID en :=
              insertLedgerLoop_trace f rewardID _ 0 tx1
            cases hloop : insertLedgerLoop f rewardID
                (buildLedgerEntries stockSymbol quantity
                  ((selectLatestPrice db stockSymbol).getD "100.0000")) 0 tx1 with
            | mk res t4 =>
              rw [hloop] at key
              have hmem : Stmt.insertLedgerEntry rid en ∈ t4 := by
                cases res with
                | error e => simpa [hloop] using h
                | ok tx2 =>
                  simp only [hloop] at h
                  cases hc : f.commit <;> simpa [hc] using h
              obtain ⟨en1, hen1, heq⟩ := key _ hmem
              simp only [Stmt.insertLedgerEntry.injEq] at heq
              rw [heq.2]
              exact hen1

/-- C5. The ledger inserts `CreateReward` issues, and the rows a successful call commits, are
built from the quantity and the reference price of the store: the price of the stored
`stock_prices` row of the symbol with the greatest timestamp, or the fixed default 100.0000
when the symbol has no row.  The price cache is not an input of `CreateReward`.  In the
default case the six amounts are the same for every symbol and store without a price: they
depend on the quantity only. -/
theorem createReward_reference_price (db : Store) (f : Faults)
    (rewardID userID stockSymbol quantity eventID : String) (ts : Time) :
    (∀ rid en, Stmt.insertLedgerEntry rid en ∈
        (CreateReward db f rewardID userID stockSymbol quantity eventID ts).trace →
      en ∈ buildLedgerEntries stockSymbol quantity (referencePrice db stockSymbol)) ∧
    (∀ ev, (CreateReward db f rewardID userID stockSymbol quantity eventID ts).result = .ok ev →
      (CreateReward db f rewardID userID stockSymbol quantity eventID ts).db.ledger_entries =
        db.ledger_entries ++
          (buildLedgerEntries stockSymbol quantity (referencePrice db stockSymbol)).map
            (ledgerRowOf rewardID)) ∧
    ((∃ r ∈ db.stock_prices, r.stock_symbol = stockSymbol) →
      ∃ r ∈ db.stock_prices, r.stock_symbol = stockSymbol ∧
        (∀ x ∈ db.stock_prices, x.stock_symbol = stockSymbol →
          x.price_timestamp ≤ r.price_timestamp) ∧
        referencePrice db stockSymbol = numericOut 4 r.price) ∧
    ((∀ r ∈ db.stock_prices, r.stock_symbol ≠ stockSymbol) →
      referencePrice db stockSymbol = "100.0000" ∧
      ∀ (db2 : Store) (symbol2 : String),
        (∀ r ∈ db2.stock_prices, r.stock_symbol ≠ symbol2) →
        (buildLedgerEntries stockSymbol quantity (referencePrice db stockSymbol)).map
            (fun en => en.amount) =
          (buildLedgerEntries symbol2 quantity (referencePrice db2 symbol2)).map
            (fun en => en.amount)) := by
  have hdefault : ∀ (d : Store) (s : String), (∀ r ∈ d.stock_prices, r.stock_symbol ≠ s) →
      referencePrice d s = "100.0000" := by
    intro d s h
    simp [referencePrice, selectLatestPrice, latestPriceRow_none h]
  refine ⟨fun rid en h => createReward_ledger_trace h, ?_, ?_, ?_⟩
  · intro ev hok
    obtain ⟨_, _, _, q, _, hdb, _⟩ := createReward_ok hok
    rw [hdb]
  · intro hex
    obtain ⟨r, hr, hs, hmax, hlatest⟩ := latestPriceRow_some hex
    exact ⟨r, hr, hs, hmax, by simp [referencePrice, selectLatestPrice, hlatest]⟩
  · intro hnone
    refine ⟨hdefault db stockSymbol hnone, ?_⟩
    intro db2 symbol2 h2
    rw [hdefault db stockSymbol hnone, hdefault db2 symbol2 h2]
    simp [buildLedgerEntries, ledgerEntries, calculateOtherFees]

/-- Witness for C5: with prices 0.1234 at time 3 and 3500.1234 at time 5 stored for TCS, a
reward of TCS is priced at a row of greatest timestamp; a reward of INFY, which has no row, at
100.0000. -/
theorem createReward_reference_price_witness :
    (∃ r ∈ [(⟨"TCS", 1234, 3⟩ : StockPriceRow), ⟨"TCS", 35001234, 5⟩],
      r.stock_symbol = "TCS" ∧
      (∀ x ∈ [(⟨"TCS", 1234, 3⟩ : StockPriceRow), ⟨"TCS", 35001234, 5⟩],
        x.stock_symbol = "TCS" → x.price_timestamp ≤ r.price_timestamp) ∧
      referencePrice ⟨[], [], [⟨"TCS", 1234, 3⟩, ⟨"TCS", 35001234, 5⟩], []⟩ "TCS" =
        numericOut 4 r.price) ∧
    referencePrice ⟨[], [], [⟨"TCS", 1234, 3⟩, ⟨"TCS", 35001234, 5⟩], []⟩ "TCS" = "3500.1234" ∧
    referencePrice ⟨[], [], [⟨"TCS", 1234, 3⟩, ⟨"TCS", 35001234, 5⟩], []⟩ "INFY" = "100.0000" :=
  ⟨(createReward_reference_price ⟨[], [], [⟨"TCS", 1234, 3⟩, ⟨"TCS", 35001234, 5⟩], []⟩
      Faults.clean "r1" "u1" "TCS" "10" "e1" 0).2.2.1
      ⟨⟨"TCS", 35001234, 5⟩, by simp, rfl⟩,
    by rfl,
    ((createReward_reference_price ⟨[], [], [⟨"TCS", 1234, 3⟩, ⟨"TCS", 35001234, 5⟩], []⟩
      Faults.clean "r1" "u1" "INFY" "10" "e1" 0).2.2.2
      (by decide)).1⟩

/-- C6 (defect). On the empty store the duplicate lookup for `e1` finds no row; when the
insert of the reward event then fails with a uniqueness violation on `event_id` (a concurrent
identical request committed in between), `CreateReward` returns that database error as it is,
not `ErrDuplicateEvent`. -/
theorem createReward_unique_violation_not_duplicate :
    selectEventId ⟨[], [], [], []⟩ "e1" = none ∧
    (CreateReward ⟨[], [], [], []⟩
        ⟨none, none, some (.uniqueViolation "reward_events_event_id_key"), none,
          fun _ => none, none⟩
        "r1" "u1" "TCS" "10" "e1" 0).result =
      .error (.db (.uniqueViolation "reward_events_event_id_key")) ∧
    (CreateReward ⟨[], [], [], []⟩
        ⟨none, none, some (.uniqueViolation "reward_events_event_id_key"), none,
          fun _ => none, none⟩
        "r1" "u1" "TCS" "10" "e1" 0).result ≠ .error .ErrDuplicateEvent := by
  refine ⟨by rfl, by rfl, ?_⟩
  intro h
  have h2 : (CreateReward ⟨[], [], [], []⟩
        ⟨none, none, some (.uniqueViolation "reward_events_event_id_key"), none,
          fun _ => none, none⟩
        "r1" "u1" "TCS" "10" "e1" 0).result =
      .error (.db (.uniqueViolation "reward_events_event_id_key")) := by rfl
  rw [h2] at h
  simp at h

/-! ## Atomicity -/

theorem createReward_db_cases (db : Store) (f : Faults)
    (rewardID userID stockSymbol quantity eventID : String) (ts : Time) :
    (CreateReward db f rewardID userID stockSymbol quantity eventID ts).db = db ∨
      ∃ ev, (CreateReward db f rewardID userID stockSymbol quantity eventID ts).result =
        .ok ev := by
  unfold CreateReward
  cases hb : f.begin with
  | some e => simp
  | none =>
    cases hl : faulty f.lookup (.ok (selectEventId db eventID)) with
    | error e => simp [hl]
    | ok found =>
      cases found with
      | some x => simp [hl]
      | none =>
        cases hi : faulty f.insertEvent
            (insertRewardEvent db rewardID userID stockSymbol quantity ts eventID) with
        | error e => simp [hl, hi]
        | ok tx1 =>
          cases hp : faulty f.priceRead (.ok (selectLatestPrice tx1 stockSymbol)) with
          | error e => simp [hl, hi, hp]
          | ok found =>
            cases hloop : insertLedgerLoop f rewardID
                (buildLedgerEntries stockSymbol quantity (found.getD "100.0000")) 0 tx1 with
            | mk res t4 =>
              cases res with
              | error e => simp [hl, hi, hp, hloop]
              | ok tx2 =>
                cases hc : f.commit with
                | some e => simp [hl, hi, hp, hloop]
                | none => simp [hl, hi, hp, hloop]

/-- C7. Whenever `CreateReward` returns an error, whichever call failed (`Begin`, the
duplicate lookup, the event insert, the price read, any of the six ledger inserts, or
`Commit`) and also for a duplicate event, the committed store after the call is the store
before it: the reward events and the ledger rows are unchanged.  In general the committed
store after a call is either the store before it or that store with one more reward event and
six more ledger rows, all owned by that event: no event is ever visible with fewer. -/
theorem createReward_error_rolls_back (db : Store) (f : Faults)
    (rewardID userID stockSymbol quantity eventID : String) (ts : Time) :
    (∀ e, (CreateReward db f rewardID userID stockSymbol quantity eventID ts).result =
        .error e →
      (CreateReward db f rewardID userID stockSymbol quantity eventID ts).db = db ∧
      (CreateReward db f rewardID userID stockSymbol quantity eventID ts).db.reward_events =
        db.reward_events ∧
      (CreateReward db f rewardID userID stockSymbol quantity eventID ts).db.ledger_entries =
        db.ledger_entries) ∧
    ((CreateReward db f rewardID userID stockSymbol quantity eventID ts).db = db ∨
      ∃ (newEvent : RewardEventRow) (newRows : List LedgerEntryRow),
        (CreateReward db f rewardID userID stockSymbol quantity eventID ts).db =
          { db with
            reward_events := db.reward_events ++ [newEvent]
            ledger_entries := db.ledger_entries ++ newRows } ∧
        newRows.length = 6 ∧ ∀ l ∈ newRows, l.reward_event_id = some newEvent.id) := by
  refine ⟨?_, ?_⟩
  · intro e herr
    have hdb : (CreateReward db f rewardID userID stockSymbol quantity eventID ts).db = db := by
      rcases createReward_db_cases db f rewardID userID stockSymbol quantity eventID ts
        with h | h
      · exact h
      · obtain ⟨ev, hev⟩ := h
        rw [hev] at herr
        simp at herr
    exact ⟨hdb, by rw [hdb], by rw [hdb]⟩
  · rcases createReward_db_cases db f rewardID userID stockSymbol quantity eventID ts
      with h | h
    · exact Or.inl h
    · obtain ⟨ev, hev⟩ := h
      obtain ⟨_, _, _, q, _, hdb, _⟩ := createReward_ok hev
      refine Or.inr ⟨⟨rewardID, userID, stockSymbol, q, ts, eventID⟩, _, hdb, ?_, ?_⟩
      · simp [buildLedgerEntries, ledgerEntries]
      · intro l hl
        simp only [List.mem_map] at hl
        obtain ⟨en, _, rfl⟩ := hl
        rfl

/-- Witness for C7: the fourth ledger insert fails after the event and three ledger rows were
written inside the transaction; the committed store stays empty. -/
theorem createReward_error_rolls_back_witness :
    (CreateReward ⟨[], [], [], []⟩
        ⟨none, none, none, none, fun i => if i = 3 then some .connection else none, none⟩
        "r1" "u1" "TCS" "10" "e1" 0).result = .error (.db .connection) ∧
    (CreateReward ⟨[], [], [], []⟩
        ⟨none, none, none, none, fun i => if i = 3 then some .connection else none, none⟩
        "r1" "u1" "TCS" "10" "e1" 0).db = ⟨[], [], [], []⟩ :=
  ⟨by rfl,
    ((createReward_error_rolls_back ⟨[], [], [], []⟩
      ⟨none, none, none, none, fun i => if i = 3 then some .connection else none, none⟩
      "r1" "u1" "TCS" "10" "e1" 0).1 (.db .connection) (by rfl)).1⟩

/-! ## Malformed input -/

/-- C8 (defect). The quantity `abc` is not a decimal literal, yet `CreateReward`
on the empty store begins a transaction, issues the duplicate lookup (a read) and the insert
of the reward event (a write attempt), and only then fails, with the store's rejection of the
text.  Through the handler the request is answered 500 after the same statements.  When the
event identifier already exists the call is answered `ErrDuplicateEvent`, the malformed
quantity going unnoticed.  A symbol of 51 letters, one more than its column holds, takes the
same path to the store.  The handler does check its third text up front: a timestamp that
does not parse is answered 400 before any statement. -/
theorem createReward_malformed_quantity_reaches_store :
    parseDecimal "abc" = none ∧
    (CreateReward ⟨[], [], [], []⟩ Faults.clean "r1" "u1" "TCS" "abc" "e1" 0).trace =
      [.begin, .selectEventId "e1", .insertRewardEvent "r1" "u1" "TCS" "abc" "e1",
        .rollback] ∧
    (CreateReward ⟨[], [], [], []⟩ Faults.clean "r1" "u1" "TCS" "abc" "e1" 0).trace.any
      Stmt.isRead = true ∧
    (CreateReward ⟨[], [], [], []⟩ Faults.clean "r1" "u1" "TCS" "abc" "e1" 0).trace.any
      Stmt.isWrite = true ∧
    (CreateReward ⟨[], [], [], []⟩ Faults.clean "r1" "u1" "TCS" "abc" "e1" 0).result =
      .error (.db .invalidText) ∧
    (handleCreateReward ⟨[], [], [], []⟩ Faults.clean (fun _ => none) 0 "e0" "r1"
      ⟨"u1", "TCS", "abc", "", "e1"⟩).response = ⟨500, none⟩ ∧
    (handleCreateReward ⟨[], [], [], []⟩ Faults.clean (fun _ => none) 0 "e0" "r1"
      ⟨"u1", "TCS", "abc", "", "e1"⟩).trace.any Stmt.isRead = true ∧
    (CreateReward ⟨[⟨"r0", "u0", "TCS", 1000000, 0, "e1"⟩], [], [], []⟩ Faults.clean
      "r1" "u1" "TCS" "abc" "e1" 0).result = .error .ErrDuplicateEvent ∧
    (CreateReward ⟨[], [], [], []⟩ Faults.clean "r1" "u1"
      "AAAAAAAAAAAAAAAAAAAAAAAAAAAAAAAAAAAAAAAAAAAAAAAAAAA" "10" "e1" 0).trace =
      [.begin, .selectEventId "e1",
        .insertRewardEvent "r1" "u1" "AAAAAAAAAAAAAAAAAAAAAAAAAAAAAAAAAAAAAAAAAAAAAAAAAAA" "10" "e1",
        .rollback] ∧
    (CreateReward ⟨[], [], [], []⟩ Faults.clean "r1" "u1"
      "AAAAAAAAAAAAAAAAAAAAAAAAAAAAAAAAAAAAAAAAAAAAAAAAAAA" "10" "e1" 0).result =
      .error (.db .valueTooLong) ∧
    (handleCreateReward ⟨[], [], [], []⟩ Faults.clean (fun _ => none) 0 "e0" "r1"
      ⟨"u1", "TCS", "10", "tomorrow", "e1"⟩).response = ⟨400, none⟩ ∧
    (handleCreateReward ⟨[], [], [], []⟩ Faults.clean (fun _ => none) 0 "e0" "r1"
      ⟨"u1", "TCS", "10", "tomorrow", "e1"⟩).trace = [] := by
  refine ⟨by rfl, by rfl, by rfl, by rfl, by rfl, by rfl, by rfl, by rfl, by rfl, by rfl,
    by rfl, by rfl⟩

/-! ## The portfolio loop -/

theorem portfolioLoop_eq (db : Store) (f : ReadFaults) (draws : Nat → F64)
    (hscan : ∀ i, f.scan i = none) :
    ∀ (rows : List (String × String)) (i : Nat) (cache : PriceCache) (holdings : List Holding)
      (total : F64),
      portfolioLoop db f draws rows i cache holdings total =
        (.ok (holdings ++ (pricedRows db f draws rows i cache).1,
            sumValues total (pricedRows db f draws rows i cache).1),
          (pricedRows db f draws rows i cache).2) := by
  intro rows
  induction rows with
  | nil => intro i cache holdings total; simp [portfolioLoop, pricedRows, sumValues]
  | cons row rest ih =>
    intro i cache holdings total
    obtain ⟨symbol, quantity⟩ := row
    unfold portfolioLoop
    simp only [hscan]
    rw [ih]
    simp [pricedRows, priceRow, sumValues]

theorem pricedRows_rows (db : Store) (f : ReadFaults) (draws : Nat → F64) :
    ∀ (rows : List (String × String)) (i : Nat) (cache : PriceCache),
      (pricedRows db f draws rows i cache).1.map (fun h => (h.StockSymbol, h.Quantity)) =
        rows := by
  intro rows
  induction rows with
  | nil => intro i cache; simp [pricedRows]
  | cons row rest ih =>
    intro i cache
    simp [pricedRows, priceRow, ih]

theorem pricedRows_value (db : Store) (f : ReadFaults) (draws : Nat → F64) :
    ∀ (rows : List (String × String)) (i : Nat) (cache : PriceCache),
      ∀ h ∈ (pricedRows db f draws rows i cache).1,
        h.CurrentValue = multiplyAmounts h.Quantity h.CurrentPrice := by
  intro rows
  induction rows with
  | nil => intro i cache h hh; simp [pricedRows] at hh
  | cons row rest ih =>
    intro i cache h hh
    simp only [pricedRows, List.mem_cons] at hh
    rcases hh with rfl | hh
    · simp [priceRow]
    · exact ih _ _ h hh

theorem getPortfolio_eq (db : Store) (cache : PriceCache) (f : ReadFaults)
    (draws : Nat → F64) (userID : String)
    (hquery : f.query = none) (hscan : ∀ i, f.scan i = none) (hrows : f.rowsErr = none) :
    GetPortfolio db cache f draws userID =
      ⟨some ⟨(pricedRows db f draws (selectHoldings db userID) 0 cache).1,
          sprintf4 (sumValues F64.zero
            (pricedRows db f draws (selectHoldings db userID) 0 cache).1)⟩,
        none, (pricedRows db f draws (selectHoldings db userID) 0 cache).2⟩ := by
  unfold GetPortfolio
  simp only [hquery, deliveredRows, hrows]
  rw [portfolioLoop_eq db f draws hscan]
  simp

/-! ## Grouping by symbol -/

theorem mem_distinct : ∀ (xs : List String) (s : String), s ∈ distinct xs ↔ s ∈ xs := by
  intro xs
  induction xs with
  | nil => intro s; simp [distinct]
  | cons x xs ih =>
    intro s
    simp only [distinct, List.mem_cons, List.mem_filter, ih]
    constructor
    · rintro (h | ⟨h, _⟩)
      · exact Or.inl h
      · exact Or.inr h
    · rintro (h | h)
      · exact Or.inl h
      · by_cases hs : s = x
        · exact Or.inl hs
        · exact Or.inr ⟨h, by simpa using hs⟩

theorem distinct_nodup : ∀ (xs : List String), (distinct xs).Nodup := by
  intro xs
  induction xs with
  | nil => simp [distinct]
  | cons x xs ih =>
    simp only [distinct, List.nodup_cons, List.mem_filter]
    refine ⟨?_, ih.filter _⟩
    rintro ⟨_, h⟩
    simp at h

theorem selectHoldings_symbols (db : Store) (userID : String) :
    (selectHoldings db userID).map Prod.fst =
      distinct ((eventsOf db userID).map (fun r => r.stock_symbol)) := by
  simp [selectHoldings, List.map_map, Function.comp_def]

theorem sumQuantity_eventsOf (db : Store) (userID s : String) :
    sumQuantity (eventsOf db userID) s =
      ((db.reward_events.filter
        (fun r => r.user_id == userID && r.stock_symbol == s)).map (fun r => r.quantity)).sum := by
  simp [sumQuantity, eventsOf, List.filter_filter, Bool.and_comm]

/-- C9. When no read fails, `GetPortfolio` returns a portfolio, without error, that has exactly
one holding per distinct symbol among the user's reward events, and the quantity of each
holding is the sum (printed with six fractional digits) of the quantities of all reward events
of that user and symbol; events of other users do not enter the sum.  A user with events of 5
and 7 units of one symbol, next to another user's event of 9 units, has a single holding of
12.000000. -/
theorem getPortfolio_holdings (db : Store) (cache : PriceCache) (f : ReadFaults)
    (draws : Nat → F64) (userID : String)
    (hquery : f.query = none) (hscan : ∀ i, f.scan i = none) (hrows : f.rowsErr = none) :
    (∃ p, (GetPortfolio db cache f draws userID).portfolio = some p ∧
      (GetPortfolio db cache f draws userID).err = none ∧
      (p.Holdings.map (fun h => h.StockSymbol)).Nodup ∧
      (∀ s, s ∈ p.Holdings.map (fun h => h.StockSymbol) ↔
        ∃ ev ∈ db.reward_events, ev.user_id = userID ∧ ev.stock_symbol = s) ∧
      (∀ h ∈ p.Holdings, h.Quantity = numericOut 6
        ((db.reward_events.filter
          (fun r => r.user_id == userID && r.stock_symbol == h.StockSymbol)).map
            (fun r => r.quantity)).sum)) ∧
    ((GetPortfolio
        ⟨[⟨"r1", "u1", "TCS", 5000000, 0, "e1"⟩, ⟨"r2", "u2", "TCS", 9000000, 0, "e2"⟩,
          ⟨"r3", "u1", "TCS", 7000000, 0, "e3"⟩], [], [⟨"TCS", 35000000, 0⟩], []⟩
        [] ReadFaults.clean (fun _ => F64.zero) "u1").portfolio.map
          (fun p => p.Holdings.map (fun h => (h.StockSymbol, h.Quantity))) =
      some [("TCS", "12.000000")]) := by
  refine ⟨?_, by rfl⟩
  rw [getPortfolio_eq db cache f draws userID hquery hscan hrows]
  refine ⟨_, rfl, rfl, ?_, ?_, ?_⟩
  · have h := congrArg (List.map Prod.fst)
      (pricedRows_rows db f draws (selectHoldings db userID) 0 cache)
    simp only [List.map_map, Function.comp_def] at h
    simp only
    rw [h, selectHoldings_symbols]
    exact distinct_nodup _
  · intro s
    have h := congrArg (List.map Prod.fst)
      (pricedRows_rows db f draws (selectHoldings db userID) 0 cache)
    simp only [List.map_map, Function.comp_def] at h
    simp only
    rw [h, selectHoldings_symbols, mem_distinct]
    simp only [eventsOf, List.mem_map, List.mem_filter]
    constructor
    · rintro ⟨ev, ⟨hev, hu⟩, hs⟩
      exact ⟨ev, hev, by simpa using hu, hs⟩
    · rintro ⟨ev, hev, hu, hs⟩
      exact ⟨ev, ⟨hev, by simpa using hu⟩, hs⟩
  · intro h hh
    have hmem : (h.StockSymbol, h.Quantity) ∈ selectHoldings db userID := by
      rw [← pricedRows_rows db f draws (selectHoldings db userID) 0 cache]
      exact List.mem_map.mpr ⟨h, hh, rfl⟩
    simp only [selectHoldings, List.mem_map] at hmem
    obtain ⟨s, _, hs⟩ := hmem
    simp only [Prod.mk.injEq] at hs
    rw [← hs.2, hs.1, sumQuantity_eventsOf]

/-- Witness for C9: the user with events of 5 and 7 units of TCS. -/
theorem getPortfolio_holdings_witness :
    ReadFaults.clean.query = none ∧ (∀ i, ReadFaults.clean.scan i = none) ∧
    ReadFaults.clean.rowsErr = none ∧
    ∃ p, (GetPortfolio
        ⟨[⟨"r1", "u1", "TCS", 5000000, 0, "e1"⟩, ⟨"r2", "u2", "TCS", 9000000, 0, "e2"⟩,
          ⟨"r3", "u1", "TCS", 7000000, 0, "e3"⟩], [], [⟨"TCS", 35000000, 0⟩], []⟩
        [] ReadFaults.clean (fun _ => F64.zero) "u1").portfolio = some p ∧
      (p.Holdings.map (fun h => h.StockSymbol)).Nodup :=
  ⟨rfl, fun _ => rfl, rfl,
    match (getPortfolio_holdings
      ⟨[⟨"r1", "u1", "TCS", 5000000, 0, "e1"⟩, ⟨"r2", "u2", "TCS", 9000000, 0, "e2"⟩,
        ⟨"r3", "u1", "TCS", 7000000, 0, "e3"⟩], [], [⟨"TCS", 35000000, 0⟩], []⟩
      [] ReadFaults.clean (fun _ => F64.zero) "u1" rfl (fun _ => rfl) rfl).1 with
    | ⟨p, hp, _, hn, _⟩ => ⟨p, hp, hn⟩⟩

/-! ## Pricing of holdings -/

theorem multiplyAmounts_zero_price (q : String) :
    multiplyAmounts q "0.0000" = fixedText (sscanF q).neg 0 4 := by
  have hz : sscanF "0.0000" = ⟨false, 0, 0⟩ := by decide
  unfold multiplyAmounts
  simp only [hz]
  simp [F64.mul, F64.ratio, scaleRatio, roundRatio, sprintf4, F64.units4, roundHalfEven]

theorem zero_value_cases (neg : Bool) :
    numericIn 18 4 (fixedText neg 0 4) = .ok 0 ∧
      (neg = false → fixedText neg 0 4 = "0.0000") := by
  cases neg
  · exact ⟨by rfl, fun _ => by decide⟩
  · exact ⟨by rfl, fun h => by simp at h⟩

theorem priceRow_fault (db : Store) (f : ReadFaults) (draws : Nat → F64) (i : Nat)
    (cache : PriceCache) (row : String × String) (e : DbError) (h : f.price i = some e) :
    (priceRow db f draws i cache row).1 =
      ⟨row.1, row.2, "0.0000", multiplyAmounts row.2 "0.0000"⟩ := by
  simp [priceRow, GetLatestPrice, faulty, h]

theorem pricedRows_fault (db : Store) (f : ReadFaults) (draws : Nat → F64) :
    ∀ (rows : List (String × String)) (i : Nat) (cache : PriceCache) (j : Nat) (h : Holding)
      (e : DbError),
      (pricedRows db f draws rows i cache).1[j]? = some h → f.price (i + j) = some e →
      h.CurrentPrice = "0.0000" ∧ h.CurrentValue = multiplyAmounts h.Quantity "0.0000" := by
  intro rows
  induction rows with
  | nil => intro i cache j h e hj; simp [pricedRows] at hj
  | cons row rest ih =>
    intro i cache j h e hj hf
    cases j with
    | zero =>
      simp only [pricedRows, List.getElem?_cons_zero, Option.some.injEq] at hj
      rw [priceRow_fault db f draws i cache row e (by simpa using hf)] at hj
      subst hj
      exact ⟨rfl, rfl⟩
    | succ j =>
      simp only [pricedRows, List.getElem?_cons_succ] at hj
      exact ih (i + 1) _ j h e hj (by rw [← hf]; congr 1; omega)

theorem lookup_filter_ne (cache : PriceCache) (s t : String) (h : t ≠ s) :
    (cache.filter (fun kv => kv.1 != s)).lookup t = cache.lookup t := by
  induction cache with
  | nil => rfl
  | cons kv rest ih =>
    obtain ⟨k, v⟩ := kv
    by_cases hk : k = s
    · subst hk
      have htk : (t == k) = false := by simpa using h
      simp [List.filter, List.lookup, htk, ih]
    · have hks : (k != s) = true := by simpa using hk
      simp only [List.filter, hks, List.lookup]
      rw [ih]

theorem lookup_set_ne (cache : PriceCache) (s p t : String) (h : t ≠ s) :
    (cache.set s p).lookup t = cache.lookup t := by
  have hts : (t == s) = false := by simpa using h
  simp only [PriceCache.set, List.lookup, hts]
  exact lookup_filter_ne cache s t h

theorem getCurrentPrice_cache_other (cache : PriceCache) (u : F64) (s t : String)
    (h : t ≠ s) : (GetCurrentPrice cache u s).2.lookup t = cache.lookup t := by
  unfold GetCurrentPrice
  cases hc : cache.lookup s with
  | some p => simp
  | none => simp only; exact lookup_set_ne cache s _ t h

theorem priceRow_cache_other (db : Store) (f : ReadFaults) (draws : Nat → F64) (i : Nat)
    (cache : PriceCache) (row : String × String) (t : String) (h : t ≠ row.1) :
    (priceRow db f draws i cache row).2.lookup t = cache.lookup t := by
  unfold priceRow GetLatestPrice
  cases hf : faulty (f.price i) (.ok (selectLatestPrice db row.1)) with
  | error e => simp
  | ok found =>
    cases found with
    | some p => simp
    | none => simp only; exact getCurrentPrice_cache_other cache _ _ t h

theorem getCurrentPrice_congr (c1 c2 : PriceCache) (u : F64) (s : String)
    (h : c1.lookup s = c2.lookup s) :
    (GetCurrentPrice c1 u s).1 = (GetCurrentPrice c2 u s).1 := by
  unfold GetCurrentPrice
  rw [h]
  cases c2.lookup s <;> simp

theorem priceRow_congr (db : Store) (f1 f2 : ReadFaults) (draws : Nat → F64) (i : Nat)
    (c1 c2 : PriceCache) (row : String × String)
    (hf : f1.price i = f2.price i) (hc : c1.lookup row.1 = c2.lookup row.1) :
    (priceRow db f1 draws i c1 row).1 = (priceRow db f2 draws i c2 row).1 := by
  unfold priceRow GetLatestPrice
  rw [hf]
  cases hq : faulty (f2.price i) (.ok (selectLatestPrice db row.1)) with
  | error e => simp
  | ok found =>
    cases found with
    | some p => simp
    | none =>
      simp only
      rw [getCurrentPrice_congr c1 c2 (draws i) row.1 hc]

theorem pricedRows_unaffected (db : Store) (f1 f2 : ReadFaults) (draws : Nat → F64) :
    ∀ (rows : List (String × String)) (i : Nat) (c1 c2 : PriceCache),
      (rows.map Prod.fst).Nodup →
      (∀ s ∈ rows.map Prod.fst, c1.lookup s = c2.lookup s) →
      ∀ (j : Nat) (h : Holding),
        (pricedRows db f1 draws rows i c1).1[j]? = some h →
        f1.price (i + j) = f2.price (i + j) →
        (pricedRows db f2 draws rows i c2).1[j]? = some h := by
  intro rows
  induction rows with
  | nil => intro i c1 c2 _ _ j h hj; simp [pricedRows] at hj
  | cons row rest ih =>
    intro i c1 c2 hnd hagree j h hj hf
    simp only [List.map_cons, List.nodup_cons] at hnd
    cases j with
    | zero =>
      simp only [pricedRows, List.getElem?_cons_zero, Option.some.injEq] at hj ⊢
      rw [← hj]
      exact (priceRow_congr db f1 f2 draws i c1 c2 row (by simpa using hf)
        (hagree row.1 (by simp))).symm
    | succ j =>
      simp only [pricedRows, List.getElem?_cons_succ] at hj ⊢
      refine ih (i + 1) _ _ hnd.2 ?_ j h hj (by
        have e : i + 1 + j = i + (j + 1) := by omega
        rw [e]; exact hf)
      intro s hs
      have hne : s ≠ row.1 := fun heq => hnd.1 (heq ▸ hs)
      rw [priceRow_cache_other db f1 draws i c1 row s hne,
        priceRow_cache_other db f2 draws i c2 row s hne]
      exact hagree s (by simp [hs])

theorem sumValues_eq_addAmounts (holdings : List Holding) :
    sprintf4 (sumValues F64.zero holdings) =
      addAmounts (holdings.map (fun h => h.CurrentValue)) := by
  simp [addAmounts, sumValues, List.foldl_map]

/-- The shape of the result of `GetPortfolio`.  When the holdings query, the row scans and
the row iteration do not fail, a portfolio is returned without error, whatever price lookups
fail.  Each holding's value is `multiplyAmounts` of its quantity and its price and the total
is `addAmounts` of the holdings' values.  A holding whose price lookup fails has price 0.0000
and a value of zero: the text 0.0000, or -0.0000 when the scanned quantity is negative.  A
holding whose price lookup does not fail is the same as in the run in which no price lookup
fails. -/
theorem getPortfolio_values (db : Store) (cache : PriceCache) (f : ReadFaults)
    (draws : Nat → F64) (userID : String)
    (hquery : f.query = none) (hscan : ∀ i, f.scan i = none) (hrows : f.rowsErr = none) :
    ∃ p, (GetPortfolio db cache f draws userID).portfolio = some p ∧
      (GetPortfolio db cache f draws userID).err = none ∧
      (∀ h ∈ p.Holdings, h.CurrentValue = multiplyAmounts h.Quantity h.CurrentPrice) ∧
      p.TotalValue = addAmounts (p.Holdings.map (fun h => h.CurrentValue)) ∧
      (∀ (j : Nat) (h : Holding) (e : DbError),
        p.Holdings[j]? = some h → f.price j = some e →
        h.CurrentPrice = "0.0000" ∧ numericIn 18 4 h.CurrentValue = .ok 0 ∧
          ((sscanF h.Quantity).neg = false → h.CurrentValue = "0.0000")) ∧
      (∀ (j : Nat) (h : Holding),
        p.Holdings[j]? = some h → f.price j = none →
        ∃ p0, (GetPortfolio db cache ⟨f.query, f.scan, fun _ => none, f.rowsErr⟩ draws
            userID).portfolio = some p0 ∧ p0.Holdings[j]? = some h) := by
  rw [getPortfolio_eq db cache f draws userID hquery hscan hrows]
  refine ⟨_, rfl, rfl, ?_, ?_, ?_, ?_⟩
  · exact pricedRows_value db f draws _ _ _
  · exact sumValues_eq_addAmounts _
  · intro j h e hj hf
    obtain ⟨hp, hv⟩ := pricedRows_fault db f draws _ 0 cache j h e hj (by simpa using hf)
    rw [hv, multiplyAmounts_zero_price]
    exact ⟨hp, (zero_value_cases _).1, (zero_value_cases _).2⟩
  · intro j h hj hf
    rw [getPortfolio_eq db cache ⟨f.query, f.scan, fun _ => none, f.rowsErr⟩ draws userID
      hquery hscan hrows]
    refine ⟨_, rfl, ?_⟩
    refine pricedRows_unaffected db f ⟨f.query, f.scan, fun _ => none, f.rowsErr⟩ draws
      (selectHoldings db userID) 0 cache cache ?_ (fun _ _ => rfl) j h hj (by simpa using hf)
    rw [selectHoldings_symbols]
    exact distinct_nodup _

/-- C10 (defect). Three calls of `GetPortfolio` on stores whose quantities and prices fit
their columns.
A holding of 5815594.823630 units priced 3328.9162 is valued 19359627821.0181; the product is
19359627821.018049806, which lies between 19359627821.0180 and 19359627821.01805 and so
rounds to 19359627821.0180 under rounding to nearest as under truncation.
Two holdings valued 1000000001100.0000 and 1118000011.2298 are totalled 1001118001111.2299;
their sum is 1001118001111.2298.
A holding of -2.5 units whose price lookup fails gets price 0.0000 and the value text -0.0000,
not 0.0000.
In all three the call returns no error. -/
theorem getPortfolio_value_and_total_off_by_one_unit :
    GetPortfolio ⟨[⟨"r1", "u1", "TCS", 5815594823630, 0, "e1"⟩], [],
        [⟨"TCS", 33289162, 0⟩], []⟩ [] ReadFaults.clean (fun _ => F64.zero) "u1" =
      ⟨some ⟨[⟨"TCS", "5815594.823630", "3328.9162", "19359627821.0181"⟩],
        "19359627821.0181"⟩, none, []⟩ ∧
    amountOf "19359627821.0181" = 193596278210181 ∧
    specValue 5815594823630 33289162 = 193596278210180 ∧
    ((193596278210180 : Int) * 10 ^ 6 < 5815594823630 * 33289162 ∧
      (5815594823630 : Int) * 33289162 < 193596278210180 * 10 ^ 6 + 5 * 10 ^ 5) ∧
    GetPortfolio ⟨[⟨"r2", "u2", "INFY", 10000000011000000, 0, "e2"⟩,
          ⟨"r3", "u2", "WIPRO", 1118000011229800, 0, "e3"⟩], [],
        [⟨"INFY", 1000000, 0⟩, ⟨"WIPRO", 10000, 0⟩], []⟩ [] ReadFaults.clean
        (fun _ => F64.zero) "u2" =
      ⟨some ⟨[⟨"INFY", "10000000011.000000", "100.0000", "1000000001100.0000"⟩,
          ⟨"WIPRO", "1118000011.229800", "1.0000", "1118000011.2298"⟩],
        "1001118001111.2299"⟩, none, []⟩ ∧
    amountOf "1001118001111.2299" = 10011180011112299 ∧
    specTotal [amountOf "1000000001100.0000", amountOf "1118000011.2298"] =
      10011180011112298 ∧
    (specValue 10000000011000000 1000000 = amountOf "1000000001100.0000" ∧
      specValue 1118000011229800 10000 = amountOf "1118000011.2298") ∧
    GetPortfolio ⟨[⟨"r4", "u3", "TCS", -2500000, 0, "e4"⟩], [], [⟨"TCS", 33289162, 0⟩], []⟩
        [] ⟨none, fun _ => none, fun _ => some .connection, none⟩ (fun _ => F64.zero) "u3" =
      ⟨some ⟨[⟨"TCS", "-2.500000", "0.0000", "-0.0000"⟩], "0.0000"⟩, none, []⟩ := by
  refine ⟨by rfl, by decide, by decide, ⟨by decide, by decide⟩, by rfl, by decide, by decide,
    ⟨by decide, by decide⟩, by rfl⟩

/-! ## Upserts -/

theorem sameKey_iff (a b : PortfolioSnapshotRow) :
    sameKey a b = true ↔
      a.user_id = b.user_id ∧ a.snapshot_date = b.snapshot_date ∧
        a.stock_symbol = b.stock_symbol := by
  simp [sameKey, and_assoc]

theorem sameKey_replace (w r : PortfolioSnapshotRow) (h : sameKey w r = true) :
    { r with total_quantity := w.total_quantity, price_per_unit := w.price_per_unit,
             total_inr_value := w.total_inr_value } = w := by
  obtain ⟨h1, h2, h3⟩ := (sameKey_iff w r).mp h
  cases w; cases r
  simp_all

theorem upsertRow_absorb (rows : List PortfolioSnapshotRow) (w : PortfolioSnapshotRow)
    (hany : rows.any (sameKey w) = true)
    (hall : ∀ r ∈ rows, sameKey w r = true → r = w) : upsertRow rows w = rows := by
  unfold upsertRow
  rw [if_pos hany]
  conv_rhs => rw [← List.map_id rows]
  apply List.map_congr_left
  intro r hr
  by_cases hk : sameKey w r = true
  · rw [if_pos hk, sameKey_replace w r hk]
    exact (hall r hr hk).symm
  · rw [if_neg hk]; rfl

theorem upsertRow_settles (rows : List PortfolioSnapshotRow) (w : PortfolioSnapshotRow) :
    (upsertRow rows w).any (sameKey w) = true ∧
      ∀ r ∈ upsertRow rows w, sameKey w r = true → r = w := by
  have hself : sameKey w w = true := (sameKey_iff w w).mpr ⟨rfl, rfl, rfl⟩
  unfold upsertRow
  by_cases hany : rows.any (sameKey w) = true
  · rw [if_pos hany]
    refine ⟨?_, ?_⟩
    · obtain ⟨r, hr, hk⟩ := List.any_eq_true.mp hany
      refine List.any_eq_true.mpr ⟨w, ?_, hself⟩
      refine List.mem_map.mpr ⟨r, hr, ?_⟩
      rw [if_pos hk, sameKey_replace w r hk]
    · intro r' hr' hk'
      obtain ⟨r, hr, rfl⟩ := List.mem_map.mp hr'
      by_cases hk : sameKey w r = true
      · rw [if_pos hk, sameKey_replace w r hk]
      · rw [if_neg hk] at hk'
        exact absurd hk' hk
  · rw [if_neg hany]
    refine ⟨by simp [hself], ?_⟩
    intro r hr hk
    rcases List.mem_append.mp hr with h | h
    · exact absurd (List.any_eq_true.mpr ⟨r, h, hk⟩) hany
    · simpa using h

theorem upsertRow_keeps (rows : List PortfolioSnapshotRow) (w v : PortfolioSnapshotRow)
    (hcons : sameKey v w = true → w = v)
    (hany : rows.any (sameKey v) = true)
    (hall : ∀ r ∈ rows, sameKey v r = true → r = v) :
    (upsertRow rows w).any (sameKey v) = true ∧
      ∀ r ∈ upsertRow rows w, sameKey v r = true → r = v := by
  unfold upsertRow
  by_cases hw : rows.any (sameKey w) = true
  · rw [if_pos hw]
    refine ⟨?_, ?_⟩
    · obtain ⟨r, hr, hk⟩ := List.any_eq_true.mp hany
      refine List.any_eq_true.mpr ⟨_, List.mem_map.mpr ⟨r, hr, rfl⟩, ?_⟩
      by_cases hwr : sameKey w r = true
      · rw [if_pos hwr, sameKey_replace w r hwr]
        obtain ⟨a1, a2, a3⟩ := (sameKey_iff v r).mp hk
        obtain ⟨b1, b2, b3⟩ := (sameKey_iff w r).mp hwr
        exact (sameKey_iff v w).mpr ⟨a1.trans b1.symm, a2.trans b2.symm, a3.trans b3.symm⟩
      · rw [if_neg hwr]; exact hk
    · intro r' hr' hk'
      obtain ⟨r, hr, rfl⟩ := List.mem_map.mp hr'
      by_cases hwr : sameKey w r = true
      · rw [if_pos hwr, sameKey_replace w r hwr] at hk' ⊢
        exact hcons hk'
      · rw [if_neg hwr] at hk' ⊢
        exact hall r hr hk'
  · rw [if_neg hw]
    refine ⟨by simp [hany], ?_⟩
    intro r hr hk
    rcases List.mem_append.mp hr with h | h
    · exact hall r h hk
    · have : r = w := by simpa using h
      subst this
      exact hcons hk

theorem upsertRow_uniqueKeys (rows : List PortfolioSnapshotRow) (w : PortfolioSnapshotRow)
    (h : uniqueKeys rows) : uniqueKeys (upsertRow rows w) := by
  unfold upsertRow
  by_cases hw : rows.any (sameKey w) = true
  · rw [if_pos hw]
    unfold uniqueKeys at h ⊢
    rw [List.pairwise_map]
    refine h.imp ?_
    intro a b hab
    have key : ∀ r : PortfolioSnapshotRow,
        (if sameKey w r = true then
          { r with total_quantity := w.total_quantity, price_per_unit := w.price_per_unit,
                   total_inr_value := w.total_inr_value }
        else r).user_id = r.user_id ∧
        (if sameKey w r = true then
          { r with total_quantity := w.total_quantity, price_per_unit := w.price_per_unit,
                   total_inr_value := w.total_inr_value }
        else r).snapshot_date = r.snapshot_date ∧
        (if sameKey w r = true then
          { r with total_quantity := w.total_quantity, price_per_unit := w.price_per_unit,
                   total_inr_value := w.total_inr_value }
        else r).stock_symbol = r.stock_symbol := by
      intro r
      split <;> simp
    cases hres : sameKey _ _ with
    | false => rfl
    | true =>
      rw [sameKey_iff, (key a).1, (key a).2.1, (key a).2.2, (key b).1, (key b).2.1,
        (key b).2.2, ← sameKey_iff] at hres
      rw [hres] at hab
      exact absurd hab (by simp)
  · rw [if_neg hw]
    unfold uniqueKeys at h ⊢
    rw [List.pairwise_append]
    refine ⟨h, by simp, ?_⟩
    intro a ha b hb
    have hb' : b = w := by simpa using hb
    subst hb'
    cases hres : sameKey a b with
    | false => rfl
    | true =>
      exfalso
      apply hw
      refine List.any_eq_true.mpr ⟨a, ha, ?_⟩
      obtain ⟨a1, a2, a3⟩ := (sameKey_iff a b).mp hres
      exact (sameKey_iff b a).mpr ⟨a1.symm, a2.symm, a3.symm⟩

theorem foldl_upsert_keeps (v : PortfolioSnapshotRow) :
    ∀ (ws : List PortfolioSnapshotRow) (rows : List PortfolioSnapshotRow),
      (∀ w ∈ ws, sameKey v w = true → w = v) →
      rows.any (sameKey v) = true → (∀ r ∈ rows, sameKey v r = true → r = v) →
      (ws.foldl upsertRow rows).any (sameKey v) = true ∧
        ∀ r ∈ ws.foldl upsertRow rows, sameKey v r = true → r = v := by
  intro ws
  induction ws with
  | nil => intro rows _ hany hall; exact ⟨hany, hall⟩
  | cons w ws ih =>
    intro rows hcons hany hall
    obtain ⟨h1, h2⟩ := upsertRow_keeps rows w v (hcons w (by simp)) hany hall
    exact ih (upsertRow rows w) (fun x hx => hcons x (by simp [hx])) h1 h2

theorem foldl_upsert_settles :
    ∀ (ws : List PortfolioSnapshotRow) (rows : List PortfolioSnapshotRow),
      (∀ a ∈ ws, ∀ b ∈ ws, sameKey a b = true → b = a) →
      ∀ v ∈ ws, (ws.foldl upsertRow rows).any (sameKey v) = true ∧
        ∀ r ∈ ws.foldl upsertRow rows, sameKey v r = true → r = v := by
  intro ws
  induction ws with
  | nil => intro rows _ v hv; simp at hv
  | cons w ws ih =>
    intro rows hcons v hv
    simp only [List.foldl_cons]
    rcases List.mem_cons.mp hv with rfl | hv
    · obtain ⟨h1, h2⟩ := upsertRow_settles rows v
      exact foldl_upsert_keeps v ws (upsertRow rows v)
        (fun x hx => hcons v (by simp) x (by simp [hx])) h1 h2
    · exact ih (upsertRow rows w)
        (fun a ha b hb => hcons a (by simp [ha]) b (by simp [hb])) v hv

theorem foldl_upsert_absorb :
    ∀ (ws : List PortfolioSnapshotRow) (rows : List PortfolioSnapshotRow),
      (∀ v ∈ ws, rows.any (sameKey v) = true ∧ ∀ r ∈ rows, sameKey v r = true → r = v) →
      ws.foldl upsertRow rows = rows := by
  intro ws
  induction ws with
  | nil => intro rows _; rfl
  | cons w ws ih =>
    intro rows h
    simp only [List.foldl_cons]
    rw [upsertRow_absorb rows w (h w (by simp)).1 (h w (by simp)).2]
    exact ih rows (fun v hv => h v (by simp [hv]))

theorem foldl_upsert_idempotent (ws rows : List PortfolioSnapshotRow)
    (hcons : ∀ a ∈ ws, ∀ b ∈ ws, sameKey a b = true → b = a) :
    ws.foldl upsertRow (ws.foldl upsertRow rows) = ws.foldl upsertRow rows :=
  foldl_upsert_absorb ws _ (foldl_upsert_settles ws rows hcons)

theorem foldl_upsert_uniqueKeys :
    ∀ (ws rows : List PortfolioSnapshotRow), uniqueKeys rows →
      uniqueKeys (ws.foldl upsertRow rows) := by
  intro ws
  induction ws with
  | nil => intro rows h; exact h
  | cons w ws ih => intro rows h; exact ih _ (upsertRow_uniqueKeys rows w h)

/-! ## The reconciliation run as a list of upserts -/

theorem selectPriceAsOf_sameInputs {base db : Store} (h : sameInputs base db)
    (symbol : String) (day : Int) :
    selectPriceAsOf db symbol day = selectPriceAsOf base symbol day := by
  simp [selectPriceAsOf, pricesAsOf, h.2]

theorem selectHoldingsAsOf_sameInputs {base db : Store} (h : sameInputs base db)
    (userID : String) (day : Int) :
    selectHoldingsAsOf db userID day = selectHoldingsAsOf base userID day := by
  simp [selectHoldingsAsOf, eventsAsOf, eventsOf, h.1]

theorem sameInputs_snapshots {base db : Store} (h : sameInputs base db)
    (t : List PortfolioSnapshotRow) :
    sameInputs base { db with portfolio_snapshots := t } :=
  ⟨h.1, h.2⟩

theorem snapshotHoldingsLoop_eq (f : SnapshotFaults) (ui : Nat) (day : Int) (userID : String)
    (base : Store) :
    ∀ (rows : List (String × String)) (j : Nat) (db : Store), sameInputs base db →
      snapshotHoldingsLoop f ui day userID rows j db =
        ({ db with portfolio_snapshots :=
            (List.foldl upsertRow db.portfolio_snapshots
              (plannedHoldings f ui day userID base rows j).1) },
          (plannedHoldings f ui day userID base rows j).2) := by
  intro rows
  induction rows with
  | nil => intro j db _; simp [snapshotHoldingsLoop, plannedHoldings]
  | cons row rest ih =>
    intro j db hsame
    obtain ⟨symbol, quantity⟩ := row
    unfold snapshotHoldingsLoop plannedHoldings
    cases hs : f.holdingsScan ui j with
    | some e => simp
    | none =>
      simp only
      rw [selectPriceAsOf_sameInputs hsame]
      cases hp : faulty (f.price ui j) (.ok (selectPriceAsOf base symbol day)) with
      | error e => simp
      | ok found =>
        simp only
        unfold upsertSnapshot
        cases hu : f.upsert ui j with
        | some e => simp [faulty]
        | none =>
          simp only [faulty]
          cases hq : snapshotParams userID day symbol quantity (found.getD "0.0000")
              (multiplyAmounts quantity (found.getD "0.0000")) with
          | error e => simp
          | ok w =>
            simp only
            rw [ih (j + 1) _ (sameInputs_snapshots hsame _)]
            simp

theorem snapshotUsersLoop_eq (f : SnapshotFaults) (day : Int) (base : Store) :
    ∀ (users : List String) (i : Nat) (db : Store), sameInputs base db →
      snapshotUsersLoop f day users i db =
        ({ db with portfolio_snapshots :=
            List.foldl upsertRow db.portfolio_snapshots (plannedUsers f day base users i).1 },
          (plannedUsers f day base users i).2) := by
  intro users
  induction users with
  | nil => intro i db _; simp [snapshotUsersLoop, plannedUsers]
  | cons userID rest ih =>
    intro i db hsame
    unfold snapshotUsersLoop plannedUsers
    cases hh : f.holdings i with
    | some e => simp only; exact ih (i + 1) db hsame
    | none =>
      simp only
      rw [selectHoldingsAsOf_sameInputs hsame,
        snapshotHoldingsLoop_eq f i day userID base _ 0 db hsame]
      cases he : (plannedHoldings f i day userID base
          (deliveredHoldings (f.holdingsStop i) (selectHoldingsAsOf base userID day)) 0).2 with
      | some e => simp
      | none =>
        simp only
        rw [ih (i + 1) _ (sameInputs_snapshots hsame _)]
        simp [List.foldl_append]

theorem updatePortfolioSnapshots_eq (f : SnapshotFaults) (now : Time) (base db : Store)
    (hsame : sameInputs base db) :
    UpdatePortfolioSnapshots db f now =
      ({ db with portfolio_snapshots :=
          List.foldl upsertRow db.portfolio_snapshots (plannedWrites f now base).1 },
        (plannedWrites f now base).2.map Err.db) := by
  unfold UpdatePortfolioSnapshots plannedWrites
  have hu : selectUserIds db = selectUserIds base := by simp [selectUserIds, hsame.1]
  rw [hu]
  cases h1 : f.users with
  | some e => simp
  | none =>
    cases h2 : scanUserIds f (selectUserIds base) 0 [] with
    | error e => simp
    | ok userIDs =>
      cases h3 : f.usersErr with
      | some e => simp
      | none =>
        simp only
        rw [snapshotUsersLoop_eq f (dateOf now - 1) base userIDs 0 db hsame]

theorem snapshotParams_ok {userID symbol quantity price totalValue : String} {day : Int}
    {w : PortfolioSnapshotRow}
    (h : snapshotParams userID day symbol quantity price totalValue = .ok w) :
    w = ⟨userID, day, symbol, quantity6Of quantity, amountOf price, amountOf totalValue⟩ := by
  unfold snapshotParams at h
  cases hq : numericIn 18 6 quantity with
  | error e => simp [hq] at h
  | ok q =>
    cases hp : numericIn 18 4 price with
    | error e => simp [hq, hp] at h
    | ok p =>
      cases hv : numericIn 18 4 totalValue with
      | error e => simp [hq, hp, hv] at h
      | ok v =>
        simp only [hq, hp, hv] at h
        split at h
        · simp at h
        · simp only [Except.ok.injEq] at h
          simp [← h, quantity6Of, amountOf, hq, hp, hv]

theorem plannedHoldings_rows (f : SnapshotFaults) (ui : Nat) (day : Int) (userID : String)
    (base : Store) :
    ∀ (rows : List (String × String)) (j : Nat),
      (∀ row ∈ rows,
        row.2 = numericOut 6 (sumQuantity (eventsAsOf base userID day) row.1)) →
      ∀ w ∈ (plannedHoldings f ui day userID base rows j).1,
        ∃ s, w = snapshotRowFor base day userID s := by
  intro rows
  induction rows with
  | nil => intro j _ w hw; simp [plannedHoldings] at hw
  | cons row rest ih =>
    intro j hrows w hw
    obtain ⟨symbol, quantity⟩ := row
    unfold plannedHoldings at hw
    cases hs : f.holdingsScan ui j with
    | some e => simp [hs] at hw
    | none =>
      simp only [hs] at hw
      cases hp : faulty (f.price ui j) (.ok (selectPriceAsOf base symbol day)) with
      | error e => simp [hp] at hw
      | ok found =>
        simp only [hp] at hw
        cases hu : faulty (f.upsert ui j)
            (snapshotParams userID day symbol quantity (found.getD "0.0000")
              (multiplyAmounts quantity (found.getD "0.0000"))) with
        | error e => simp [hu] at hw
        | ok row =>
          simp only [hu, List.mem_cons] at hw
          rcases hw with rfl | hw
          · refine ⟨symbol, ?_⟩
            have hfound : found = selectPriceAsOf base symbol day := by
              have := (faulty_ok hp).2
              simpa using this.symm
            have hq : quantity =
                numericOut 6 (sumQuantity (eventsAsOf base userID day) symbol) :=
              hrows (symbol, quantity) (by simp)
            rw [snapshotParams_ok (faulty_ok hu).2, hfound, hq]
            rfl
          · exact ih (j + 1) (fun r hr => hrows r (by simp [hr])) w hw

theorem selectHoldingsAsOf_quantity (base : Store) (userID : String) (day : Int) :
    ∀ row ∈ selectHoldingsAsOf base userID day,
      row.2 = numericOut 6 (sumQuantity (eventsAsOf base userID day) row.1) := by
  intro row hrow
  simp only [selectHoldingsAsOf, List.mem_map] at hrow
  obtain ⟨s, _, rfl⟩ := hrow
  rfl

theorem deliveredHoldings_subset (stop : Option Nat) (rows : List (String × String)) :
    ∀ row ∈ deliveredHoldings stop rows, row ∈ rows := by
  intro row h
  cases stop with
  | none => exact h
  | some k => exact List.mem_of_mem_take h

theorem plannedUsers_rows (f : SnapshotFaults) (day : Int) (base : Store) :
    ∀ (users : List String) (i : Nat),
      ∀ w ∈ (plannedUsers f day base users i).1,
        ∃ u s, w = snapshotRowFor base day u s := by
  intro users
  induction users with
  | nil => intro i w hw; simp [plannedUsers] at hw
  | cons userID rest ih =>
    intro i w hw
    unfold plannedUsers at hw
    cases hh : f.holdings i with
    | some e => simp only [hh] at hw; exact ih (i + 1) w hw
    | none =>
      simp only [hh] at hw
      have hmine : ∀ w ∈ (plannedHoldings f i day userID base
          (deliveredHoldings (f.holdingsStop i) (selectHoldingsAsOf base userID day)) 0).1,
          ∃ u s, w = snapshotRowFor base day u s := by
        intro w hw
        obtain ⟨s, hs⟩ := plannedHoldings_rows f i day userID base _ 0
          (fun row hrow => selectHoldingsAsOf_quantity base userID day row
            (deliveredHoldings_subset _ _ row hrow)) w hw
        exact ⟨userID, s, hs⟩
      cases he : (plannedHoldings f i day userID base
          (deliveredHoldings (f.holdingsStop i) (selectHoldingsAsOf base userID day)) 0).2 with
      | some e => simp only [he] at hw; exact hmine w hw
      | none =>
        simp only [he, List.mem_append] at hw
        rcases hw with hw | hw
        · exact hmine w hw
        · exact ih (i + 1) w hw

theorem plannedWrites_rows (f : SnapshotFaults) (now : Time) (base : Store) :
    ∀ w ∈ (plannedWrites f now base).1,
      ∃ u s, w = snapshotRowFor base (dateOf now - 1) u s := by
  intro w hw
  unfold plannedWrites at hw
  cases h1 : f.users with
  | some e => simp [h1] at hw
  | none =>
    cases h2 : scanUserIds f (selectUserIds base) 0 [] with
    | error e => simp [h1, h2] at hw
    | ok userIDs =>
      cases h3 : f.usersErr with
      | some e => simp [h1, h2, h3] at hw
      | none =>
        simp only [h1, h2, h3] at hw
        exact plannedUsers_rows f _ base userIDs 0 w hw

theorem plannedWrites_consistent (f : SnapshotFaults) (now : Time) (base : Store) :
    ∀ a ∈ (plannedWrites f now base).1, ∀ b ∈ (plannedWrites f now base).1,
      sameKey a b = true → b = a := by
  intro a ha b hb hk
  obtain ⟨u, s, rfl⟩ := plannedWrites_rows f now base a ha
  obtain ⟨u2, s2, rfl⟩ := plannedWrites_rows f now base b hb
  obtain ⟨h1, _, h3⟩ := (sameKey_iff _ _).mp hk
  simp only [snapshotRowFor] at h1 h3
  rw [h1, h3]

/-- C11. Running `UpdatePortfolioSnapshots` a second time right after a first run, at the same
instant (so for the same target date), on the unchanged reward events and stock prices and
with the same outcomes of outside failures (in particular with none), leaves the store of the
first run and returns the same result: every snapshot row keeps its quantity, price per unit
and total value, and no row is added.  A run changes neither the reward events nor the stock
prices, and it keeps the table at one row at most per (user, date, symbol). -/
theorem updatePortfolioSnapshots_idempotent (db : Store) (f : SnapshotFaults) (now : Time) :
    UpdatePortfolioSnapshots (UpdatePortfolioSnapshots db f now).1 f now =
      UpdatePortfolioSnapshots db f now ∧
    (UpdatePortfolioSnapshots db f now).1.reward_events = db.reward_events ∧
    (UpdatePortfolioSnapshots db f now).1.stock_prices = db.stock_prices ∧
    (uniqueKeys db.portfolio_snapshots →
      uniqueKeys (UpdatePortfolioSnapshots db f now).1.portfolio_snapshots ∧
      uniqueKeys (UpdatePortfolioSnapshots (UpdatePortfolioSnapshots db f now).1 f
        now).1.portfolio_snapshots) := by
  have h1 := updatePortfolioSnapshots_eq f now db db ⟨rfl, rfl⟩
  have hsame : sameInputs db (UpdatePortfolioSnapshots db f now).1 := by
    rw [h1]; exact ⟨rfl, rfl⟩
  have h2 := updatePortfolioSnapshots_eq f now db _ hsame
  have hidem : UpdatePortfolioSnapshots (UpdatePortfolioSnapshots db f now).1 f now =
      UpdatePortfolioSnapshots db f now := by
    rw [h2, h1]
    simp only
    rw [foldl_upsert_idempotent _ _ (plannedWrites_consistent f now db)]
  refine ⟨hidem, by rw [h1], by rw [h1], ?_⟩
  intro hkeys
  have hu : uniqueKeys (UpdatePortfolioSnapshots db f now).1.portfolio_snapshots := by
    rw [h1]
    exact foldl_upsert_uniqueKeys _ _ hkeys
  exact ⟨hu, by rw [hidem]; exact hu⟩

/-- Witness for C11: three snapshots are written for day 2 and a second run changes
nothing. -/
theorem updatePortfolioSnapshots_idempotent_witness :
    uniqueKeys ([] : List PortfolioSnapshotRow) ∧
    (UpdatePortfolioSnapshots
      ⟨[⟨"r1", "u1", "TCS", 5000000, 0, "e1"⟩, ⟨"r2", "u2", "TCS", 9000000, 0, "e2"⟩,
        ⟨"r3", "u1", "INFY", 7000000, 100000, "e3"⟩], [], [⟨"TCS", 35000000, 5⟩], []⟩
      SnapshotFaults.clean 259205).1.portfolio_snapshots =
      [⟨"u1", 2, "TCS", 5000000, 35000000, 175000000⟩,
        ⟨"u1", 2, "INFY", 7000000, 0, 0⟩,
        ⟨"u2", 2, "TCS", 9000000, 35000000, 315000000⟩] ∧
    UpdatePortfolioSnapshots (UpdatePortfolioSnapshots
      ⟨[⟨"r1", "u1", "TCS", 5000000, 0, "e1"⟩, ⟨"r2", "u2", "TCS", 9000000, 0, "e2"⟩,
        ⟨"r3", "u1", "INFY", 7000000, 100000, "e3"⟩], [], [⟨"TCS", 35000000, 5⟩], []⟩
      SnapshotFaults.clean 259205).1 SnapshotFaults.clean 259205 =
    UpdatePortfolioSnapshots
      ⟨[⟨"r1", "u1", "TCS", 5000000, 0, "e1"⟩, ⟨"r2", "u2", "TCS", 9000000, 0, "e2"⟩,
        ⟨"r3", "u1", "INFY", 7000000, 100000, "e3"⟩], [], [⟨"TCS", 35000000, 5⟩], []⟩
      SnapshotFaults.clean 259205 ∧
    uniqueKeys (UpdatePortfolioSnapshots
      ⟨[⟨"r1", "u1", "TCS", 5000000, 0, "e1"⟩, ⟨"r2", "u2", "TCS", 9000000, 0, "e2"⟩,
        ⟨"r3", "u1", "INFY", 7000000, 100000, "e3"⟩], [], [⟨"TCS", 35000000, 5⟩], []⟩
      SnapshotFaults.clean 259205).1.portfolio_snapshots :=
  ⟨List.Pairwise.nil, by rfl,
    (updatePortfolioSnapshots_idempotent
      ⟨[⟨"r1", "u1", "TCS", 5000000, 0, "e1"⟩, ⟨"r2", "u2", "TCS", 9000000, 0, "e2"⟩,
        ⟨"r3", "u1", "INFY", 7000000, 100000, "e3"⟩], [], [⟨"TCS", 35000000, 5⟩], []⟩
      SnapshotFaults.clean 259205).1,
    ((updatePortfolioSnapshots_idempotent
      ⟨[⟨"r1", "u1", "TCS", 5000000, 0, "e1"⟩, ⟨"r2", "u2", "TCS", 9000000, 0, "e2"⟩,
        ⟨"r3", "u1", "INFY", 7000000, 100000, "e3"⟩], [], [⟨"TCS", 35000000, 5⟩], []⟩
      SnapshotFaults.clean 259205).2.2.2 List.Pairwise.nil).1⟩

/-! ## Printing and reading back a numeric value -/

theorem digitChar_toNat (d : Nat) : (digitChar d).toNat - 48 = d % 10 := by
  have h : ∀ k, k < 10 → (Char.ofNat (48 + k)).toNat - 48 = k := by decide
  exact h (d % 10) (Nat.mod_lt _ (by decide))

theorem digitsValue_append_digit (d : Nat) : ∀ (xs : List Char),
    digitsValue (xs ++ [digitChar d]) = (digitsValue xs).map (fun v => 10 * v + d % 10) := by
  intro xs
  induction xs with
  | nil => simp [digitsValue, digitChar_isDigit, digitChar_toNat]
  | cons c cs ih =>
    have hlen : (cs ++ [digitChar d]).length = cs.length + 1 := by simp
    rw [List.cons_append, digitsValue.eq_2 c (cs ++ [digitChar d]), digitsValue.eq_2 c cs, ih,
      hlen]
    by_cases hc : c.isDigit = true
    · rw [if_pos hc, if_pos hc]
      cases digitsValue cs with
      | none => rfl
      | some v =>
        simp only [Option.map_some', Option.some.injEq]
        rw [Nat.pow_succ]
        ring
    · rw [if_neg hc, if_neg hc]
      rfl

theorem digitsValue_fixedDigits : ∀ (k n : Nat),
    digitsValue (fixedDigits k n) = some (n % 10 ^ k) := by
  intro k
  induction k with
  | zero => intro n; simp [fixedDigits, digitsValue, Nat.mod_one]
  | succ k ih =>
    intro n
    rw [fixedDigits, digitsValue_append_digit, ih]
    simp only [Option.map_some', Option.some.injEq]
    rw [Nat.pow_succ, Nat.mul_comm (10 ^ k) 10, Nat.mod_mul]
    omega

theorem decLenAux_bound : ∀ (fuel n : Nat), n ≤ fuel → n < 10 ^ decLenAux fuel n := by
  intro fuel
  induction fuel with
  | zero => intro n h; simp [decLenAux]; omega
  | succ fuel ih =>
    intro n h
    unfold decLenAux
    split
    · simpa using ‹n < 10›
    · have h1 : n / 10 ≤ fuel := by omega
      have h2 := ih (n / 10) h1
      rw [Nat.add_comm, Nat.pow_succ]
      omega

theorem digitsValue_natDigits (n : Nat) : digitsValue (natDigits n) = some n := by
  unfold natDigits
  rw [digitsValue_fixedDigits, Nat.mod_eq_of_lt]
  exact decLenAux_bound n n (Nat.le_refl n)

theorem splitSign_fixed (neg : Bool) (c : Char) (cs : List Char)
    (h1 : c ≠ '-') (h2 : c ≠ '+') :
    splitSign ((if neg then ['-'] else []) ++ c :: cs) = (neg, c :: cs) := by
  cases neg
  · simp only [Bool.false_eq_true, if_false, List.nil_append]
    unfold splitSign
    split
    · rename_i heq; simp only [List.cons.injEq] at heq; exact absurd heq.1 h1
    · rename_i heq; simp only [List.cons.injEq] at heq; exact absurd heq.1 h2
    · rfl
  · simp [splitSign]

theorem parseDecimal_fixedText (neg : Bool) (units k : Nat) :
    parseDecimal (fixedText neg units k) = some ⟨neg, units, k⟩ := by
  obtain ⟨c, cs, hnat, _, _, hm, hpl⟩ := natDigits_cons (units / 10 ^ k)
  have hall : ∀ d ∈ natDigits (units / 10 ^ k), d.isDigit = true ∧ (d != '.') = true :=
    fixedDigits_digits _ _
  have hval := digitsValue_natDigits (units / 10 ^ k)
  rw [hnat] at hall hval
  have hsplit := takeWhile_digits_point (c :: cs) (fixedDigits k units)
    (fun d hd => (hall d hd).2)
  unfold parseDecimal fixedText
  simp only [hnat, List.append_assoc, List.cons_append, List.nil_append]
  rw [splitSign_fixed neg c _ hm hpl]
  have e : c :: (cs ++ '.' :: fixedDigits k units) = (c :: cs) ++ '.' :: fixedDigits k units :=
    rfl
  simp only [e, hsplit.1, hsplit.2, List.drop_succ_cons, List.drop_zero, hval,
    digitsValue_fixedDigits, fixedDigits_length]
  rw [if_neg (by simp)]
  simp only [Option.some.injEq, Decimal.mk.injEq, true_and, and_true]
  exact Nat.div_add_mod' units (10 ^ k)

theorem numericIn_numericOut (p s : Nat) (v : Int) (h : v.natAbs < 10 ^ p) :
    numericIn p s (numericOut s v) = .ok v := by
  unfold numericIn numericOut
  rw [parseDecimal_fixedText]
  simp only
  have hx : 0 < 10 ^ s := by positivity
  have hunits : (2 * v.natAbs * 10 ^ s + 10 ^ s) / (2 * 10 ^ s) = v.natAbs := by
    have e : 2 * v.natAbs * 10 ^ s + 10 ^ s = 10 ^ s + 2 * 10 ^ s * v.natAbs := by ring
    rw [e, Nat.add_mul_div_left _ _ (by omega), Nat.div_eq_of_lt (by omega)]
    omega
  rw [hunits, if_neg (by omega)]
  by_cases hv : v < 0
  · rw [decide_eq_true hv, if_pos rfl, Int.ofNat_natAbs_of_nonpos (Int.le_of_lt hv)]
    simp
  · rw [decide_eq_false hv, if_neg (by simp), Int.natAbs_of_nonneg (Int.not_lt.mp hv)]

/-! ## The rows of a run without outside failures -/

theorem scanUserIds_ok (f : SnapshotFaults) (h : ∀ i, f.usersScan i = none) :
    ∀ (l : List String) (i : Nat) (acc : List String),
      scanUserIds f l i acc = .ok (acc ++ l) := by
  intro l
  induction l with
  | nil => intro i acc; simp [scanUserIds]
  | cons u rest ih =>
    intro i acc
    unfold scanUserIds
    simp only [h]
    rw [ih]
    simp

theorem plannedHoldings_complete (f : SnapshotFaults) (ui : Nat) (day : Int) (userID : String)
    (base : Store) :
    ∀ (rows : List (String × String)) (j : Nat),
      (plannedHoldings f ui day userID base rows j).2 = none →
      (∀ row ∈ rows,
        row.2 = numericOut 6 (sumQuantity (eventsAsOf base userID day) row.1)) →
      ∀ row ∈ rows,
        snapshotRowFor base day userID row.1 ∈ (plannedHoldings f ui day userID base rows j).1 := by
  intro rows
  induction rows with
  | nil => intro j _ _ row hrow; simp at hrow
  | cons r rest ih =>
    intro j hnone hrows row hrow
    obtain ⟨symbol, quantity⟩ := r
    unfold plannedHoldings at hnone ⊢
    cases hs : f.holdingsScan ui j with
    | some e => simp [hs] at hnone
    | none =>
      simp only [hs] at hnone ⊢
      cases hp : faulty (f.price ui j) (.ok (selectPriceAsOf base symbol day)) with
      | error e => simp [hp] at hnone
      | ok found =>
        simp only [hp] at hnone ⊢
        cases hu : faulty (f.upsert ui j)
            (snapshotParams userID day symbol quantity (found.getD "0.0000")
              (multiplyAmounts quantity (found.getD "0.0000"))) with
        | error e => simp [hu] at hnone
        | ok w =>
          simp only [hu] at hnone ⊢
          rcases List.mem_cons.mp hrow with rfl | hrest
          · have hfound : found = selectPriceAsOf base symbol day := by
              have := (faulty_ok hp).2
              simpa using this.symm
            have hq : quantity =
                numericOut 6 (sumQuantity (eventsAsOf base userID day) symbol) :=
              hrows (symbol, quantity) (by simp)
            rw [snapshotParams_ok (faulty_ok hu).2, hfound, hq]
            exact List.mem_cons_self _ _
          · exact List.mem_cons_of_mem _
              (ih (j + 1) hnone (fun r hr => hrows r (by simp [hr])) row hrest)

theorem plannedUsers_complete (f : SnapshotFaults) (day : Int) (base : Store)
    (hh : ∀ i, f.holdings i = none) (hstop : ∀ i, f.holdingsStop i = none) :
    ∀ (users : List String) (i : Nat),
      (plannedUsers f day base users i).2 = none →
      ∀ u ∈ users, ∀ row ∈ selectHoldingsAsOf base u day,
        snapshotRowFor base day u row.1 ∈ (plannedUsers f day base users i).1 := by
  intro users
  induction users with
  | nil => intro i _ u hu; simp at hu
  | cons userID rest ih =>
    intro i hnone u hu row hrow
    unfold plannedUsers at hnone ⊢
    simp only [hh, hstop, deliveredHoldings] at hnone ⊢
    cases he : (plannedHoldings f i day userID base (selectHoldingsAsOf base userID day) 0).2 with
    | some e => simp [he] at hnone
    | none =>
      simp only [he] at hnone ⊢
      rcases List.mem_cons.mp hu with rfl | hrest
      · exact List.mem_append_left _
          (plannedHoldings_complete f i day u base _ 0 he
            (selectHoldingsAsOf_quantity base u day) row hrow)
      · exact List.mem_append_right _ (ih (i + 1) hnone u hrest row hrow)

theorem mem_of_settled (rows : List PortfolioSnapshotRow) (w : PortfolioSnapshotRow)
    (hany : rows.any (sameKey w) = true) (hall : ∀ r ∈ rows, sameKey w r = true → r = w) :
    w ∈ rows := by
  obtain ⟨r, hr, hk⟩ := List.any_eq_true.mp hany
  rw [← hall r hr hk]
  exact hr

theorem cleanRun_writes (db : Store) (now : Time) (u s : String)
    (herr : (UpdatePortfolioSnapshots db SnapshotFaults.clean now).2 = none)
    (hev : ∃ ev ∈ db.reward_events, ev.user_id = u ∧ ev.stock_symbol = s ∧
      dateOf ev.reward_timestamp ≤ dateOf now - 1) :
    snapshotRowFor db (dateOf now - 1) u s ∈
      (UpdatePortfolioSnapshots db SnapshotFaults.clean now).1.portfolio_snapshots := by
  have h1 := updatePortfolioSnapshots_eq SnapshotFaults.clean now db db ⟨rfl, rfl⟩
  have hplan : plannedWrites SnapshotFaults.clean now db =
      plannedUsers SnapshotFaults.clean (dateOf now - 1) db (selectUserIds db) 0 := by
    unfold plannedWrites
    rw [scanUserIds_ok SnapshotFaults.clean (fun _ => rfl)]
    rfl
  rw [h1] at herr ⊢
  simp only [Option.map_eq_none'] at herr
  obtain ⟨ev, hmem, hu, hs, hd⟩ := hev
  have huser : u ∈ selectUserIds db := by
    unfold selectUserIds
    rw [mem_distinct]
    exact List.mem_map.mpr ⟨ev, hmem, hu⟩
  have hasof : ev ∈ eventsAsOf db u (dateOf now - 1) := by
    simp only [eventsAsOf, eventsOf, List.mem_filter]
    exact ⟨⟨hmem, by simp [hu]⟩, by simpa using hd⟩
  have hrow : (s, numericOut 6 (sumQuantity (eventsAsOf db u (dateOf now - 1)) s)) ∈
      selectHoldingsAsOf db u (dateOf now - 1) := by
    simp only [selectHoldingsAsOf, List.mem_map]
    refine ⟨s, ?_, rfl⟩
    rw [mem_distinct]
    exact List.mem_map.mpr ⟨ev, hasof, hs⟩
  have hplanned : snapshotRowFor db (dateOf now - 1) u s ∈
      (plannedWrites SnapshotFaults.clean now db).1 := by
    rw [hplan] at herr ⊢
    exact plannedUsers_complete SnapshotFaults.clean _ db (fun _ => rfl) (fun _ => rfl) _ 0
      herr u huser _ hrow
  obtain ⟨hany, hall⟩ := foldl_upsert_settles _ db.portfolio_snapshots
    (plannedWrites_consistent SnapshotFaults.clean now db) _ hplanned
  exact mem_of_settled _ _ hany hall

theorem sumQuantity_eventsAsOf (db : Store) (userID s : String) (day : Int) :
    sumQuantity (eventsAsOf db userID day) s =
      ((db.reward_events.filter
        (fun r => r.user_id == userID && decide (dateOf r.reward_timestamp ≤ day) &&
          r.stock_symbol == s)).map (fun r => r.quantity)).sum := by
  simp only [sumQuantity, eventsAsOf, eventsOf, List.filter_filter]
  congr 2
  apply List.filter_congr
  intro r _
  cases (r.stock_symbol == s) <;> cases (r.user_id == userID) <;>
    cases (decide (dateOf r.reward_timestamp ≤ day)) <;> rfl

theorem selectPriceAsOf_some (db : Store) (s : String) (day : Int)
    (h : ∃ r ∈ db.stock_prices, r.stock_symbol = s ∧ dateOf r.price_timestamp ≤ day) :
    ∃ r ∈ db.stock_prices, r.stock_symbol = s ∧ dateOf r.price_timestamp ≤ day ∧
      (∀ x ∈ db.stock_prices, x.stock_symbol = s → dateOf x.price_timestamp ≤ day →
        x.price_timestamp ≤ r.price_timestamp) ∧
      selectPriceAsOf db s day = some (numericOut 4 r.price) := by
  obtain ⟨r0, hr0, hs0, hd0⟩ := h
  have hex : ∃ r ∈ pricesAsOf db day, r.stock_symbol = s :=
    ⟨r0, List.mem_filter.mpr ⟨hr0, by simpa using hd0⟩, hs0⟩
  obtain ⟨r, hr, hs, hmax, hlatest⟩ := latestPriceRow_some hex
  have hr' := List.mem_filter.mp hr
  refine ⟨r, hr'.1, hs, by simpa using hr'.2, ?_, by simp [selectPriceAsOf, hlatest]⟩
  intro x hx hxs hxd
  exact hmax x (List.mem_filter.mpr ⟨hx, by simpa using hxd⟩) hxs

theorem selectPriceAsOf_none (db : Store) (s : String) (day : Int)
    (h : ∀ r ∈ db.stock_prices, r.stock_symbol = s → ¬ dateOf r.price_timestamp ≤ day) :
    selectPriceAsOf db s day = none := by
  have : latestPriceRow (pricesAsOf db day) s = none := by
    apply latestPriceRow_none
    intro r hr hs
    have hr' := List.mem_filter.mp hr
    exact h r hr'.1 hs (by simpa using hr'.2)
  simp [selectPriceAsOf, this]

theorem amountOf_numericOut (v : Int) (h : v.natAbs < 10 ^ 18) :
    amountOf (numericOut 4 v) = v := by
  simp [amountOf, numericIn_numericOut 18 4 v h]

theorem quantity6Of_numericOut (v : Int) (h : v.natAbs < 10 ^ 18) :
    quantity6Of (numericOut 6 v) = v := by
  simp [quantity6Of, numericIn_numericOut 18 6 v h]

theorem amountOf_zero_value (q : String) : amountOf (multiplyAmounts q "0.0000") = 0 := by
  rw [multiplyAmounts_zero_price]
  simp [amountOf, (zero_value_cases _).1]

/-- The snapshot row of a holding.  For a user `u`, a symbol `s` and the target date `d` (the
day before the run), the snapshot row of the run has key `(u, d, s)`; its quantity is the sum
of the quantities of the reward events of `u` and `s` dated on or before `d`; its total value
is `multiplyAmounts` of the printed quantity and the price text.  If a stored price of `s` is
dated on or before `d`, the price is that of such a row of greatest timestamp.  If none is,
the price is 0.0000 and the total value 0.0000, and the upsert of the row is accepted: the
missing price raises no error.  When a run without outside failures returns no error, the row
of every holding is in the snapshot table.  (Sums and prices are taken within the range of
their columns.) -/
theorem updatePortfolioSnapshots_row (db : Store) (now : Time) (u s : String) :
    ((snapshotRowFor db (dateOf now - 1) u s).user_id = u ∧
      (snapshotRowFor db (dateOf now - 1) u s).snapshot_date = dateOf now - 1 ∧
      (snapshotRowFor db (dateOf now - 1) u s).stock_symbol = s) ∧
    ((sumQuantity (eventsAsOf db u (dateOf now - 1)) s).natAbs < 10 ^ 18 →
      (snapshotRowFor db (dateOf now - 1) u s).total_quantity =
        ((db.reward_events.filter
          (fun r => r.user_id == u && decide (dateOf r.reward_timestamp ≤ dateOf now - 1) &&
            r.stock_symbol == s)).map (fun r => r.quantity)).sum) ∧
    (snapshotRowFor db (dateOf now - 1) u s).total_inr_value =
      amountOf (multiplyAmounts
        (numericOut 6 (sumQuantity (eventsAsOf db u (dateOf now - 1)) s))
        ((selectPriceAsOf db s (dateOf now - 1)).getD "0.0000")) ∧
    ((∃ r ∈ db.stock_prices, r.stock_symbol = s ∧ dateOf r.price_timestamp ≤ dateOf now - 1) →
      ∃ r ∈ db.stock_prices, r.stock_symbol = s ∧ dateOf r.price_timestamp ≤ dateOf now - 1 ∧
        (∀ x ∈ db.stock_prices, x.stock_symbol = s →
          dateOf x.price_timestamp ≤ dateOf now - 1 →
          x.price_timestamp ≤ r.price_timestamp) ∧
        selectPriceAsOf db s (dateOf now - 1) = some (numericOut 4 r.price) ∧
        (r.price.natAbs < 10 ^ 18 →
          (snapshotRowFor db (dateOf now - 1) u s).price_per_unit = r.price)) ∧
    ((∀ r ∈ db.stock_prices, r.stock_symbol = s →
        ¬ dateOf r.price_timestamp ≤ dateOf now - 1) →
      selectPriceAsOf db s (dateOf now - 1) = none ∧
      (snapshotRowFor db (dateOf now - 1) u s).price_per_unit = 0 ∧
      (snapshotRowFor db (dateOf now - 1) u s).total_inr_value = 0 ∧
      ((sumQuantity (eventsAsOf db u (dateOf now - 1)) s).natAbs < 10 ^ 18 →
        u.length ≤ 255 → s.length ≤ 50 →
        snapshotParams u (dateOf now - 1) s
            (numericOut 6 (sumQuantity (eventsAsOf db u (dateOf now - 1)) s)) "0.0000"
            (multiplyAmounts (numericOut 6 (sumQuantity (eventsAsOf db u (dateOf now - 1)) s))
              "0.0000") =
          .ok (snapshotRowFor db (dateOf now - 1) u s))) ∧
    ((UpdatePortfolioSnapshots db SnapshotFaults.clean now).2 = none →
      (∃ ev ∈ db.reward_events, ev.user_id = u ∧ ev.stock_symbol = s ∧
        dateOf ev.reward_timestamp ≤ dateOf now - 1) →
      snapshotRowFor db (dateOf now - 1) u s ∈
        (UpdatePortfolioSnapshots db SnapshotFaults.clean now).1.portfolio_snapshots) := by
  refine ⟨⟨?_, ?_, ?_⟩, ?_, ?_, ?_, ?_,
    fun herr hev => cleanRun_writes db now u s herr hev⟩
  · simp only [snapshotRowFor]
  · simp only [snapshotRowFor]
  · simp only [snapshotRowFor]
  · intro hq
    rw [← sumQuantity_eventsAsOf]
    exact quantity6Of_numericOut _ hq
  · simp only [snapshotRowFor]
  · intro hex
    obtain ⟨r, hr, hs, hd, hmax, hsel⟩ := selectPriceAsOf_some db s _ hex
    refine ⟨r, hr, hs, hd, hmax, hsel, ?_⟩
    intro hp
    simp only [snapshotRowFor, hsel, Option.getD_some]
    exact amountOf_numericOut _ hp
  · intro hnone
    have hsel := selectPriceAsOf_none db s _ hnone
    refine ⟨hsel, ?_, ?_, ?_⟩
    · simp only [snapshotRowFor, hsel, Option.getD_none]
      exact amountOf_zero
    · simp only [snapshotRowFor, hsel, Option.getD_none]
      exact amountOf_zero_value _
    · intro hq hu hs
      have h1 := numericIn_numericOut 18 6 _ hq
      have h2 : numericIn 18 4 "0.0000" = .ok 0 := by rfl
      have h3 : numericIn 18 4
          (multiplyAmounts (numericOut 6 (sumQuantity (eventsAsOf db u (dateOf now - 1)) s))
            "0.0000") = .ok 0 := by
        rw [multiplyAmounts_zero_price]
        exact (zero_value_cases _).1
      have hlen : ¬ (255 < u.length ∨ 50 < s.length) := by omega
      simp only [snapshotParams, h1, h2, h3, if_neg hlen, snapshotRowFor, hsel,
        Option.getD_none, quantity6Of, amountOf]

/-- C12 (defect). A run at instant 86405, whose target day is 0, on a store in which `u1`
holds 5815594.823630 TCS, 1.000001 INFY and 7 WIPRO.  TCS has prices 1.0000 at time 2,
3328.9162 at time 5 and 9999.0000 on day 2; INFY has 150.0000; WIPRO has none.  The run
returns no error and writes three rows with the right quantities and prices: TCS at
3328.9162, the latest price on or before day 0, and WIPRO at price and value 0.0000.  The
total values are off: TCS is written 19359627821.0181 where the product
19359627821.018049806 rounds to 19359627821.0180 (to nearest as under truncation), and INFY
is written 150.0001 where the product 150.00015 rounds to 150.0002. -/
theorem updatePortfolioSnapshots_total_off_by_one_unit :
    UpdatePortfolioSnapshots
      ⟨[⟨"r1", "u1", "TCS", 5815594823630, 0, "e1"⟩, ⟨"r2", "u1", "INFY", 1000001, 0, "e2"⟩,
          ⟨"r3", "u1", "WIPRO", 7000000, 0, "e3"⟩], [],
        [⟨"TCS", 10000, 2⟩, ⟨"TCS", 33289162, 5⟩, ⟨"TCS", 99990000, 200000⟩,
          ⟨"INFY", 1500000, 0⟩], []⟩
      SnapshotFaults.clean 86405 =
      (⟨[⟨"r1", "u1", "TCS", 5815594823630, 0, "e1"⟩, ⟨"r2", "u1", "INFY", 1000001, 0, "e2"⟩,
          ⟨"r3", "u1", "WIPRO", 7000000, 0, "e3"⟩], [],
        [⟨"TCS", 10000, 2⟩, ⟨"TCS", 33289162, 5⟩, ⟨"TCS", 99990000, 200000⟩,
          ⟨"INFY", 1500000, 0⟩],
        [⟨"u1", 0, "TCS", 5815594823630, 33289162, 193596278210181⟩,
          ⟨"u1", 0, "INFY", 1000001, 1500000, 1500001⟩,
          ⟨"u1", 0, "WIPRO", 7000000, 0, 0⟩]⟩, none) ∧
    specValue 5815594823630 33289162 = 193596278210180 ∧
    ((193596278210180 : Int) * 10 ^ 6 < 5815594823630 * 33289162 ∧
      (5815594823630 : Int) * 33289162 < 193596278210180 * 10 ^ 6 + 5 * 10 ^ 5) ∧
    specValue 1000001 1500000 = 1500002 ∧
    specValue 7000000 0 = 0 := by
  refine ⟨by rfl, by decide, ⟨by decide, by decide⟩, by decide, by decide⟩

/-- C13 (defect). `u1` holds TCS and INFY and `u2` holds TCS.  When the upsert of the first
snapshot (`u1`, TCS) fails, `UpdatePortfolioSnapshots` returns that error at once: the
snapshots of `u1`'s INFY and of `u2` are not written, while a run without the failure writes
all three.  The same happens without any outside failure when the store rejects a snapshot:
`u0`'s two rewards of 990000000000 units add up beyond `NUMERIC(18, 6)`, the run stops there
and `u2`'s snapshot is never written. -/
theorem updatePortfolioSnapshots_aborts_on_failed_upsert :
    UpdatePortfolioSnapshots
      ⟨[⟨"r1", "u1", "TCS", 5000000, 0, "e1"⟩, ⟨"r2", "u2", "TCS", 9000000, 0, "e2"⟩,
        ⟨"r3", "u1", "INFY", 7000000, 100000, "e3"⟩], [], [⟨"TCS", 35000000, 5⟩], []⟩
      ⟨none, fun _ => none, none, fun _ => none, fun _ => none, fun _ _ => none,
        fun _ _ => none, fun i j => if i = 0 ∧ j = 0 then some .connection else none⟩
      259205 =
      (⟨[⟨"r1", "u1", "TCS", 5000000, 0, "e1"⟩, ⟨"r2", "u2", "TCS", 9000000, 0, "e2"⟩,
        ⟨"r3", "u1", "INFY", 7000000, 100000, "e3"⟩], [], [⟨"TCS", 35000000, 5⟩], []⟩,
        some (.db .connection)) ∧
    (UpdatePortfolioSnapshots
      ⟨[⟨"r1", "u1", "TCS", 5000000, 0, "e1"⟩, ⟨"r2", "u2", "TCS", 9000000, 0, "e2"⟩,
        ⟨"r3", "u1", "INFY", 7000000, 100000, "e3"⟩], [], [⟨"TCS", 35000000, 5⟩], []⟩
      SnapshotFaults.clean 259205).1.portfolio_snapshots =
      [⟨"u1", 2, "TCS", 5000000, 35000000, 175000000⟩,
        ⟨"u1", 2, "INFY", 7000000, 0, 0⟩,
        ⟨"u2", 2, "TCS", 9000000, 35000000, 315000000⟩] ∧
    UpdatePortfolioSnapshots
      ⟨[⟨"r1", "u0", "TCS", 990000000000000000, 0, "e1"⟩,
        ⟨"r2", "u0", "TCS", 990000000000000000, 0, "e2"⟩,
        ⟨"r3", "u2", "TCS", 9000000, 0, "e3"⟩], [], [], []⟩
      SnapshotFaults.clean 259205 =
      (⟨[⟨"r1", "u0", "TCS", 990000000000000000, 0, "e1"⟩,
        ⟨"r2", "u0", "TCS", 990000000000000000, 0, "e2"⟩,
        ⟨"r3", "u2", "TCS", 9000000, 0, "e3"⟩], [], [], []⟩,
        some (.db .numericOverflow)) := by
  refine ⟨by rfl, by rfl, by rfl⟩

/-! ## Historical values -/

theorem historicalLoop_eq (f : ReadFaults) (hscan : ∀ i, f.scan i = none) :
    ∀ (rows : List (Int × String)) (i : Nat) (acc : List HistoricalINR),
      historicalLoop f rows i acc =
        .ok (acc ++ rows.map (fun r => (⟨r.1, r.2⟩ : HistoricalINR))) := by
  intro rows
  induction rows with
  | nil => intro i acc; simp [historicalLoop]
  | cons row rest ih =>
    intro i acc
    obtain ⟨date, value⟩ := row
    unfold historicalLoop
    simp only [hscan]
    rw [ih]
    simp

/-- C14. When the query, the scans and the row iteration do not fail, `GetHistoricalINR`
returns, without error, a sequence whose dates are strictly descending (so each date occurs
once, most recent first), are exactly the dates before today for which the user has a
snapshot row, and whose value for a date is the sum, printed with four decimals, of the total
values of the user's snapshot rows of that date over all symbols. -/
theorem getHistoricalINR_sorted (db : Store) (f : ReadFaults) (today : Int) (userID : String)
    (hquery : f.query = none) (hscan : ∀ i, f.scan i = none) (hrows : f.rowsErr = none) :
    ∃ hs, GetHistoricalINR db f today userID = (some hs, none) ∧
      (hs.map (fun h => h.Date)).Pairwise (fun a b => a > b) ∧
      (∀ d, d ∈ hs.map (fun h => h.Date) ↔
        d < today ∧ ∃ r ∈ db.portfolio_snapshots, r.user_id = userID ∧ r.snapshot_date = d) ∧
      (∀ h ∈ hs, h.Value = numericOut 4
        ((db.portfolio_snapshots.filter
          (fun r => r.user_id == userID && decide (r.snapshot_date < today) &&
            r.snapshot_date == h.Date)).map (fun r => r.total_inr_value)).sum) := by
  refine ⟨(selectHistorical db userID today).map (fun r => (⟨r.1, r.2⟩ : HistoricalINR)),
    ?_, ?_, ?_, ?_⟩
  · unfold GetHistoricalINR
    simp only [hquery, deliveredRows, hrows]
    rw [historicalLoop_eq f hscan]
    simp
  · have hd : ((selectHistorical db userID today).map
        (fun r => (⟨r.1, r.2⟩ : HistoricalINR))).map (fun h => h.Date) =
        List.insertionSort (fun a b => a ≥ b)
          ((pastSnapshots db userID today).map (fun r => r.snapshot_date)).dedup := by
      simp [selectHistorical, List.map_map, Function.comp_def]
    rw [hd]
    have hsorted := List.sorted_insertionSort (fun a b : Int => a ≥ b)
      ((pastSnapshots db userID today).map (fun r => r.snapshot_date)).dedup
    have hnodup : (List.insertionSort (fun a b : Int => a ≥ b)
        ((pastSnapshots db userID today).map (fun r => r.snapshot_date)).dedup).Nodup :=
      (List.perm_insertionSort _ _).nodup_iff.mpr (List.nodup_dedup _)
    exact hsorted.gt_of_ge hnodup
  · intro d
    have hd : ((selectHistorical db userID today).map
        (fun r => (⟨r.1, r.2⟩ : HistoricalINR))).map (fun h => h.Date) =
        List.insertionSort (fun a b => a ≥ b)
          ((pastSnapshots db userID today).map (fun r => r.snapshot_date)).dedup := by
      simp [selectHistorical, List.map_map, Function.comp_def]
    rw [hd, (List.perm_insertionSort _ _).mem_iff, List.mem_dedup]
    simp only [pastSnapshots, List.mem_map, List.mem_filter, Bool.and_eq_true, beq_iff_eq,
      decide_eq_true_eq]
    constructor
    · rintro ⟨r, ⟨hr, hu, hlt⟩, rfl⟩
      exact ⟨hlt, r, hr, hu, rfl⟩
    · rintro ⟨hlt, r, hr, hu, rfl⟩
      exact ⟨r, ⟨hr, hu, hlt⟩, rfl⟩
  · intro h hh
    simp only [selectHistorical, List.map_map, List.mem_map, Function.comp_def] at hh
    obtain ⟨d, _, rfl⟩ := hh
    simp only [sumValueOn, pastSnapshots, List.filter_filter]
    congr 3
    apply List.filter_congr
    intro r _
    rw [Bool.and_comm]

/-- Witness for C14: with today being day 5, of `u1`'s snapshots on days 2, 3 (two symbols),
and 5, the result lists day 3 with the summed value and then day 2. -/
theorem getHistoricalINR_sorted_witness :
    GetHistoricalINR
      ⟨[], [], [], [⟨"u1", 2, "TCS", 1000000, 100000, 100000⟩,
        ⟨"u1", 3, "TCS", 1000000, 110000, 110000⟩, ⟨"u2", 3, "TCS", 1000000, 110000, 110000⟩,
        ⟨"u1", 3, "INFY", 2000000, 50000, 100000⟩,
        ⟨"u1", 5, "TCS", 1000000, 120000, 120000⟩]⟩
      ReadFaults.clean 5 "u1" = (some [⟨3, "21.0000"⟩, ⟨2, "10.0000"⟩], none) ∧
    ∃ hs, GetHistoricalINR
      ⟨[], [], [], [⟨"u1", 2, "TCS", 1000000, 100000, 100000⟩,
        ⟨"u1", 3, "TCS", 1000000, 110000, 110000⟩, ⟨"u2", 3, "TCS", 1000000, 110000, 110000⟩,
        ⟨"u1", 3, "INFY", 2000000, 50000, 100000⟩,
        ⟨"u1", 5, "TCS", 1000000, 120000, 120000⟩]⟩
      ReadFaults.clean 5 "u1" = (some hs, none) ∧
      (hs.map (fun h => h.Date)).Pairwise (fun a b => a > b) :=
  ⟨by rfl,
    match getHistoricalINR_sorted
      ⟨[], [], [], [⟨"u1", 2, "TCS", 1000000, 100000, 100000⟩,
        ⟨"u1", 3, "TCS", 1000000, 110000, 110000⟩, ⟨"u2", 3, "TCS", 1000000, 110000, 110000⟩,
        ⟨"u1", 3, "INFY", 2000000, 50000, 100000⟩,
        ⟨"u1", 5, "TCS", 1000000, 120000, 120000⟩]⟩
      ReadFaults.clean 5 "u1" rfl (fun _ => rfl) rfl with
    | ⟨hs, h1, h2, _⟩ => ⟨hs, h1, h2⟩⟩

/-! ## Bounds on rounded values -/

theorem bitLenAux_zero (fuel : Nat) : bitLenAux fuel 0 = 0 := by
  cases fuel <;> simp [bitLenAux]

theorem bitLenAux_spec : ∀ (fuel n : Nat), n ≤ fuel →
    n < 2 ^ bitLenAux fuel n ∧ (0 < n → 2 ^ (bitLenAux fuel n - 1) ≤ n) := by
  intro fuel
  induction fuel with
  | zero =>
    intro n h
    have : n = 0 := by omega
    subst this
    simp [bitLenAux]
  | succ fuel ih =>
    intro n h
    unfold bitLenAux
    by_cases hn : n = 0
    · subst hn; simp
    · rw [if_neg hn]
      obtain ⟨h1, h2⟩ := ih (n / 2) (by omega)
      refine ⟨?_, fun _ => ?_⟩
      · rw [Nat.add_comm, Nat.pow_succ]
        omega
      · rw [Nat.add_sub_cancel_left]
        by_cases hh : n / 2 = 0
        · rw [hh, bitLenAux_zero]
          simp
          omega
        · have h3 := h2 (Nat.pos_of_ne_zero hh)
          have hpos : 0 < bitLenAux fuel (n / 2) := by
            by_contra hc
            have : bitLenAux fuel (n / 2) = 0 := by omega
            rw [this] at h1
            simp at h1
            exact hh h1
          obtain ⟨L, hL⟩ : ∃ L, bitLenAux fuel (n / 2) = L + 1 := ⟨_, (Nat.succ_pred_eq_of_pos hpos).symm⟩
          rw [hL] at h3 ⊢
          rw [Nat.add_sub_cancel] at h3
          rw [Nat.pow_succ]
          omega

theorem bitLen_spec (n : Nat) :
    n < 2 ^ bitLen n ∧ (0 < n → 2 ^ (bitLen n - 1) ≤ n) :=
  bitLenAux_spec n n (Nat.le_refl n)

theorem roundHalfEven_le (N D K : Nat) (hD : 0 < D) (h : N ≤ K * D) :
    roundHalfEven N D ≤ K := by
  unfold roundHalfEven
  have hq : N / D ≤ K := by
    calc N / D ≤ K * D / D := Nat.div_le_div_right h
      _ = K := Nat.mul_div_cancel K hD
  by_cases heq : N / D = K
  · have hmod : N % D = 0 := by
      have := Nat.div_add_mod N D
      rw [heq] at this
      have h2 : D * K = K * D := Nat.mul_comm D K
      omega
    simp only [hmod, Nat.mul_zero, hD, if_true]
    omega
  · have : N / D + 1 ≤ K := by omega
    simp only
    split
    · omega
    · split
      · omega
      · split <;> omega

theorem le_roundHalfEven (N D K : Nat) (hD : 0 < D) (h : K * D ≤ N) :
    K ≤ roundHalfEven N D := by
  unfold roundHalfEven
  have hq : K ≤ N / D := (Nat.le_div_iff_mul_le hD).mpr h
  simp only
  split
  · omega
  · split
    · omega
    · split <;> omega

theorem scaleRatio_neg (n d k : Nat) : scaleRatio n d (-(k : Int)) = (n * 2 ^ k, d) := by
  cases k with
  | zero => simp [scaleRatio]
  | succ k =>
    show scaleRatio n d (Int.negSucc k) = _
    rfl

theorem scaleRatio_ofNat (n d k : Nat) : scaleRatio n d (k : Int) = (n, d * 2 ^ k) := rfl

theorem roundRatio_bounds (neg : Bool) (n d A B : Nat) (hd : 0 < d)
    (hA : A * d ≤ n) (hB : n ≤ B * d) (hB53 : B < 2 ^ 53) :
    ∃ (k m : Nat), roundRatio neg n d = ⟨neg, m, -(k : Int)⟩ ∧ A * 2 ^ k ≤ m ∧ m ≤ B * 2 ^ k := by
  unfold roundRatio
  by_cases hn : n = 0
  · subst hn
    refine ⟨0, 0, by simp, ?_, by simp⟩
    have : A * d = 0 := by omega
    rcases Nat.mul_eq_zero.mp this with h | h
    · simp [h]
    · omega
  · rw [if_neg hn]
    have hnpos : 0 < n := Nat.pos_of_ne_zero hn
    obtain ⟨hn1, hn2⟩ := bitLen_spec n
    obtain ⟨hd1, _⟩ := bitLen_spec d
    have hn2 := hn2 hnpos
    -- the exponent chosen first is not positive
    have hlen : bitLen n ≤ 53 + bitLen d := by
      by_contra hc
      have h1 : 53 + bitLen d ≤ bitLen n - 1 := by omega
      have h2 : 2 ^ (53 + bitLen d) ≤ 2 ^ (bitLen n - 1) :=
        Nat.pow_le_pow_right (by decide) h1
      have h3 : n < 2 ^ (53 + bitLen d) := by
        calc n ≤ B * d := hB
          _ < 2 ^ 53 * 2 ^ bitLen d := by
            have hBd : B * d ≤ B * 2 ^ bitLen d := Nat.mul_le_mul_left B (Nat.le_of_lt hd1)
            have hpos : 0 < 2 ^ bitLen d := by positivity
            have : B * 2 ^ bitLen d < 2 ^ 53 * 2 ^ bitLen d :=
              Nat.mul_lt_mul_of_pos_right hB53 hpos
            omega
          _ = 2 ^ (53 + bitLen d) := (Nat.pow_add 2 53 (bitLen d)).symm
      omega
    obtain ⟨j, hj⟩ : ∃ j : Nat, (bitLen n : Int) - (bitLen d : Int) - 53 = -(j : Int) :=
      ⟨53 + bitLen d - bitLen n, by omega⟩
    simp only [hj, scaleRatio_neg]
    by_cases hc : n * 2 ^ j / d < 2 ^ 53
    · rw [if_pos hc]
      refine ⟨j, roundHalfEven (n * 2 ^ j) d, ?_, ?_, ?_⟩
      · rw [scaleRatio_neg]
      · apply le_roundHalfEven _ _ _ hd
        calc A * 2 ^ j * d = A * d * 2 ^ j := by ring
          _ ≤ n * 2 ^ j := Nat.mul_le_mul_right _ hA
      · apply roundHalfEven_le _ _ _ hd
        calc n * 2 ^ j ≤ B * d * 2 ^ j := Nat.mul_le_mul_right _ hB
          _ = B * 2 ^ j * d := by ring
    · rw [if_neg hc]
      have hjpos : 0 < j := by
        by_contra hj0
        have : j = 0 := by omega
        subst this
        apply hc
        simp only [Nat.pow_zero, Nat.mul_one]
        calc n / d ≤ B * d / d := Nat.div_le_div_right hB
          _ = B := Nat.mul_div_cancel B hd
          _ < 2 ^ 53 := hB53
      obtain ⟨k, hk⟩ : ∃ k, j = k + 1 := ⟨j - 1, by omega⟩
      have he : -(j : Int) + 1 = -(k : Int) := by omega
      simp only [he, scaleRatio_neg]
      refine ⟨k, roundHalfEven (n * 2 ^ k) d, rfl, ?_, ?_⟩
      · apply le_roundHalfEven _ _ _ hd
        calc A * 2 ^ k * d = A * d * 2 ^ k := by ring
          _ ≤ n * 2 ^ k := Nat.mul_le_mul_right _ hA
      · apply roundHalfEven_le _ _ _ hd
        calc n * 2 ^ k ≤ B * d * 2 ^ k := Nat.mul_le_mul_right _ hB
          _ = B * 2 ^ k * d := by ring

theorem ratio_negExp (neg : Bool) (m k : Nat) :
    (⟨neg, m, -(k : Int)⟩ : F64).ratio = (m, 1 * 2 ^ k) := by
  unfold F64.ratio
  simp only [Int.neg_neg]
  rfl

theorem mul4900_bounds (u : F64) (hneg : u.neg = false) (hlt : u.ratio.1 < u.ratio.2) :
    ∃ (k m : Nat), F64.mul u ⟨false, 4900, 0⟩ = ⟨false, m, -(k : Int)⟩ ∧ m ≤ 4900 * 2 ^ k := by
  have hc : (⟨false, 4900, 0⟩ : F64).ratio = (4900, 1) := by decide
  unfold F64.mul
  simp only [hc, hneg, Bool.xor_false]
  obtain ⟨k, m, h, _, hm⟩ := roundRatio_bounds false (u.ratio.1 * 4900) (u.ratio.2 * 1) 0 4900
    (by omega) (by omega) (by omega) (by decide)
  exact ⟨k, m, h, hm⟩

theorem add100_bounds (k m : Nat) (hm : m ≤ 4900 * 2 ^ k) :
    ∃ (k2 m2 : Nat), F64.add ⟨false, 100, 0⟩ ⟨false, m, -(k : Int)⟩ =
        ⟨false, m2, -(k2 : Int)⟩ ∧
      100 * 2 ^ k2 ≤ m2 ∧ m2 ≤ 5000 * 2 ^ k2 := by
  have hpow : 0 < 2 ^ k := by positivity
  have hmin : min (0 : Int) (-(k : Int)) = -(k : Int) := by omega
  have ha : (⟨false, 100, 0⟩ : F64).signedAt (-(k : Int)) = ((100 * 2 ^ k : Nat) : Int) := by
    simp [F64.signedAt]
  have hb : (⟨false, m, -(k : Int)⟩ : F64).signedAt (-(k : Int)) = ((m : Nat) : Int) := by
    simp [F64.signedAt]
  unfold F64.add
  simp only [hmin, ha, hb]
  have hs : ((100 * 2 ^ k : Nat) : Int) + ((m : Nat) : Int) = ((100 * 2 ^ k + m : Nat) : Int) := by
    push_cast; ring
  rw [hs]
  have hne : ¬ (((100 * 2 ^ k + m : Nat) : Int) = 0) := by
    have : 0 < 100 * 2 ^ k + m := by omega
    omega
  rw [if_neg hne]
  have hnot : decide (((100 * 2 ^ k + m : Nat) : Int) < 0) = false := by
    simp only [decide_eq_false_iff_not]
    omega
  simp only [hnot, Int.natAbs_ofNat, Int.neg_neg, scaleRatio_ofNat]
  exact roundRatio_bounds false (100 * 2 ^ k + m) (1 * 2 ^ k) 100 5000 (by omega) (by omega)
    (by omega) (by decide)

theorem generatedPrice_bounds (u : F64) (hneg : u.neg = false)
    (hlt : u.ratio.1 < u.ratio.2) :
    ∃ units, sprintf4 (F64.add ⟨false, 100, 0⟩ (F64.mul u ⟨false, 4900, 0⟩)) =
        fixedText false units 4 ∧
      1000000 ≤ units ∧ units ≤ 50000000 := by
  obtain ⟨k, m, h1, hm⟩ := mul4900_bounds u hneg hlt
  obtain ⟨k2, m2, h2, hlo, hhi⟩ := add100_bounds k m hm
  rw [h1, h2]
  have hpow : 0 < 1 * 2 ^ k2 := by positivity
  refine ⟨roundHalfEven (m2 * 10 ^ 4) (1 * 2 ^ k2), ?_, ?_, ?_⟩
  · simp only [sprintf4, F64.units4, ratio_negExp]
  · apply le_roundHalfEven _ _ _ hpow
    omega
  · apply roundHalfEven_le _ _ _ hpow
    omega

/-- C15 (as stated, refuted). With an empty cache and the draw `1 - 2^-53`, the greatest
`float64` below 1, the generated value is below 5000 but is printed, and returned and cached,
as 5000.0000, which is not below 5000. -/
theorem getCurrentPrice_can_return_5000 :
    (⟨false, 9007199254740991, -53⟩ : F64).ratio.1 <
      (⟨false, 9007199254740991, -53⟩ : F64).ratio.2 ∧
    GetCurrentPrice [] ⟨false, 9007199254740991, -53⟩ "TCS" =
      (.ok "5000.0000", [("TCS", "5000.0000")]) ∧
    numericIn 18 4 "5000.0000" = .ok 50000000 ∧
    ¬ ((50000000 : Int) < 5000 * 10 ^ 4) := by
  refine ⟨by decide, by rfl, by rfl, by decide⟩

/-- C15 (amended). `GetCurrentPrice` never returns an error.  If the cache holds a price for
the symbol it returns that price and leaves the cache as it is.  Otherwise, for a draw in
`[0, 1)`, it returns a newly generated price printed with exactly four fractional digits that
is at least 100.0000 and at most 5000.0000 (the upper bound included), stores it under the
symbol and leaves the entries of all other symbols unchanged, so that a following
`GetCurrentPrice` for the symbol returns the same price and leaves the cache as it is. -/
theorem getCurrentPrice_spec (cache : PriceCache) (u : F64) (stockSymbol : String) :
    (∃ price, (GetCurrentPrice cache u stockSymbol).1 = .ok price) ∧
    (∀ price, cache.lookup stockSymbol = some price →
      GetCurrentPrice cache u stockSymbol = (.ok price, cache)) ∧
    (cache.lookup stockSymbol = none → u.neg = false → u.ratio.1 < u.ratio.2 →
      ∃ units,
        (GetCurrentPrice cache u stockSymbol).1 = .ok (fixedText false units 4) ∧
        1000000 ≤ units ∧ units ≤ 50000000 ∧
        fourFractionDigits (fixedText false units 4) = true ∧
        (GetCurrentPrice cache u stockSymbol).2.lookup stockSymbol =
          some (fixedText false units 4) ∧
        (∀ t, t ≠ stockSymbol →
          (GetCurrentPrice cache u stockSymbol).2.lookup t = cache.lookup t) ∧
        (∀ u2, GetCurrentPrice (GetCurrentPrice cache u stockSymbol).2 u2 stockSymbol =
          (.ok (fixedText false units 4), (GetCurrentPrice cache u stockSymbol).2))) := by
  refine ⟨?_, ?_, ?_⟩
  · unfold GetCurrentPrice
    cases cache.lookup stockSymbol with
    | some p => exact ⟨p, rfl⟩
    | none => exact ⟨_, rfl⟩
  · intro price h
    simp [GetCurrentPrice, h]
  · intro hmiss hneg hlt
    obtain ⟨units, hprice, hlo, hhi⟩ := generatedPrice_bounds u hneg hlt
    have hres : GetCurrentPrice cache u stockSymbol =
        (.ok (fixedText false units 4), cache.set stockSymbol (fixedText false units 4)) := by
      simp only [GetCurrentPrice, hmiss, hprice]
    have hlook : (cache.set stockSymbol (fixedText false units 4)).lookup stockSymbol =
        some (fixedText false units 4) := by
      simp [PriceCache.set, List.lookup]
    refine ⟨units, by rw [hres], hlo, hhi, fixedText_fourFractionDigits false units,
      by rw [hres]; exact hlook, ?_, ?_⟩
    · intro t ht
      rw [hres]
      exact lookup_set_ne cache stockSymbol _ t ht
    · intro u2
      rw [hres]
      simp only [GetCurrentPrice, hlook]

/-- Witness for C15 (amended): on an empty cache the draw 1/2 gives 2550.0000, which a second
call returns from the cache. -/
theorem getCurrentPrice_spec_witness :
    ([] : PriceCache).lookup "TCS" = none ∧
    (⟨false, 1, -1⟩ : F64).neg = false ∧
    (⟨false, 1, -1⟩ : F64).ratio.1 < (⟨false, 1, -1⟩ : F64).ratio.2 ∧
    GetCurrentPrice [] ⟨false, 1, -1⟩ "TCS" = (.ok "2550.0000", [("TCS", "2550.0000")]) ∧
    ∃ units, (GetCurrentPrice [] ⟨false, 1, -1⟩ "TCS").1 = .ok (fixedText false units 4) ∧
      1000000 ≤ units ∧ units ≤ 50000000 :=
  ⟨rfl, rfl, by decide, by rfl,
    match (getCurrentPrice_spec [] ⟨false, 1, -1⟩ "TCS").2.2 rfl rfl (by decide) with
    | ⟨units, h1, h2, h3, _⟩ => ⟨units, h1, h2, h3⟩⟩

/-- C16 (defect). For quantity 10 and price 100.0000 the transaction value is 1000.0000, of
which 0.05% (`value * 0.0005`) is 0.5000; `calculateBrokerage` returns 0.1000, the value
divided by 10000, which is 0.01%. -/
theorem calculateBrokerage_is_not_five_basis_points :
    multiplyAmounts "10" "100.0000" = "1000.0000" ∧
    multiplyAmounts "1000.0000" "0.0005" = "0.5000" ∧
    calculateBrokerage "10" "100.0000" = "0.1000" ∧
    calculateBrokerage "10" "100.0000" ≠ multiplyAmounts "1000.0000" "0.0005" ∧
    divideAmount "1000.0000" "2000" = "0.5000" := by
  refine ⟨by rfl, by rfl, by rfl, by decide, by rfl⟩

/-! ## The two valuation loops -/

theorem valueLoop_eq (db : Store) (f : ReadFaults) (draws : Nat → F64)
    (hscan : ∀ i, f.scan i = none) :
    ∀ (rows : List (String × String)) (i : Nat) (cache : PriceCache) (total : F64),
      valueLoop db f draws rows i cache total =
        (.ok (sumValues total (pricedRows db f draws rows i cache).1),
          (pricedRows db f draws rows i cache).2) := by
  intro rows
  induction rows with
  | nil => intro i cache total; simp [valueLoop, pricedRows, sumValues]
  | cons row rest ih =>
    intro i cache total
    obtain ⟨symbol, quantity⟩ := row
    unfold valueLoop
    simp only [hscan]
    rw [ih]
    simp [pricedRows, priceRow, sumValues]

theorem sharesLoop_ok (fs : ReadFaults) (hscan : ∀ i, fs.scan i = none) :
    ∀ (rows : List (String × String)) (i : Nat) (acc : List (String × String)),
      ∃ shares, sharesLoop fs rows i acc = .ok shares := by
  intro rows
  induction rows with
  | nil => intro i acc; exact ⟨acc, rfl⟩
  | cons row rest ih =>
    intro i acc
    obtain ⟨symbol, quantity⟩ := row
    unfold sharesLoop
    simp only [hscan]
    exact ih _ _

theorem priceRow_draws (db : Store) (f : ReadFaults) (draws1 draws2 : Nat → F64) (i : Nat)
    (cache : PriceCache) (row : String × String)
    (h : selectLatestPrice db row.1 ≠ none ∨ cache.lookup row.1 ≠ none) :
    priceRow db f draws1 i cache row = priceRow db f draws2 i cache row ∧
      (priceRow db f draws1 i cache row).2 = cache := by
  unfold priceRow GetLatestPrice
  cases hf : faulty (f.price i) (.ok (selectLatestPrice db row.1)) with
  | error e => simp
  | ok found =>
    cases found with
    | some p => simp
    | none =>
      have hsel : selectLatestPrice db row.1 = none := by
        have := (faulty_ok hf).2
        simpa using this
      rcases h with h | h
      · exact absurd hsel h
      · cases hc : cache.lookup row.1 with
        | none => exact absurd hc h
        | some p => simp [GetCurrentPrice, hc]

theorem pricedRows_draws (db : Store) (f : ReadFaults) (draws1 draws2 : Nat → F64) :
    ∀ (rows : List (String × String)) (i : Nat) (cache : PriceCache),
      (∀ row ∈ rows, selectLatestPrice db row.1 ≠ none ∨ cache.lookup row.1 ≠ none) →
      pricedRows db f draws1 rows i cache = pricedRows db f draws2 rows i cache := by
  intro rows
  induction rows with
  | nil => intro i cache _; rfl
  | cons row rest ih =>
    intro i cache h
    obtain ⟨h1, h2⟩ := priceRow_draws db f draws1 draws2 i cache row (h row (by simp))
    have h3 : (priceRow db f draws2 i cache row).2 = cache := by rw [← h1]; exact h2
    simp only [pricedRows]
    rw [h2, h3, h1, ih (i + 1) cache (fun r hr => h r (by simp [hr]))]

theorem pricedRows_cache_other (db : Store) (f : ReadFaults) (draws : Nat → F64) :
    ∀ (rows : List (String × String)) (i : Nat) (cache : PriceCache) (t : String),
      t ∉ rows.map Prod.fst →
      (pricedRows db f draws rows i cache).2.lookup t = cache.lookup t := by
  intro rows
  induction rows with
  | nil => intro i cache t _; rfl
  | cons row rest ih =>
    intro i cache t ht
    simp only [List.map_cons, List.mem_cons, not_or] at ht
    simp only [pricedRows]
    rw [ih (i + 1) _ t ht.2, priceRow_cache_other db f draws i cache row t ht.1]

theorem lookup_set_self (cache : PriceCache) (s p : String) :
    (cache.set s p).lookup s = some p := by
  simp [PriceCache.set, List.lookup]

theorem priceRow_replay (db : Store) (f1 f2 : ReadFaults) (draws1 draws2 : Nat → F64)
    (i j : Nat) (c1 c2 : PriceCache) (row : String × String)
    (hp1 : f1.price i = none) (hp2 : f2.price j = none)
    (h : c2.lookup row.1 = (priceRow db f1 draws1 i c1 row).2.lookup row.1) :
    priceRow db f2 draws2 j c2 row = ((priceRow db f1 draws1 i c1 row).1, c2) := by
  unfold priceRow GetLatestPrice at h ⊢
  simp only [hp1, hp2, faulty] at h ⊢
  cases hs : selectLatestPrice db row.1 with
  | some p => simp
  | none =>
    simp only [hs] at h ⊢
    unfold GetCurrentPrice at h ⊢
    cases hc : c1.lookup row.1 with
    | some p =>
      simp only [hc] at h ⊢
      simp [h]
    | none =>
      simp only [hc] at h ⊢
      rw [lookup_set_self] at h
      simp [h]

theorem pricedRows_replay (db : Store) (f1 f2 : ReadFaults) (draws1 draws2 : Nat → F64)
    (hp1 : ∀ i, f1.price i = none) (hp2 : ∀ i, f2.price i = none) :
    ∀ (rows : List (String × String)) (i j : Nat) (c1 c2 : PriceCache),
      (rows.map Prod.fst).Nodup →
      (∀ s ∈ rows.map Prod.fst,
        c2.lookup s = (pricedRows db f1 draws1 rows i c1).2.lookup s) →
      pricedRows db f2 draws2 rows j c2 = ((pricedRows db f1 draws1 rows i c1).1, c2) := by
  intro rows
  induction rows with
  | nil => intro i j c1 c2 _ _; rfl
  | cons row rest ih =>
    intro i j c1 c2 hnd h
    simp only [List.map_cons, List.nodup_cons] at hnd
    have h0 : c2.lookup row.1 = (priceRow db f1 draws1 i c1 row).2.lookup row.1 := by
      rw [h row.1 (by simp)]
      simp only [pricedRows]
      exact pricedRows_cache_other db f1 draws1 rest (i + 1) _ row.1 hnd.1
    have hrow := priceRow_replay db f1 f2 draws1 draws2 i j c1 c2 row (hp1 i) (hp2 j) h0
    have hrest := ih (i + 1) (j + 1) (priceRow db f1 draws1 i c1 row).2 c2 hnd.2
      (fun s hs => by
        rw [h s (by simp [hs])]
        simp only [pricedRows])
    simp only [pricedRows]
    rw [hrow]
    simp only
    rw [hrest]


theorem getStats_eq (db : Store) (cache : PriceCache) (draws : Nat → F64) (today : Int)
    (userID : String) :
    ∃ shares, GetStats db cache ReadFaults.clean ReadFaults.clean draws today userID =
      (some ⟨shares, sprintf4 (sumValues F64.zero
          (pricedRows db ReadFaults.clean draws (selectHoldings db userID) 0 cache).1)⟩, none,
        (pricedRows db ReadFaults.clean draws (selectHoldings db userID) 0 cache).2) := by
  obtain ⟨shares, hshares⟩ := sharesLoop_ok ReadFaults.clean (fun _ => rfl)
    (deliveredRows ReadFaults.clean (selectSharesToday db userID today)) 0 []
  have hcalc : calculateCurrentPortfolioValue db cache ReadFaults.clean draws userID =
      (sprintf4 (sumValues F64.zero
          (pricedRows db ReadFaults.clean draws (selectHoldings db userID) 0 cache).1), none,
        (pricedRows db ReadFaults.clean draws (selectHoldings db userID) 0 cache).2) := by
    unfold calculateCurrentPortfolioValue
    simp only [ReadFaults.clean, deliveredRows]
    rw [valueLoop_eq db _ draws (fun _ => rfl)]
    simp
  refine ⟨shares, ?_⟩
  unfold GetStats
  simp only [hshares, hcalc]
  simp [ReadFaults.clean]

theorem held_priced (db : Store) (cache : PriceCache) (userID : String)
    (hpriced : ∀ ev ∈ db.reward_events, ev.user_id = userID →
      (∃ r ∈ db.stock_prices, r.stock_symbol = ev.stock_symbol) ∨
        ∃ price, cache.lookup ev.stock_symbol = some price) :
    ∀ row ∈ selectHoldings db userID,
      selectLatestPrice db row.1 ≠ none ∨ cache.lookup row.1 ≠ none := by
  intro row hrow
  have hsym : row.1 ∈ (selectHoldings db userID).map Prod.fst :=
    List.mem_map.mpr ⟨row, hrow, rfl⟩
  rw [selectHoldings_symbols, mem_distinct] at hsym
  obtain ⟨ev, hev, hs⟩ := List.mem_map.mp hsym
  have hev' := List.mem_filter.mp hev
  rcases hpriced ev hev'.1 (by simpa using hev'.2) with hp | ⟨price, hp⟩
  · left
    rw [← hs]
    obtain ⟨r, _, _, _, hlatest⟩ := latestPriceRow_some hp
    simp [selectLatestPrice, hlatest]
  · right
    rw [← hs, hp]
    simp

theorem pricedRows_cache_priced (db : Store) (f : ReadFaults) (draws : Nat → F64) :
    ∀ (rows : List (String × String)) (i : Nat) (cache : PriceCache),
      (∀ row ∈ rows, selectLatestPrice db row.1 ≠ none ∨ cache.lookup row.1 ≠ none) →
      (pricedRows db f draws rows i cache).2 = cache := by
  intro rows
  induction rows with
  | nil => intro i cache _; rfl
  | cons row rest ih =>
    intro i cache h
    have h2 := (priceRow_draws db f draws draws i cache row (h row (by simp))).2
    simp only [pricedRows]
    rw [h2]
    exact ih (i + 1) cache (fun r hr => h r (by simp [hr]))

/-- C17 (as stated, refuted). `u1` holds 5 TCS; the store has no price of TCS and the cache
is empty, and no read fails.  Each call generates a price of its own: with the draw 1/2
`GetStats` prices TCS at 2550.0000 and returns the value 12750.0000, with the draw 1/4
`GetPortfolio`, started on the same store and cache, prices it at 1325.0000 and returns the
total 6625.0000. -/
theorem getStats_value_differs_from_getPortfolio_total :
    GetStats ⟨[⟨"r1", "u1", "TCS", 5000000, 0, "e1"⟩], [], [], []⟩ [] ReadFaults.clean
        ReadFaults.clean (fun _ => ⟨false, 1, -1⟩) 0 "u1" =
      (some ⟨[("TCS", "5.000000")], "12750.0000"⟩, none, [("TCS", "2550.0000")]) ∧
    GetPortfolio ⟨[⟨"r1", "u1", "TCS", 5000000, 0, "e1"⟩], [], [], []⟩ [] ReadFaults.clean
        (fun _ => ⟨false, 1, -2⟩) "u1" =
      ⟨some ⟨[⟨"TCS", "5.000000", "1325.0000", "6625.0000"⟩], "6625.0000"⟩, none,
        [("TCS", "1325.0000")]⟩ := by
  refine ⟨by rfl, by rfl⟩

/-- C17 (amended). On a store and cache on which no read fails, `GetStats` and `GetPortfolio`
both succeed, whatever the random draws `draws1` of the one and `draws2` of the other.  If
every symbol the user holds has a stored price or a cached price, no price is generated: the
`CurrentPortfolioValue` of `GetStats` equals the `TotalValue` of `GetPortfolio` and both
leave the cache as it was.  The two loops compute the same total from the same draws.  And
whatever the state, a `GetPortfolio` made on the cache that `GetStats` leaves returns the
value `GetStats` returned, and a `GetStats` made on the cache that `GetPortfolio` leaves
returns the total `GetPortfolio` returned: the prices generated by the first call are reused
by the second. -/
theorem getStats_value_eq_getPortfolio_total (db : Store) (cache : PriceCache)
    (draws1 draws2 : Nat → F64) (today : Int) (userID : String) :
    ∃ stats p cacheS cacheP,
      GetStats db cache ReadFaults.clean ReadFaults.clean draws1 today userID =
        (some stats, none, cacheS) ∧
      GetPortfolio db cache ReadFaults.clean draws2 userID = ⟨some p, none, cacheP⟩ ∧
      ((∀ ev ∈ db.reward_events, ev.user_id = userID →
          (∃ r ∈ db.stock_prices, r.stock_symbol = ev.stock_symbol) ∨
            ∃ price, cache.lookup ev.stock_symbol = some price) →
        stats.CurrentPortfolioValue = p.TotalValue ∧ cacheS = cache ∧ cacheP = cache) ∧
      (draws1 = draws2 → stats.CurrentPortfolioValue = p.TotalValue ∧ cacheS = cacheP) ∧
      (∀ draws3, ∃ p3,
        GetPortfolio db cacheS ReadFaults.clean draws3 userID = ⟨some p3, none, cacheS⟩ ∧
          p3.TotalValue = stats.CurrentPortfolioValue) ∧
      (∀ draws3, ∃ stats3,
        GetStats db cacheP ReadFaults.clean ReadFaults.clean draws3 today userID =
            (some stats3, none, cacheP) ∧
          stats3.CurrentPortfolioValue = p.TotalValue) := by
  obtain ⟨shares, hstats⟩ := getStats_eq db cache draws1 today userID
  have hnd : ((selectHoldings db userID).map Prod.fst).Nodup := by
    rw [selectHoldings_symbols]
    exact distinct_nodup _
  rw [hstats, getPortfolio_eq db cache ReadFaults.clean draws2 userID rfl (fun _ => rfl) rfl]
  refine ⟨_, _, _, _, rfl, rfl, ?_, ?_, ?_, ?_⟩
  · intro hpriced
    have hrows := held_priced db cache userID hpriced
    refine ⟨?_, ?_, ?_⟩
    · simp only
      rw [pricedRows_draws db ReadFaults.clean draws1 draws2 (selectHoldings db userID) 0 cache
        hrows]
    · exact pricedRows_cache_priced db ReadFaults.clean draws1 _ 0 cache hrows
    · exact pricedRows_cache_priced db ReadFaults.clean draws2 _ 0 cache hrows
  · intro hd
    subst hd
    exact ⟨rfl, rfl⟩
  · intro draws3
    rw [getPortfolio_eq db _ ReadFaults.clean draws3 userID rfl (fun _ => rfl) rfl,
      pricedRows_replay db ReadFaults.clean ReadFaults.clean draws1 draws3 (fun _ => rfl)
        (fun _ => rfl) (selectHoldings db userID) 0 0 cache _ hnd (fun _ _ => rfl)]
    exact ⟨_, rfl, rfl⟩
  · intro draws3
    obtain ⟨shares3, hstats3⟩ := getStats_eq db
      (pricedRows db ReadFaults.clean draws2 (selectHoldings db userID) 0 cache).2 draws3 today
      userID
    rw [hstats3,
      pricedRows_replay db ReadFaults.clean ReadFaults.clean draws2 draws3 (fun _ => rfl)
        (fun _ => rfl) (selectHoldings db userID) 0 0 cache _ hnd (fun _ _ => rfl)]
    exact ⟨_, rfl, rfl⟩

/-- Witness for C17 (amended): `u1` holds 12 TCS, priced 3500.0000 in the store, and -2.5
INFY, priced 200.0000 in the cache; with different draws both calls give 41500.0000. -/
theorem getStats_value_eq_getPortfolio_total_witness :
    (GetStats
      ⟨[⟨"r1", "u1", "TCS", 5000000, 0, "e1"⟩, ⟨"r2", "u2", "TCS", 9000000, 0, "e2"⟩,
        ⟨"r3", "u1", "TCS", 7000000, 86400, "e3"⟩, ⟨"r4", "u1", "INFY", -2500000, 0, "e4"⟩],
        [], [⟨"TCS", 35000000, 5⟩], []⟩
      [("INFY", "200.0000")] ReadFaults.clean ReadFaults.clean (fun _ => ⟨false, 1, -1⟩) 1
      "u1").1 = some ⟨[("TCS", "7.000000")], "41500.0000"⟩ ∧
    ∃ stats p,
      (GetStats
        ⟨[⟨"r1", "u1", "TCS", 5000000, 0, "e1"⟩, ⟨"r2", "u2", "TCS", 9000000, 0, "e2"⟩,
        ⟨"r3", "u1", "TCS", 7000000, 86400, "e3"⟩, ⟨"r4", "u1", "INFY", -2500000, 0, "e4"⟩],
        [], [⟨"TCS", 35000000, 5⟩], []⟩
        [("INFY", "200.0000")] ReadFaults.clean ReadFaults.clean (fun _ => ⟨false, 1, -1⟩) 1
        "u1").1 = some stats ∧
      (GetPortfolio
        ⟨[⟨"r1", "u1", "TCS", 5000000, 0, "e1"⟩, ⟨"r2", "u2", "TCS", 9000000, 0, "e2"⟩,
        ⟨"r3", "u1", "TCS", 7000000, 86400, "e3"⟩, ⟨"r4", "u1", "INFY", -2500000, 0, "e4"⟩],
        [], [⟨"TCS", 35000000, 5⟩], []⟩
        [("INFY", "200.0000")] ReadFaults.clean (fun _ => ⟨false, 1, -2⟩) "u1").portfolio =
          some p ∧
      stats.CurrentPortfolioValue = p.TotalValue :=
  ⟨by rfl,
    match getStats_value_eq_getPortfolio_total
      ⟨[⟨"r1", "u1", "TCS", 5000000, 0, "e1"⟩, ⟨"r2", "u2", "TCS", 9000000, 0, "e2"⟩,
        ⟨"r3", "u1", "TCS", 7000000, 86400, "e3"⟩, ⟨"r4", "u1", "INFY", -2500000, 0, "e4"⟩],
        [], [⟨"TCS", 35000000, 5⟩], []⟩
      [("INFY", "200.0000")] (fun _ => ⟨false, 1, -1⟩) (fun _ => ⟨false, 1, -2⟩) 1 "u1" with
    | ⟨stats, p, _, _, h1, h2, h3, _⟩ =>
      ⟨stats, p, by rw [h1], by rw [h2],
        (h3 (by
          intro ev hev _
          simp only [List.mem_cons, List.mem_singleton, List.not_mem_nil, or_false] at hev
          rcases hev with rfl | rfl | rfl | rfl
          · exact Or.inl ⟨⟨"TCS", 35000000, 5⟩, by simp, rfl⟩
          · exact Or.inl ⟨⟨"TCS", 35000000, 5⟩, by simp, rfl⟩
          · exact Or.inl ⟨⟨"TCS", 35000000, 5⟩, by simp, rfl⟩
          · exact Or.inr ⟨"200.0000", by rfl⟩)).1⟩⟩

end Stocky
